import Mathlib

/-!
# Kafei renderer (`WalnutApp/src/Render.cpp`): a shallow embedding

The renderer is embedded function by function.  Conventions of the embedding:

* `float` values are rationals (`ℚ`); infinities and NaN are not represented.
  The functions are given twice.  In the first part the `float` operations are
  exact.  In the second part (names ending in `Fl`) every `float` operation is
  followed by a rounding `fl : ℚ → ℚ`: with `fl x = x` these are the functions of
  the first part, with `fl = roundBinary32` they compute in binary32 as the source
  does.  `glm::sqrt` is an argument `fsqrt : ℚ → ℚ` of every function that reaches
  it, and `Walnut::Random::Vec3` is the sequence `rand : ℕ → vec3` of the vectors
  it returns, together with the number of vectors drawn so far.
* `uint32_t` values are natural numbers, reduced modulo `2 ^ 32` wherever the
  source computes with them; `uint8_t` likewise modulo `2 ^ 8`.
* An access through a null pointer or outside a buffer has no defined result:
  the functions that can perform one return `Option`, and `none` stands for it.
-/

namespace glm

/-- The type `glm::vec3`. -/
structure vec3 where
  x : ℚ
  y : ℚ
  z : ℚ
deriving DecidableEq

/-- The type `glm::vec4`; the components are named as the source accesses them. -/
structure vec4 where
  r : ℚ
  g : ℚ
  b : ℚ
  a : ℚ
deriving DecidableEq

instance : Zero vec3 := ⟨⟨0, 0, 0⟩⟩
instance : Add vec3 := ⟨fun u v => ⟨u.x + v.x, u.y + v.y, u.z + v.z⟩⟩
instance : Sub vec3 := ⟨fun u v => ⟨u.x - v.x, u.y - v.y, u.z - v.z⟩⟩
instance : Neg vec3 := ⟨fun u => ⟨-u.x, -u.y, -u.z⟩⟩
instance : HMul vec3 ℚ vec3 := ⟨fun u s => ⟨u.x * s, u.y * s, u.z * s⟩⟩
instance : HMul ℚ vec3 vec3 := ⟨fun s u => ⟨s * u.x, s * u.y, s * u.z⟩⟩

instance : Zero vec4 := ⟨⟨0, 0, 0, 0⟩⟩
instance : One vec4 := ⟨⟨1, 1, 1, 1⟩⟩
instance : Add vec4 := ⟨fun u v => ⟨u.r + v.r, u.g + v.g, u.b + v.b, u.a + v.a⟩⟩
instance : HDiv vec4 ℚ vec4 := ⟨fun u s => ⟨u.r / s, u.g / s, u.b / s, u.a / s⟩⟩

/-- The function `glm::dot` on `vec3`. -/
def dot (u v : vec3) : ℚ := u.x * v.x + u.y * v.y + u.z * v.z

/-- The scalar `glm::max(x, y)`, which is `(x < y) ? y : x`. -/
def max (x y : ℚ) : ℚ := if x < y then y else x

/-- The scalar `glm::min(x, y)`, which is `(y < x) ? y : x`. -/
def min (x y : ℚ) : ℚ := if y < x then y else x

/-- The scalar `glm::clamp(x, minVal, maxVal)`, which is `min(max(x, minVal), maxVal)`. -/
def clampScalar (x minVal maxVal : ℚ) : ℚ := min (max x minVal) maxVal

/-- The function `glm::clamp` on `vec4`, component by component. -/
def clamp (v minVal maxVal : vec4) : vec4 :=
  ⟨clampScalar v.r minVal.r maxVal.r, clampScalar v.g minVal.g maxVal.g,
   clampScalar v.b minVal.b maxVal.b, clampScalar v.a minVal.a maxVal.a⟩

/-- The function `glm::normalize(v)`, which is `v * inversesqrt(dot(v, v))`. -/
def normalize (fsqrt : ℚ → ℚ) (v : vec3) : vec3 := v * (1 / fsqrt (dot v v))

/-- The function `glm::reflect(I, N)`, which is `I - N * dot(N, I) * 2`. -/
def reflect (I N : vec3) : vec3 := I - (N * dot N I) * (2 : ℚ)

end glm

/-- Conversion of a `float` to an integer type: the fractional part is discarded. -/
def truncToInt (x : ℚ) : ℤ := if 0 ≤ x then ⌊x⌋ else -⌊-x⌋

/-- The cast `uint8_t(x)` of a `float`: truncation, kept to eight bits. -/
def toUInt8 (x : ℚ) : ℕ := (truncToInt x % 256).toNat

/-- The cast of a `float` to `uint32_t`: truncation, kept to thirty-two bits. -/
def toUInt32 (x : ℚ) : ℕ := (truncToInt x % 2 ^ 32).toNat

namespace Utils

/-- The function `Utils::ConvertToRGBA` (Render.cpp, lines 5 to 13). -/
def ConvertToRGBA (color : glm.vec4) : ℕ :=
  let r := toUInt8 (color.r * 255)
  let g := toUInt8 (color.g * 255)
  let b := toUInt8 (color.b * 255)
  let a := toUInt8 (color.a * 255)
  ((a <<< 24) ||| (b <<< 16) ||| (g <<< 8) ||| r) % 2 ^ 32

end Utils

/-- The constant `std::numeric_limits<float>::max()`, which is `(2 ^ 24 - 1) * 2 ^ 104`. -/
def FLT_MAX : ℚ := (2 ^ 24 - 1) * 2 ^ 104

/-- Indexing of a `std::vector` by an `int`: defined for `0 ≤ i < size()`. -/
def vectorAt {α : Type} (v : List α) (i : ℤ) : Option α :=
  if 0 ≤ i then v[i.toNat]? else none

/-- Modelled from the spec: the declaration of `Material` (Scene.h) is not among the
sources; the fields are those of spec §3 that Render.cpp reads. -/
structure Material where
  Albedo : glm.vec3
  Roughness : ℚ
deriving DecidableEq

/-- Modelled from the spec: the declaration of `Sphere` (Scene.h) is not among the
sources; the fields are those of spec §3 that Render.cpp reads. -/
structure Sphere where
  Position : glm.vec3
  Radius : ℚ
  MaterialIndex : ℤ
deriving DecidableEq

/-- Modelled from the spec: the declaration of `Scene` (Scene.h) is not among the
sources; an ordered sequence of spheres, one of materials, and the light direction. -/
structure Scene where
  Spheres : List Sphere
  Materials : List Material
  lightDir : glm.vec3
deriving DecidableEq

/-- Modelled from the spec: the class `Camera` is not among the sources; Render.cpp
reads its position (`GetPosition`) and its table of ray directions, one per pixel,
row-major (`GetRayDirections`). -/
structure Camera where
  Position : glm.vec3
  RayDirections : List glm.vec3
deriving DecidableEq

/-- Modelled from the spec: the declaration of `Ray` (Ray.h) is not among the sources. -/
structure Ray where
  Origin : glm.vec3
  Direction : glm.vec3
deriving DecidableEq

/-- Modelled from the spec: the class `Walnut::Image` is not among the sources;
Render.cpp reads its width and height and asks it to resize. -/
structure Image where
  Width : ℕ
  Height : ℕ
deriving DecidableEq

/-- Modelled from the spec: `Walnut::Image::Resize`, after which the image has the
requested dimensions. -/
def Image.Resize (_img : Image) (width height : ℕ) : Image := ⟨width, height⟩

/-- Modelled from the spec: the `Settings` of the renderer (Render.h), of which
Render.cpp reads `Accumulate`. -/
structure Settings where
  Accumulate : Bool
deriving DecidableEq

/-- The record `Renderer::HitPayload`; the fields are those Render.cpp assigns.
The object index is an `int`, as the argument of `ClosestHit` it is copied from. -/
structure HitPayload where
  HitDistance : ℚ
  WorldPosition : glm.vec3
  WorldNormal : glm.vec3
  ObjectIndex : ℤ
deriving DecidableEq

/-- Modelled from the spec: the data members of `Renderer` (Render.h), as Render.cpp
uses them.  `m_FinalImage` is a possibly null shared pointer, the two buffers are
arrays (null is the empty array), `m_FrameIndex` is a 32-bit unsigned counter, and
`m_ActiveScene`, `m_ActiveCamera` are possibly null pointers, represented by the
scene and camera they point to. -/
structure Renderer where
  m_FinalImage : Option Image
  m_ImageData : List ℕ
  m_AccumulationData : List glm.vec4
  m_FrameIndex : ℕ
  m_Settings : Settings
  m_ActiveScene : Option Scene
  m_ActiveCamera : Option Camera
deriving DecidableEq

namespace Renderer

/-- Modelled from the spec: a newly constructed `Renderer` (Render.h): no image, no
buffers, frame index 1, accumulation enabled, no active scene or camera. -/
def init : Renderer :=
  { m_FinalImage := none, m_ImageData := [], m_AccumulationData := [],
    m_FrameIndex := 1, m_Settings := ⟨true⟩, m_ActiveScene := none, m_ActiveCamera := none }

/-- The function `Renderer::Miss` (lines 186 to 190): only `HitDistance` is assigned.
The other fields, which the source leaves uninitialised and no caller reads, are
zero here. -/
def Miss (_ray : Ray) : HitPayload :=
  { HitDistance := -1, WorldPosition := 0, WorldNormal := 0, ObjectIndex := 0 }

/-- The function `Renderer::ClosestHit` (lines 170 to 184), reading the scene that
`m_ActiveScene` points to. -/
def ClosestHit (fsqrt : ℚ → ℚ) (scene : Scene) (ray : Ray) (hitDistance : ℚ)
    (objectIndex : ℤ) : Option HitPayload :=
  match vectorAt scene.Spheres objectIndex with
  | none => none
  | some closestSphere =>
    let origin := ray.Origin - closestSphere.Position
    let position := origin + ray.Direction * hitDistance
    some { HitDistance := hitDistance
           ObjectIndex := objectIndex
           WorldNormal := glm.normalize fsqrt position
           WorldPosition := position + closestSphere.Position }

/-- The loop of `Renderer::TraceRay` (lines 100 to 122) over the spheres from index
`i` on, with the current values of `closestSphere` and `hitDistance`.  The cast
`(int)i` is the identity on the indices of a scene (fewer than `2 ^ 31` spheres). -/
def TraceRay.loop (fsqrt : ℚ → ℚ) (ray : Ray) :
    List Sphere → ℕ → ℤ → ℚ → ℤ × ℚ
  | [], _, closestSphere, hitDistance => (closestSphere, hitDistance)
  | sphere :: rest, i, closestSphere, hitDistance =>
    let origin := ray.Origin - sphere.Position
    let a := glm.dot ray.Direction ray.Direction
    let b := 2 * glm.dot origin ray.Direction
    let c := glm.dot origin origin - sphere.Radius * sphere.Radius
    let discriminant := b * b - 4 * a * c
    if discriminant < 0 then
      TraceRay.loop fsqrt ray rest (i + 1) closestSphere hitDistance
    else
      let closerT := (-b - fsqrt discriminant) / (2 * a)
      if closerT > 0 ∧ closerT < hitDistance then
        TraceRay.loop fsqrt ray rest (i + 1) (i : ℤ) closerT
      else
        TraceRay.loop fsqrt ray rest (i + 1) closestSphere hitDistance

/-- The function `Renderer::TraceRay` (lines 87 to 128), reading the scene that
`m_ActiveScene` points to. -/
def TraceRay (fsqrt : ℚ → ℚ) (scene : Scene) (ray : Ray) : Option HitPayload :=
  let res := TraceRay.loop fsqrt ray scene.Spheres 0 (-1) FLT_MAX
  if res.1 < 0 then some (Miss ray)
  else ClosestHit fsqrt scene ray res.2 res.1

/-- The sky colour of `PerPixel` (line 142). -/
def skyColor : glm.vec3 := ⟨3 / 5, 7 / 10, 9 / 10⟩

/-- The bounce loop of `Renderer::PerPixel` (lines 139 to 165) with `n` iterations
left; `k` counts the vectors drawn from `Walnut::Random::Vec3` so far. -/
def PerPixel.bounce (fsqrt : ℚ → ℚ) (rand : ℕ → glm.vec3) (scene : Scene) :
    ℕ → Ray → glm.vec3 → ℚ → ℕ → Option (glm.vec3 × ℕ)
  | 0, _, color, _, k => some (color, k)
  | n + 1, ray, color, multiplier, k =>
    match TraceRay fsqrt scene ray with
    | none => none
    | some payload =>
      if payload.HitDistance < 0 then
        some (color + skyColor * multiplier, k)
      else
        let lightDir := scene.lightDir
        let lightIntensity := glm.max (glm.dot payload.WorldNormal (-lightDir)) 0
        match vectorAt scene.Spheres payload.ObjectIndex with
        | none => none
        | some sphere =>
          match vectorAt scene.Materials sphere.MaterialIndex with
          | none => none
          | some material =>
            let sphereColor := material.Albedo * lightIntensity
            let color1 := color + sphereColor * multiplier
            let multiplier1 := multiplier * (1 / 2)
            let ray1 : Ray :=
              { Origin := payload.WorldPosition + payload.WorldNormal * (1 / 10000 : ℚ)
                Direction := glm.reflect ray.Direction
                  (payload.WorldNormal + material.Roughness * rand k) }
            PerPixel.bounce fsqrt rand scene n ray1 color1 multiplier1 (k + 1)

/-- The function `Renderer::PerPixel` (lines 130 to 168).  It reads the camera and
the scene through `m_ActiveCamera` and `m_ActiveScene`, and the image width. -/
def PerPixel (fsqrt : ℚ → ℚ) (rand : ℕ → glm.vec3) (r : Renderer) (k : ℕ) (x y : ℕ) :
    Option (glm.vec4 × ℕ) :=
  match r.m_ActiveCamera, r.m_ActiveScene, r.m_FinalImage with
  | some camera, some scene, some img =>
    match camera.RayDirections[(x + y * img.Width) % 2 ^ 32]? with
    | none => none
    | some direction =>
      let ray : Ray := { Origin := camera.Position, Direction := direction }
      match PerPixel.bounce fsqrt rand scene 5 ray 0 1 k with
      | none => none
      | some (color, k1) => some (⟨color.x, color.y, color.z, 1⟩, k1)
  | _, _, _ => none

/-- The call `memset(m_AccumulationData, 0, n * sizeof(glm::vec4))`. -/
def memsetZero (data : List glm.vec4) (n : ℕ) : Option (List glm.vec4) :=
  if n ≤ data.length then some (List.replicate n 0 ++ data.drop n) else none

/-- The body of the pixel loop of `Renderer::Render` (lines 27 to 33). -/
def Render.pixel (fsqrt : ℚ → ℚ) (rand : ℕ → glm.vec3) (x y : ℕ) (s : Renderer × ℕ) :
    Option (Renderer × ℕ) :=
  match s.1.m_FinalImage with
  | none => none
  | some img =>
    match PerPixel fsqrt rand s.1 s.2 x y with
    | none => none
    | some (color, k1) =>
      let idx := (x + y * img.Width) % 2 ^ 32
      match s.1.m_AccumulationData[idx]? with
      | none => none
      | some old =>
        let accumulatedColor := (old + color) / (s.1.m_FrameIndex : ℚ)
        let accumulatedColor1 := glm.clamp accumulatedColor 0 1
        if idx < s.1.m_ImageData.length then
          some ({ s.1 with
                    m_AccumulationData := s.1.m_AccumulationData.set idx (old + color)
                    m_ImageData :=
                      s.1.m_ImageData.set idx (Utils.ConvertToRGBA accumulatedColor1) }, k1)
        else none

/-- The function `Renderer::Render` (lines 16 to 43).  The second component of the
argument and of the result counts the random vectors drawn so far.  Division by a
frame index of zero (infinite or NaN in the source) has no faithful value here. -/
def Render (fsqrt : ℚ → ℚ) (rand : ℕ → glm.vec3) (scene : Scene) (camera : Camera)
    (s : Renderer × ℕ) : Option (Renderer × ℕ) :=
  let r1 : Renderer := { s.1 with m_ActiveScene := some scene, m_ActiveCamera := some camera }
  match r1.m_FinalImage with
  | none => none
  | some img =>
    let cleared : Option (List glm.vec4) :=
      if r1.m_FrameIndex = 1 then
        memsetZero r1.m_AccumulationData ((img.Width * img.Height) % 2 ^ 32)
      else some r1.m_AccumulationData
    match cleared with
    | none => none
    | some data =>
      let r2 : Renderer := { r1 with m_AccumulationData := data }
      match (List.range img.Height).foldlM
          (fun s1 y => (List.range img.Width).foldlM
            (fun s2 x => Render.pixel fsqrt rand x y s2) s1) (r2, s.2) with
      | none => none
      | some (r3, k1) =>
        some ({ r3 with
                  m_FrameIndex :=
                    if r3.m_Settings.Accumulate then (r3.m_FrameIndex + 1) % 2 ^ 32 else 1 },
              k1)

/-- The sub-pixel loops of `Renderer::RenderSSAA` (lines 53 to 59) for the pixel
`(x, y)`: the arguments of `PerPixel` are `float` sums converted to `uint32_t`. -/
def RenderSSAA.samples (fsqrt : ℚ → ℚ) (rand : ℕ → glm.vec3) (r : Renderer)
    (ssaaFactor x y : ℕ) (k : ℕ) : Option (glm.vec4 × ℕ) :=
  (List.range ssaaFactor).foldlM
    (fun c1 sy => (List.range ssaaFactor).foldlM
      (fun c2 sx =>
        let offX : ℚ := (sx : ℚ) / (ssaaFactor : ℚ)
        let offY : ℚ := (sy : ℚ) / (ssaaFactor : ℚ)
        match PerPixel fsqrt rand r c2.2 (toUInt32 ((x : ℚ) + offX))
            (toUInt32 ((y : ℚ) + offY)) with
        | none => none
        | some (color, k1) => some (c2.1 + color, k1)) c1)
    ((0 : glm.vec4), k)

/-- The body of the pixel loop of `Renderer::RenderSSAA` (lines 50 to 63). -/
def RenderSSAA.pixel (fsqrt : ℚ → ℚ) (rand : ℕ → glm.vec3) (x y : ℕ) (s : Renderer × ℕ) :
    Option (Renderer × ℕ) :=
  let ssaaFactor : ℕ := 2
  match s.1.m_FinalImage with
  | none => none
  | some img =>
    match RenderSSAA.samples fsqrt rand s.1 ssaaFactor x y s.2 with
    | none => none
    | some (ssaaColor, k1) =>
      let ssaaColor1 := ssaaColor / (((ssaaFactor * ssaaFactor) % 2 ^ 32 : ℕ) : ℚ)
      let ssaaColor2 := glm.clamp ssaaColor1 0 1
      let idx := (x + y * img.Width) % 2 ^ 32
      if idx < s.1.m_ImageData.length then
        some ({ s.1 with
                  m_ImageData := s.1.m_ImageData.set idx (Utils.ConvertToRGBA ssaaColor2) }, k1)
      else none

/-- The function `Renderer::RenderSSAA` (lines 45 to 67).  Its two arguments are
not read: `PerPixel` goes through `m_ActiveScene` and `m_ActiveCamera`, which this
function does not assign. -/
def RenderSSAA (fsqrt : ℚ → ℚ) (rand : ℕ → glm.vec3) (_scene : Scene) (_camera : Camera)
    (s : Renderer × ℕ) : Option (Renderer × ℕ) :=
  match s.1.m_FinalImage with
  | none => none
  | some img =>
    (List.range img.Height).foldlM
      (fun s1 y => (List.range img.Width).foldlM
        (fun s2 x => RenderSSAA.pixel fsqrt rand x y s2) s1) s

/-- The function `Renderer::OnResize` (lines 69 to 83).  `new T[n]` leaves the
elements of the arrays unset: `newImageData i` and `newAccumulationData i` are the
values found at element `i` of the new arrays. -/
def OnResize (r : Renderer) (width height : ℕ) (newImageData : ℕ → ℕ)
    (newAccumulationData : ℕ → glm.vec4) : Renderer :=
  let n := (width * height) % 2 ^ 32
  match r.m_FinalImage with
  | some img =>
    if img.Width = width ∧ img.Height = height then r
    else
      { r with
          m_FinalImage := some (img.Resize width height)
          m_ImageData := (List.range n).map newImageData
          m_AccumulationData := (List.range n).map newAccumulationData }
  | none =>
    { r with
        m_FinalImage := some ⟨width, height⟩
        m_ImageData := (List.range n).map newImageData
        m_AccumulationData := (List.range n).map newAccumulationData }

end Renderer


/-! ### The intersection test in the words of the specification (§4.2) -/

/-- The discriminant `b² − 4ac` of spec §4.2, with `o = ray.Origin − sphere.Position`,
`a = dot(D, D)`, `b = 2·dot(o, D)` and `c = dot(o, o) − r²`. -/
def discriminant (ray : Ray) (sphere : Sphere) : ℚ :=
  (2 * glm.dot (ray.Origin - sphere.Position) ray.Direction) *
      (2 * glm.dot (ray.Origin - sphere.Position) ray.Direction) -
    4 * glm.dot ray.Direction ray.Direction *
      (glm.dot (ray.Origin - sphere.Position) (ray.Origin - sphere.Position) -
        sphere.Radius * sphere.Radius)

/-- The near root `t = (−b − √discriminant) / (2a)` of spec §4.2. -/
def nearRoot (fsqrt : ℚ → ℚ) (ray : Ray) (sphere : Sphere) : ℚ :=
  (-(2 * glm.dot (ray.Origin - sphere.Position) ray.Direction) -
      fsqrt (discriminant ray sphere)) /
    (2 * glm.dot ray.Direction ray.Direction)

/-- A sphere whose near root is a candidate below the distance `best`: the
discriminant is not negative and the near root lies strictly between 0 and `best`. -/
def acceptedBelow (fsqrt : ℚ → ℚ) (ray : Ray) (best : ℚ) (sphere : Sphere) : Prop :=
  0 ≤ discriminant ray sphere ∧ 0 < nearRoot fsqrt ray sphere ∧
    nearRoot fsqrt ray sphere < best

/-- A sphere with an accepted near root: discriminant not negative, near root strictly
positive and below the initial best distance `FLT_MAX`. -/
def acceptedHit (fsqrt : ℚ → ℚ) (ray : Ray) (sphere : Sphere) : Prop :=
  acceptedBelow fsqrt ray FLT_MAX sphere

instance (fsqrt : ℚ → ℚ) (ray : Ray) (best : ℚ) (sphere : Sphere) :
    Decidable (acceptedBelow fsqrt ray best sphere) := by
  unfold acceptedBelow; exact inferInstance

instance (fsqrt : ℚ → ℚ) (ray : Ray) (sphere : Sphere) :
    Decidable (acceptedHit fsqrt ray sphere) := by
  unfold acceptedHit; exact inferInstance

/-- The value `fsqrt x` is the square root of `x`: it is not negative and its square
is `x`. -/
def IsSqrt (fsqrt : ℚ → ℚ) (x : ℚ) : Prop := 0 ≤ fsqrt x ∧ fsqrt x * fsqrt x = x

instance (fsqrt : ℚ → ℚ) (x : ℚ) : Decidable (IsSqrt fsqrt x) := by
  unfold IsSqrt; exact inferInstance

/-! ### The pixel loop of `Render`, one pixel index at a time -/

/-- The value `PerPixel` returns for the pixel whose index in the row-major tables
is `idx`, for a given active scene and camera; `k` counts the random vectors drawn. -/
def Renderer.sampleAt (fsqrt : ℚ → ℚ) (rand : ℕ → glm.vec3) (scene : Scene) (camera : Camera)
    (idx k : ℕ) : Option (glm.vec4 × ℕ) :=
  match camera.RayDirections[idx]? with
  | none => none
  | some direction =>
    match Renderer.PerPixel.bounce fsqrt rand scene 5
        { Origin := camera.Position, Direction := direction } 0 1 k with
    | none => none
    | some (color, k1) => some (⟨color.x, color.y, color.z, 1⟩, k1)

/-- The samples of the pixels whose indices are listed, computed in that order by
`pp`, each starting from the count of random vectors the previous one left. -/
def frameSamples (pp : ℕ → ℕ → Option (glm.vec4 × ℕ)) :
    List ℕ → ℕ → Option (List glm.vec4 × ℕ)
  | [], k => some ([], k)
  | idx :: rest, k =>
    match pp idx k with
    | none => none
    | some (color, k1) =>
      match frameSamples pp rest k1 with
      | none => none
      | some (colors, k2) => some (color :: colors, k2)

/-- The word written to the image for an accumulated colour at a frame index
(lines 29 to 33): division by the frame index, clamp to [0,1], encoding. -/
def Renderer.displayed (frameIndex : ℕ) (accumulated : glm.vec4) : ℕ :=
  Utils.ConvertToRGBA (glm.clamp (accumulated / (frameIndex : ℚ)) 0 1)

/-- The effect of one iteration of the pixel loop of `Render` on the two buffers and
on the count of random vectors, for the pixel of index `idx`. -/
def Renderer.bufferStep (pp : ℕ → ℕ → Option (glm.vec4 × ℕ)) (frameIndex : ℕ)
    (b : List glm.vec4 × List ℕ × ℕ) (idx : ℕ) : Option (List glm.vec4 × List ℕ × ℕ) :=
  match pp idx b.2.2 with
  | none => none
  | some (color, k1) =>
    match b.1[idx]? with
    | none => none
    | some old =>
      if idx < b.2.1.length then
        some (b.1.set idx (old + color),
              b.2.1.set idx (Renderer.displayed frameIndex (old + color)), k1)
      else none

/-- A renderer with its two buffers replaced. -/
def Renderer.withBuffers (r : Renderer) (b : List glm.vec4 × List ℕ × ℕ) : Renderer × ℕ :=
  ({ r with m_AccumulationData := b.1, m_ImageData := b.2.1 }, b.2.2)

/-- The accumulation buffer the pixel loop of `Render` starts from: zeroed when the
frame index is 1 (lines 21 to 23), otherwise as the previous call left it. -/
def Renderer.frameBase (r : Renderer) : List glm.vec4 :=
  if r.m_FrameIndex = 1 then List.replicate r.m_AccumulationData.length 0
  else r.m_AccumulationData

/-- The frame index `Render` leaves (lines 39 to 42). -/
def Renderer.nextFrameIndex (r : Renderer) : ℕ :=
  if r.m_Settings.Accumulate then (r.m_FrameIndex + 1) % 2 ^ 32 else 1

/-- The fields of a renderer that the pixel loops leave alone, and the sizes of its
buffers. -/
def Renderer.sameShape (r r1 : Renderer) : Prop :=
  r1.m_FinalImage = r.m_FinalImage ∧ r1.m_FrameIndex = r.m_FrameIndex ∧
  r1.m_Settings = r.m_Settings ∧
  r1.m_AccumulationData.length = r.m_AccumulationData.length ∧
  r1.m_ImageData.length = r.m_ImageData.length

/-! ### Contracts of spec §3 and §6, sequences of calls, reachable states -/

/-- The scene precondition of spec §3: every sphere names a material of the scene. -/
def Scene.valid (scene : Scene) : Prop :=
  ∀ sphere ∈ scene.Spheres,
    0 ≤ sphere.MaterialIndex ∧ sphere.MaterialIndex.toNat < scene.Materials.length

/-- The render contract of spec §6 on the renderer: an image of `W` by `H` pixels
exists and the two buffers have one element per pixel, the number of pixels being
a `uint32_t` value. -/
structure Renderer.Sized (r : Renderer) (W H : ℕ) : Prop where
  image : r.m_FinalImage = some ⟨W, H⟩
  fits : W * H < 2 ^ 32
  accum : r.m_AccumulationData.length = W * H
  data : r.m_ImageData.length = W * H

/-- Calls of `Render` one after the other: call number `n + 1` is given `scenes n` and
`cameras n`. -/
def Renderer.renderSeq (fsqrt : ℚ → ℚ) (rand : ℕ → glm.vec3) (scenes : ℕ → Scene)
    (cameras : ℕ → Camera) : ℕ → Renderer × ℕ → Option (Renderer × ℕ)
  | 0, s => some s
  | n + 1, s =>
    match Renderer.renderSeq fsqrt rand scenes cameras n s with
    | none => none
    | some s1 => Renderer.Render fsqrt rand (scenes n) (cameras n) s1

/-- The sum `s_1 + ... + s_n` at pixel `p` of the samples of the first `n` calls, added
in the order of the calls, `ss i` being the list of the samples of call `i + 1`. -/
def sampleSum (ss : ℕ → List glm.vec4) (p : ℕ) : ℕ → glm.vec4
  | 0 => 0
  | n + 1 => sampleSum ss p n + (ss n).getD p 0

/-- The states a renderer can be in after `n` calls of `Render`, together with the
count of random vectors drawn: a new renderer, and what `OnResize`, `Render`,
`RenderSSAA` and a change of the settings by the application make of such a state. -/
inductive Renderer.ReachableIn (fsqrt : ℚ → ℚ) (rand : ℕ → glm.vec3) :
    ℕ → Renderer × ℕ → Prop
  | init (k : ℕ) : Renderer.ReachableIn fsqrt rand 0 (Renderer.init, k)
  | onResize {n : ℕ} {s : Renderer × ℕ} (width height : ℕ) (newImageData : ℕ → ℕ)
      (newAccumulationData : ℕ → glm.vec4) :
      Renderer.ReachableIn fsqrt rand n s → width < 2 ^ 32 → height < 2 ^ 32 →
      Renderer.ReachableIn fsqrt rand n
        (Renderer.OnResize s.1 width height newImageData newAccumulationData, s.2)
  | render {n : ℕ} {s s1 : Renderer × ℕ} (scene : Scene) (camera : Camera) :
      Renderer.ReachableIn fsqrt rand n s →
      Renderer.Render fsqrt rand scene camera s = some s1 →
      Renderer.ReachableIn fsqrt rand (n + 1) s1
  | renderSSAA {n : ℕ} {s s1 : Renderer × ℕ} (scene : Scene) (camera : Camera) :
      Renderer.ReachableIn fsqrt rand n s →
      Renderer.RenderSSAA fsqrt rand scene camera s = some s1 →
      Renderer.ReachableIn fsqrt rand n s1
  | settings {n : ℕ} {s : Renderer × ℕ} (settings : Settings) :
      Renderer.ReachableIn fsqrt rand n s →
      Renderer.ReachableIn fsqrt rand n ({ s.1 with m_Settings := settings }, s.2)

/-- The reachable states of a renderer, after any number of calls. -/
def Renderer.Reachable (fsqrt : ℚ → ℚ) (rand : ℕ → glm.vec3) (s : Renderer × ℕ) : Prop :=
  ∃ n, Renderer.ReachableIn fsqrt rand n s

/-- The buffers of a renderer agree with its image: without an image there are no
buffers, and with an image both buffers have the number of elements `OnResize`
allocates for its dimensions; the frame index is a `uint32_t` value. -/
def Renderer.WellFormed (r : Renderer) : Prop :=
  r.m_FrameIndex < 2 ^ 32 ∧
  match r.m_FinalImage with
  | none => r.m_AccumulationData.length = 0 ∧ r.m_ImageData.length = 0
  | some img =>
    img.Width < 2 ^ 32 ∧ img.Height < 2 ^ 32 ∧
    r.m_AccumulationData.length = (img.Width * img.Height) % 2 ^ 32 ∧
    r.m_ImageData.length = (img.Width * img.Height) % 2 ^ 32

/-- The accumulation-mean property of `N` consecutive calls of `Render` from the state
`(r, k0)` on an image of `W` by `H` pixels: the calls return, and with `ss n` the
list of the `PerPixel` samples of call `n + 1` (computed from the count `ks n` of
random vectors that call starts with), every entry `p` of the accumulation buffer
is `s_1 + ... + s_N` and every pixel of the image is the encoding of the clamped
mean `(s_1 + ... + s_N) / N`. -/
def Renderer.AccumulationMean (fsqrt : ℚ → ℚ) (rand : ℕ → glm.vec3) (scenes : ℕ → Scene)
    (cameras : ℕ → Camera) (r : Renderer) (k0 W H N : ℕ) : Prop :=
  ∃ (ss : ℕ → List glm.vec4) (ks : ℕ → ℕ) (rN : Renderer),
    ks 0 = k0 ∧
    (∀ n, n < N →
      frameSamples (Renderer.sampleAt fsqrt rand (scenes n) (cameras n))
        (List.range (W * H)) (ks n) = some (ss n, ks (n + 1))) ∧
    Renderer.renderSeq fsqrt rand scenes cameras N (r, k0) = some (rN, ks N) ∧
    ∀ p, p < W * H →
      rN.m_AccumulationData[p]? = some (sampleSum ss p N) ∧
      rN.m_ImageData[p]? =
        some (Utils.ConvertToRGBA (glm.clamp (sampleSum ss p N / (N : ℚ)) 0 1))

/-! ### Rounding to `float`, for the check of the encoding round trip -/

/-- The number of binary digits of `n` minus one, for `n > 0`, by halving at most
`fuel` times. -/
def log2Fuel : ℕ → ℕ → ℕ
  | 0, _ => 0
  | fuel + 1, n => if n < 2 then 0 else log2Fuel fuel (n / 2) + 1

/-- The integer `e` with `2 ^ e ≤ x < 2 ^ (e + 1)`, for a rational `x > 0`. -/
def floorLog2 (x : ℚ) : ℤ :=
  let e0 : ℤ := (log2Fuel x.num.toNat x.num.toNat : ℤ) - (log2Fuel x.den x.den : ℤ)
  if (2 : ℚ) ^ e0 ≤ x then e0 else e0 - 1

/-- Rounding of a rational that is not negative to the nearest integer, ties to even. -/
def roundHalfEven (m : ℚ) : ℤ :=
  let f := ⌊m⌋
  if m - f < 1 / 2 then f
  else if 1 / 2 < m - f then f + 1
  else if f % 2 = 0 then f else f + 1

/-- Rounding to the nearest IEEE 754 binary32 value (24 significant bits, ties to
even), for values in the normal range of `float`. -/
def roundBinary32 (x : ℚ) : ℚ :=
  if x = 0 then 0
  else
    let ulp : ℚ := (2 : ℚ) ^ (floorLog2 |x| - 23)
    (if 0 < x then 1 else -1) * (roundHalfEven (|x| / ulp) : ℚ) * ulp

/-! ### The bounces of `PerPixel` in the words of the specification (§4.3) -/

/-- The ray `PerPixel` continues with after a hit (lines 163 and 164): the origin is
moved off the surface along the normal, the direction is reflected about the normal
perturbed by the roughness times the random vector number `k`. -/
def Renderer.PerPixel.nextRay (rand : ℕ → glm.vec3) (ray : Ray) (payload : HitPayload)
    (material : Material) (k : ℕ) : Ray :=
  { Origin := payload.WorldPosition + payload.WorldNormal * (1 / 10000 : ℚ)
    Direction := glm.reflect ray.Direction
      (payload.WorldNormal + material.Roughness * rand k) }

/-- The components of a `vec4` rounded to binary32. -/
def glm.roundVec4 (v : glm.vec4) : glm.vec4 :=
  ⟨roundBinary32 v.r, roundBinary32 v.g, roundBinary32 v.b, roundBinary32 v.a⟩

/-- The function `Utils::ConvertToRGBA` with its four `float` products rounded to
binary32. -/
def Utils.ConvertToRGBABinary32 (color : glm.vec4) : ℕ :=
  let r := toUInt8 (roundBinary32 (color.r * 255))
  let g := toUInt8 (roundBinary32 (color.g * 255))
  let b := toUInt8 (roundBinary32 (color.b * 255))
  let a := toUInt8 (roundBinary32 (color.a * 255))
  ((a <<< 24) ||| (b <<< 16) ||| (g <<< 8) ||| r) % 2 ^ 32

/-- Lines 28 to 33 of `Render` for one pixel, with the result of every `float`
operation rounded to binary32: the sum with the sample, the conversion of the frame
index, the division, the clamp and the encoding.  The result is the new entry of the
accumulation buffer and the word written to the image. -/
def Renderer.Render.pixelBinary32 (frameIndex : ℕ) (old color : glm.vec4) : glm.vec4 × ℕ :=
  let accumulated := glm.roundVec4 (old + color)
  let accumulatedColor := glm.roundVec4 (accumulated / roundBinary32 (frameIndex : ℚ))
  (accumulated, Utils.ConvertToRGBABinary32 (glm.clamp accumulatedColor 0 1))

/-- The sample `PerPixel` returns for a miss of the primary ray, as `float` values: the
constants `0.6f`, `0.7f`, `0.9f` (times the multiplier 1, added to 0) and alpha 1. -/
def skySampleBinary32 : glm.vec4 :=
  ⟨roundBinary32 (3 / 5), roundBinary32 (7 / 10), roundBinary32 (9 / 10), 1⟩

/-- The entry of the accumulation buffer and the word written for a pixel whose sample
is the sky colour in every call, after `n` accumulating calls of `Render` from frame
index 1 (where the buffer is zeroed), in binary32 arithmetic. -/
def skyFrameBinary32 : ℕ → glm.vec4 × ℕ
  | 0 => (0, 0)
  | n + 1 => Renderer.Render.pixelBinary32 (n + 1) (skyFrameBinary32 n).1 skySampleBinary32

/-! ### Concrete inputs on which the theorems are instantiated -/

/-- A scene without spheres. -/
def emptyScene : Scene := { Spheres := [], Materials := [], lightDir := ⟨-1, -1, -1⟩ }

/-- A scene with one sphere of radius 1 at the origin, lit along the z axis. -/
def oneSphereScene : Scene :=
  { Spheres := [⟨⟨0, 0, 0⟩, 1, 0⟩], Materials := [⟨⟨1, 0, 1⟩, 0⟩], lightDir := ⟨0, 0, 1⟩ }

/-- A scene with a far sphere stored first and two coinciding nearer spheres. -/
def tieScene : Scene :=
  { Spheres := [⟨⟨0, 0, 10⟩, 1, 0⟩, ⟨⟨0, 0, 0⟩, 1, 0⟩, ⟨⟨0, 0, 0⟩, 1, 0⟩]
    Materials := [⟨⟨1, 0, 1⟩, 0⟩]
    lightDir := ⟨-1, -1, -1⟩ }

/-- The ray from `(0, 0, -5)` along the z axis. -/
def axisRay : Ray := ⟨⟨0, 0, -5⟩, ⟨0, 0, 1⟩⟩

/-- A camera at `(0, 0, -5)` for an image of one pixel, looking along the z axis. -/
def unitCamera : Camera := ⟨⟨0, 0, -5⟩, [⟨0, 0, 1⟩]⟩

/-- A random sampler that always returns the zero vector. -/
def zeroRand : ℕ → glm.vec3 := fun _ => 0

/-- A renderer resized to one pixel whose new arrays held the values 7 and
`(9, 9, 9, 9)`. -/
def staleRenderer : Renderer :=
  Renderer.OnResize Renderer.init 1 1 (fun _ => 7) (fun _ => ⟨9, 9, 9, 9⟩)

/-- A camera at `(0, 0, -5)` for an image of two pixels. -/
def twoPixelCamera : Camera := ⟨⟨0, 0, -5⟩, [⟨0, 0, 1⟩, ⟨0, 1, 0⟩]⟩

/-- The scenes of a sequence of calls: first the sphere, then no sphere. -/
def sphereThenEmpty : ℕ → Scene := fun n => if n = 0 then oneSphereScene else emptyScene

/-- The sky colour as `PerPixel` returns it, with alpha 1. -/
def skySample : glm.vec4 := ⟨3 / 5, 7 / 10, 9 / 10, 1⟩

/-! ### The same functions with the rounding of every `float` operation explicit

In the definitions of this part `fl x` is the `float` that an arithmetic operation
returns when its exact result is `x`, and `fsqrt x` the `float` that `glm::sqrt`
returns for `x`.  With `fl x = x` they are the functions of the first part (exact
arithmetic); with `fl = roundBinary32` and `fsqrt = sqrtBinary32` they compute as
the source does in binary32 (overflow, underflow and NaN apart). -/

/-- The components of a `vec3`, each rounded by `fl`. -/
def glm.round3 (fl : ℚ → ℚ) (v : glm.vec3) : glm.vec3 := ⟨fl v.x, fl v.y, fl v.z⟩

/-- The components of a `vec4`, each rounded by `fl`. -/
def glm.round4 (fl : ℚ → ℚ) (v : glm.vec4) : glm.vec4 := ⟨fl v.r, fl v.g, fl v.b, fl v.a⟩

/-- The function `glm::dot` on `vec3`: the three products, then `(x + y) + z`, with
every operation rounded. -/
def glm.dotFl (fl : ℚ → ℚ) (u v : glm.vec3) : ℚ :=
  fl (fl (fl (u.x * v.x) + fl (u.y * v.y)) + fl (u.z * v.z))

/-- The function `glm::normalize(v)`, which is `v * (1 / sqrt(dot(v, v)))`, with every
operation rounded. -/
def glm.normalizeFl (fl fsqrt : ℚ → ℚ) (v : glm.vec3) : glm.vec3 :=
  glm.round3 fl (v * fl (1 / fsqrt (glm.dotFl fl v v)))

/-- The function `glm::reflect(I, N)`, which is `I - N * dot(N, I) * 2`, with every
operation rounded. -/
def glm.reflectFl (fl : ℚ → ℚ) (I N : glm.vec3) : glm.vec3 :=
  glm.round3 fl (I - glm.round3 fl (glm.round3 fl (N * glm.dotFl fl N I) * (2 : ℚ)))

/-- The function `Utils::ConvertToRGBA` (lines 5 to 13) with its four products
rounded. -/
def Utils.ConvertToRGBAFl (fl : ℚ → ℚ) (color : glm.vec4) : ℕ :=
  let r := toUInt8 (fl (color.r * 255))
  let g := toUInt8 (fl (color.g * 255))
  let b := toUInt8 (fl (color.b * 255))
  let a := toUInt8 (fl (color.a * 255))
  ((a <<< 24) ||| (b <<< 16) ||| (g <<< 8) ||| r) % 2 ^ 32

/-- The function `Renderer::ClosestHit` (lines 170 to 184) with every operation
rounded. -/
def Renderer.ClosestHitFl (fl fsqrt : ℚ → ℚ) (scene : Scene) (ray : Ray) (hitDistance : ℚ)
    (objectIndex : ℤ) : Option HitPayload :=
  match vectorAt scene.Spheres objectIndex with
  | none => none
  | some closestSphere =>
    let origin := glm.round3 fl (ray.Origin - closestSphere.Position)
    let position := glm.round3 fl (origin + glm.round3 fl (ray.Direction * hitDistance))
    some { HitDistance := hitDistance
           ObjectIndex := objectIndex
           WorldNormal := glm.normalizeFl fl fsqrt position
           WorldPosition := glm.round3 fl (position + closestSphere.Position) }

/-- The loop of `Renderer::TraceRay` (lines 100 to 122) with every operation rounded:
`b * b - 4.0f * a * c` is `(b * b) - ((4 * a) * c)`. -/
def Renderer.TraceRayFl.loop (fl fsqrt : ℚ → ℚ) (ray : Ray) :
    List Sphere → ℕ → ℤ → ℚ → ℤ × ℚ
  | [], _, closestSphere, hitDistance => (closestSphere, hitDistance)
  | sphere :: rest, i, closestSphere, hitDistance =>
    let origin := glm.round3 fl (ray.Origin - sphere.Position)
    let a := glm.dotFl fl ray.Direction ray.Direction
    let b := fl (2 * glm.dotFl fl origin ray.Direction)
    let c := fl (glm.dotFl fl origin origin - fl (sphere.Radius * sphere.Radius))
    let discriminant := fl (fl (b * b) - fl (fl (4 * a) * c))
    if discriminant < 0 then
      Renderer.TraceRayFl.loop fl fsqrt ray rest (i + 1) closestSphere hitDistance
    else
      let closerT := fl (fl (-b - fsqrt discriminant) / fl (2 * a))
      if closerT > 0 ∧ closerT < hitDistance then
        Renderer.TraceRayFl.loop fl fsqrt ray rest (i + 1) (i : ℤ) closerT
      else
        Renderer.TraceRayFl.loop fl fsqrt ray rest (i + 1) closestSphere hitDistance

/-- The function `Renderer::TraceRay` (lines 87 to 128) with every operation rounded. -/
def Renderer.TraceRayFl (fl fsqrt : ℚ → ℚ) (scene : Scene) (ray : Ray) : Option HitPayload :=
  let res := Renderer.TraceRayFl.loop fl fsqrt ray scene.Spheres 0 (-1) FLT_MAX
  if res.1 < 0 then some (Renderer.Miss ray)
  else Renderer.ClosestHitFl fl fsqrt scene ray res.2 res.1

/-- The bounce loop of `Renderer::PerPixel` (lines 139 to 165) with every operation
rounded; the constants `0.6f`, `0.7f`, `0.9f` and `0.0001f` are the `float` values of
the decimal literals, and `0.5f` is exact. -/
def Renderer.PerPixelFl.bounce (fl fsqrt : ℚ → ℚ) (rand : ℕ → glm.vec3) (scene : Scene) :
    ℕ → Ray → glm.vec3 → ℚ → ℕ → Option (glm.vec3 × ℕ)
  | 0, _, color, _, k => some (color, k)
  | n + 1, ray, color, multiplier, k =>
    match Renderer.TraceRayFl fl fsqrt scene ray with
    | none => none
    | some payload =>
      if payload.HitDistance < 0 then
        let skyColor : glm.vec3 := ⟨fl (3 / 5), fl (7 / 10), fl (9 / 10)⟩
        some (glm.round3 fl (color + glm.round3 fl (skyColor * multiplier)), k)
      else
        let lightDir := scene.lightDir
        let lightIntensity := glm.max (glm.dotFl fl payload.WorldNormal (-lightDir)) 0
        match vectorAt scene.Spheres payload.ObjectIndex with
        | none => none
        | some sphere =>
          match vectorAt scene.Materials sphere.MaterialIndex with
          | none => none
          | some material =>
            let sphereColor := glm.round3 fl (material.Albedo * lightIntensity)
            let color1 := glm.round3 fl (color + glm.round3 fl (sphereColor * multiplier))
            let multiplier1 := fl (multiplier * (1 / 2))
            let ray1 : Ray :=
              { Origin := glm.round3 fl
                  (payload.WorldPosition + glm.round3 fl (payload.WorldNormal * fl (1 / 10000)))
                Direction := glm.reflectFl fl ray.Direction
                  (glm.round3 fl
                    (payload.WorldNormal + glm.round3 fl (material.Roughness * rand k))) }
            Renderer.PerPixelFl.bounce fl fsqrt rand scene n ray1 color1 multiplier1 (k + 1)

/-- The function `Renderer::PerPixel` (lines 130 to 168) with every operation rounded. -/
def Renderer.PerPixelFl (fl fsqrt : ℚ → ℚ) (rand : ℕ → glm.vec3) (r : Renderer) (k : ℕ)
    (x y : ℕ) : Option (glm.vec4 × ℕ) :=
  match r.m_ActiveCamera, r.m_ActiveScene, r.m_FinalImage with
  | some camera, some scene, some img =>
    match camera.RayDirections[(x + y * img.Width) % 2 ^ 32]? with
    | none => none
    | some direction =>
      let ray : Ray := { Origin := camera.Position, Direction := direction }
      match Renderer.PerPixelFl.bounce fl fsqrt rand scene 5 ray 0 1 k with
      | none => none
      | some (color, k1) => some (⟨color.x, color.y, color.z, 1⟩, k1)
  | _, _, _ => none

/-- The body of the pixel loop of `Renderer::Render` (lines 27 to 33) with every
operation rounded: the sum with the sample, the conversion of the frame index to
`float`, the division, and the products of the encoding. -/
def Renderer.RenderFl.pixel (fl fsqrt : ℚ → ℚ) (rand : ℕ → glm.vec3) (x y : ℕ)
    (s : Renderer × ℕ) : Option (Renderer × ℕ) :=
  match s.1.m_FinalImage with
  | none => none
  | some img =>
    match Renderer.PerPixelFl fl fsqrt rand s.1 s.2 x y with
    | none => none
    | some (color, k1) =>
      let idx := (x + y * img.Width) % 2 ^ 32
      match s.1.m_AccumulationData[idx]? with
      | none => none
      | some old =>
        let accumulated := glm.round4 fl (old + color)
        let accumulatedColor := glm.round4 fl (accumulated / fl (s.1.m_FrameIndex : ℚ))
        let accumulatedColor1 := glm.clamp accumulatedColor 0 1
        if idx < s.1.m_ImageData.length then
          some ({ s.1 with
                    m_AccumulationData := s.1.m_AccumulationData.set idx accumulated
                    m_ImageData :=
                      s.1.m_ImageData.set idx (Utils.ConvertToRGBAFl fl accumulatedColor1) },
                k1)
        else none

/-- The function `Renderer::Render` (lines 16 to 43) with every `float` operation
rounded. -/
def Renderer.RenderFl (fl fsqrt : ℚ → ℚ) (rand : ℕ → glm.vec3) (scene : Scene)
    (camera : Camera) (s : Renderer × ℕ) : Option (Renderer × ℕ) :=
  let r1 : Renderer := { s.1 with m_ActiveScene := some scene, m_ActiveCamera := some camera }
  match r1.m_FinalImage with
  | none => none
  | some img =>
    let cleared : Option (List glm.vec4) :=
      if r1.m_FrameIndex = 1 then
        Renderer.memsetZero r1.m_AccumulationData ((img.Width * img.Height) % 2 ^ 32)
      else some r1.m_AccumulationData
    match cleared with
    | none => none
    | some data =>
      let r2 : Renderer := { r1 with m_AccumulationData := data }
      match (List.range img.Height).foldlM
          (fun s1 y => (List.range img.Width).foldlM
            (fun s2 x => Renderer.RenderFl.pixel fl fsqrt rand x y s2) s1) (r2, s.2) with
      | none => none
      | some (r3, k1) =>
        some ({ r3 with
                  m_FrameIndex :=
                    if r3.m_Settings.Accumulate then (r3.m_FrameIndex + 1) % 2 ^ 32 else 1 },
              k1)

/-- Calls of `RenderFl` one after the other: call number `n + 1` is given `scenes n`
and `cameras n`. -/
def Renderer.renderSeqFl (fl fsqrt : ℚ → ℚ) (rand : ℕ → glm.vec3) (scenes : ℕ → Scene)
    (cameras : ℕ → Camera) : ℕ → Renderer × ℕ → Option (Renderer × ℕ)
  | 0, s => some s
  | n + 1, s =>
    match Renderer.renderSeqFl fl fsqrt rand scenes cameras n s with
    | none => none
    | some s1 => Renderer.RenderFl fl fsqrt rand (scenes n) (cameras n) s1

/-- The value `PerPixelFl` returns for the pixel whose index in the row-major tables
is `idx`, for a given active scene and camera. -/
def Renderer.sampleAtFl (fl fsqrt : ℚ → ℚ) (rand : ℕ → glm.vec3) (scene : Scene)
    (camera : Camera) (idx k : ℕ) : Option (glm.vec4 × ℕ) :=
  match camera.RayDirections[idx]? with
  | none => none
  | some direction =>
    match Renderer.PerPixelFl.bounce fl fsqrt rand scene 5
        { Origin := camera.Position, Direction := direction } 0 1 k with
    | none => none
    | some (color, k1) => some (⟨color.x, color.y, color.z, 1⟩, k1)

/-- The running sum at pixel `p` of the samples of the first `n` calls as the
accumulation buffer holds it: zero, then each sample added with rounding. -/
def runningSum (fl : ℚ → ℚ) (ss : ℕ → List glm.vec4) (p : ℕ) : ℕ → glm.vec4
  | 0 => 0
  | n + 1 => glm.round4 fl (runningSum fl ss p n + (ss n).getD p 0)

/-- The word written to the image for an accumulated colour at a frame index (lines 29
to 33), with every operation rounded. -/
def Renderer.displayedFl (fl : ℚ → ℚ) (frameIndex : ℕ) (accumulated : glm.vec4) : ℕ :=
  Utils.ConvertToRGBAFl fl
    (glm.clamp (glm.round4 fl (accumulated / fl (frameIndex : ℚ))) 0 1)

/-- The integer square root of `n < 4 ^ bits`, two binary digits of `n` at a time: the
root of `n` is twice the root of `n / 4`, or one more. -/
def isqrtBits : ℕ → ℕ → ℕ
  | 0, _ => 0
  | bits + 1, n =>
    let r := 2 * isqrtBits bits (n / 4)
    if (r + 1) * (r + 1) ≤ n then r + 1 else r

/-- The integer square root: the largest `s` with `s * s ≤ n`. -/
def isqrt (n : ℕ) : ℕ := isqrtBits (log2Fuel n n + 1) n

/-- The `float` nearest to the square root of `x ≥ 0` (binary32, ties to even), as
`glm::sqrt` returns it: the integer square root of `x * 4 ^ k`, with half a unit added
when it is not exact, is on the same side of every binary32 value and of every
midpoint between two of them as the root itself. -/
def sqrtBinary32 (x : ℚ) : ℚ :=
  if x ≤ 0 then 0
  else
    let k : ℕ := 25 + (floorLog2 x).natAbs
    let s : ℕ := isqrt ⌊x * 4 ^ k⌋.toNat
    let sticky : ℚ := if (s : ℚ) * s = x * 4 ^ k then 0 else 1 / 2
    roundBinary32 (((s : ℚ) + sticky) / 2 ^ k)

/-- A square root rounded upward to a multiple of `2 ^ (-24)`: a value that is not
below the square root of `x`. -/
def sqrtUp (x : ℚ) : ℚ := ((isqrt ⌊x * 4 ^ 24⌋.toNat + 1 : ℕ) : ℚ) / 2 ^ 24

/-- The value `fsqrt x` is not below the square root of `x`: it is not negative and its
square is at least `x`.  The exact square root and a square root rounded upward are
not below the square root; one rounded to nearest or downward can be. -/
def NotBelowSqrt (fsqrt : ℚ → ℚ) (x : ℚ) : Prop := 0 ≤ fsqrt x ∧ x ≤ fsqrt x * fsqrt x

instance (fsqrt : ℚ → ℚ) (x : ℚ) : Decidable (NotBelowSqrt fsqrt x) := by
  unfold NotBelowSqrt; exact inferInstance

/-! ### Further inputs on which the theorems are instantiated -/

/-- A ray from the point `(1/2, 0, 0)` inside the sphere of `oneSphereScene`, along the
z axis; its discriminant for that sphere is 3. -/
def insideRay : Ray := ⟨⟨1 / 2, 0, 0⟩, ⟨0, 0, 1⟩⟩

/-- A ray from `(1/2, 0, -5)` along the z axis, which hits the sphere of
`oneSphereScene` off its axis; its discriminant for that sphere is 3. -/
def offAxisRay : Ray := ⟨⟨1 / 2, 0, -5⟩, ⟨0, 0, 1⟩⟩

/-- A scene with one sphere at the origin whose radius is the `float` `0.1f`. -/
def tenthSphereScene : Scene :=
  { Spheres := [⟨⟨0, 0, 0⟩, roundBinary32 (1 / 10), 0⟩], Materials := [⟨⟨1, 0, 1⟩, 0⟩],
    lightDir := ⟨0, 0, 1⟩ }

/-- A scene with one sphere at the origin whose radius is the `float` `3.12f`. -/
def wideSphereScene : Scene :=
  { Spheres := [⟨⟨0, 0, 0⟩, roundBinary32 (78 / 25), 0⟩], Materials := [⟨⟨1, 0, 1⟩, 0⟩],
    lightDir := ⟨0, 0, 1⟩ }

/-- A ray from the `float` point `(1.625, 349099 / 2 ^ 17, 0)`, which lies strictly
inside the sphere of `wideSphereScene`, in the direction `(-1, 0, 0)`. -/
def grazingRay : Ray := ⟨⟨13 / 8, 349099 / 131072, 0⟩, ⟨-1, 0, 0⟩⟩

/-! ### The pixel loop of `RenderFl`, one pixel index at a time -/

/-- The effect of one iteration of the pixel loop of `RenderFl` on the two buffers and
on the count of random vectors, for the pixel of index `idx`. -/
def Renderer.bufferStepFl (fl : ℚ → ℚ) (pp : ℕ → ℕ → Option (glm.vec4 × ℕ)) (frameIndex : ℕ)
    (b : List glm.vec4 × List ℕ × ℕ) (idx : ℕ) : Option (List glm.vec4 × List ℕ × ℕ) :=
  match pp idx b.2.2 with
  | none => none
  | some (color, k1) =>
    match b.1[idx]? with
    | none => none
    | some old =>
      if idx < b.2.1.length then
        some (b.1.set idx (glm.round4 fl (old + color)),
              b.2.1.set idx (Renderer.displayedFl fl frameIndex (glm.round4 fl (old + color))),
              k1)
      else none

/-- The rounded sum of an accumulated colour and a sample (line 28). -/
def glm.addFl (fl : ℚ → ℚ) (old color : glm.vec4) : glm.vec4 := glm.round4 fl (old + color)

/-- A renderer resized to two pixels in a row, with zeros in its new arrays. -/
def twoPixelRenderer : Renderer :=
  Renderer.OnResize Renderer.init 2 1 (fun _ => 0) (fun _ => 0)

/-- The accumulation property of `N` consecutive calls of `RenderFl` from the state
`(r, k0)` on an image of `W` by `H` pixels: the calls return, and with `ss n` the
list of the `PerPixelFl` samples of call `n + 1` (computed from the count `ks n` of
random vectors that call starts with), every entry `p` of the accumulation buffer is
the running sum `A_N`, with `A_0 = 0` and `A_k = fl (A_(k-1) + s_k)`, and every pixel
of the image is the encoding of the clamped quotient `fl (A_N / fl N)`; when `fl`
rounds nothing, `A_N` is `s_1 + ... + s_N` and the pixel the encoding of the clamped
mean `(s_1 + ... + s_N) / N`. -/
def Renderer.AccumulationFl (fl fsqrt : ℚ → ℚ) (rand : ℕ → glm.vec3) (scenes : ℕ → Scene)
    (cameras : ℕ → Camera) (r : Renderer) (k0 W H N : ℕ) : Prop :=
  ∃ (ss : ℕ → List glm.vec4) (ks : ℕ → ℕ) (rN : Renderer),
    ks 0 = k0 ∧
    (∀ n, n < N →
      frameSamples (Renderer.sampleAtFl fl fsqrt rand (scenes n) (cameras n))
        (List.range (W * H)) (ks n) = some (ss n, ks (n + 1))) ∧
    Renderer.renderSeqFl fl fsqrt rand scenes cameras N (r, k0) = some (rN, ks N) ∧
    ∀ p, p < W * H →
      rN.m_AccumulationData[p]? = some (runningSum fl ss p N) ∧
      rN.m_ImageData[p]? =
        some (Utils.ConvertToRGBAFl fl
          (glm.clamp (glm.round4 fl (runningSum fl ss p N / fl (N : ℚ))) 0 1)) ∧
      ((∀ x, fl x = x) →
        rN.m_AccumulationData[p]? = some (sampleSum ss p N) ∧
        rN.m_ImageData[p]? =
          some (Utils.ConvertToRGBA (glm.clamp (sampleSum ss p N / (N : ℚ)) 0 1)))

/-! ## Colour encoding -/

theorem toUInt8_of_unit (c : ℚ) (h0 : 0 ≤ c) (h1 : c ≤ 1) :
    (toUInt8 (c * 255) : ℤ) = ⌊c * 255⌋ ∧ toUInt8 (c * 255) ≤ 255 := by
  have hx0 : (0 : ℚ) ≤ c * 255 := by positivity
  have hx1 : c * 255 ≤ 255 := by linarith
  have hf0 : 0 ≤ ⌊c * 255⌋ := Int.floor_nonneg.mpr hx0
  have hf1 : ⌊c * 255⌋ ≤ 255 := by
    have : ⌊c * 255⌋ ≤ ⌊(255 : ℚ)⌋ := Int.floor_le_floor hx1
    simpa using this
  have hm : ⌊c * 255⌋ % 256 = ⌊c * 255⌋ := Int.emod_eq_of_lt hf0 (by omega)
  unfold toUInt8 truncToInt
  rw [if_pos hx0, hm]
  constructor
  · exact Int.toNat_of_nonneg hf0
  · omega

theorem pack_bytes (r g b a : ℕ) (hr : r ≤ 255) (hg : g ≤ 255) (hb : b ≤ 255) :
    ((a <<< 24) ||| (b <<< 16) ||| (g <<< 8) ||| r) = a * 2 ^ 24 + b * 2 ^ 16 + g * 2 ^ 8 + r := by
  have e1 : 2 ^ 24 * a + 2 ^ 16 * b = 2 ^ 24 * a ||| 2 ^ 16 * b :=
    Nat.mul_add_lt_is_or (by omega) a
  have e2 : 2 ^ 16 * (2 ^ 8 * a + b) + 2 ^ 8 * g = 2 ^ 16 * (2 ^ 8 * a + b) ||| 2 ^ 8 * g :=
    Nat.mul_add_lt_is_or (by omega) _
  have e3 : 2 ^ 8 * (2 ^ 16 * a + 2 ^ 8 * b + g) + r = 2 ^ 8 * (2 ^ 16 * a + 2 ^ 8 * b + g) ||| r :=
    Nat.mul_add_lt_is_or (by omega) _
  have k1 : 2 ^ 16 * (2 ^ 8 * a + b) = 2 ^ 24 * a + 2 ^ 16 * b := by ring
  have k2 : 2 ^ 8 * (2 ^ 16 * a + 2 ^ 8 * b + g) = 2 ^ 24 * a + 2 ^ 16 * b + 2 ^ 8 * g := by ring
  rw [Nat.shiftLeft_eq, Nat.shiftLeft_eq, Nat.shiftLeft_eq]
  rw [Nat.mul_comm a, Nat.mul_comm b, Nat.mul_comm g]
  rw [← e1, ← k1, ← e2, k1, ← k2, ← e3]

theorem pack_bytes_lt (r g b a : ℕ) (hr : r ≤ 255) (hg : g ≤ 255) (hb : b ≤ 255)
    (ha : a ≤ 255) : a * 2 ^ 24 + b * 2 ^ 16 + g * 2 ^ 8 + r < 2 ^ 32 := by
  omega

theorem ConvertToRGBA_eq (color : glm.vec4) (R G B A : ℕ)
    (hR : toUInt8 (color.r * 255) = R) (hG : toUInt8 (color.g * 255) = G)
    (hB : toUInt8 (color.b * 255) = B) (hA : toUInt8 (color.a * 255) = A)
    (hr : R ≤ 255) (hg : G ≤ 255) (hb : B ≤ 255) (ha : A ≤ 255) :
    Utils.ConvertToRGBA color = A * 2 ^ 24 + B * 2 ^ 16 + G * 2 ^ 8 + R := by
  unfold Utils.ConvertToRGBA
  simp only [hR, hG, hB, hA]
  rw [pack_bytes R G B A hr hg hb]
  exact Nat.mod_eq_of_lt (pack_bytes_lt R G B A hr hg hb ha)

/-- C1: for a colour whose four channels lie in [0,1], `ConvertToRGBA` returns the
word `(A<<24)|(B<<16)|(G<<8)|R` where R, G, B, A are the floors of the channels
times 255, each in 0..255; the word fits in 32 bits, R is its least significant
byte, A its most significant one, and each byte of the word is exactly one channel. -/
theorem Utils.ConvertToRGBA_layout (color : glm.vec4)
    (hr : 0 ≤ color.r ∧ color.r ≤ 1) (hg : 0 ≤ color.g ∧ color.g ≤ 1)
    (hb : 0 ≤ color.b ∧ color.b ≤ 1) (ha : 0 ≤ color.a ∧ color.a ≤ 1) :
    ∃ R G B A : ℕ,
      (R : ℤ) = ⌊color.r * 255⌋ ∧ (G : ℤ) = ⌊color.g * 255⌋ ∧
      (B : ℤ) = ⌊color.b * 255⌋ ∧ (A : ℤ) = ⌊color.a * 255⌋ ∧
      R ≤ 255 ∧ G ≤ 255 ∧ B ≤ 255 ∧ A ≤ 255 ∧
      Utils.ConvertToRGBA color < 2 ^ 32 ∧
      Utils.ConvertToRGBA color = ((A <<< 24) ||| (B <<< 16) ||| (G <<< 8) ||| R) ∧
      Utils.ConvertToRGBA color % 2 ^ 8 = R ∧
      Utils.ConvertToRGBA color / 2 ^ 8 % 2 ^ 8 = G ∧
      Utils.ConvertToRGBA color / 2 ^ 16 % 2 ^ 8 = B ∧
      Utils.ConvertToRGBA color / 2 ^ 24 = A := by
  obtain ⟨eR, bR⟩ := toUInt8_of_unit color.r hr.1 hr.2
  obtain ⟨eG, bG⟩ := toUInt8_of_unit color.g hg.1 hg.2
  obtain ⟨eB, bB⟩ := toUInt8_of_unit color.b hb.1 hb.2
  obtain ⟨eA, bA⟩ := toUInt8_of_unit color.a ha.1 ha.2
  have hw := ConvertToRGBA_eq color _ _ _ _ rfl rfl rfl rfl bR bG bB bA
  refine ⟨_, _, _, _, eR, eG, eB, eA, bR, bG, bB, bA, ?_, ?_, ?_, ?_, ?_, ?_⟩
  · rw [hw]; omega
  · rw [hw, pack_bytes _ _ _ _ bR bG bB]
  · rw [hw]; omega
  · rw [hw]; omega
  · rw [hw]; omega
  · rw [hw]; omega

/-! ## Ray–sphere intersection -/

theorem TraceRay_loop_cons (fsqrt : ℚ → ℚ) (ray : Ray) (sphere : Sphere) (rest : List Sphere)
    (i : ℕ) (cs : ℤ) (hd : ℚ) :
    Renderer.TraceRay.loop fsqrt ray (sphere :: rest) i cs hd =
      if acceptedBelow fsqrt ray hd sphere then
        Renderer.TraceRay.loop fsqrt ray rest (i + 1) (i : ℤ) (nearRoot fsqrt ray sphere)
      else Renderer.TraceRay.loop fsqrt ray rest (i + 1) cs hd := by
  have hloop : Renderer.TraceRay.loop fsqrt ray (sphere :: rest) i cs hd =
      if discriminant ray sphere < 0 then
        Renderer.TraceRay.loop fsqrt ray rest (i + 1) cs hd
      else if nearRoot fsqrt ray sphere > 0 ∧ nearRoot fsqrt ray sphere < hd then
        Renderer.TraceRay.loop fsqrt ray rest (i + 1) (i : ℤ) (nearRoot fsqrt ray sphere)
      else Renderer.TraceRay.loop fsqrt ray rest (i + 1) cs hd := rfl
  rw [hloop]
  unfold acceptedBelow
  by_cases hdisc : discriminant ray sphere < 0
  · simp [hdisc, not_le.mpr hdisc]
  · simp [hdisc, not_lt.mp hdisc]

/-- What the sphere loop computes, for any starting index and any current best:
either no sphere of the list is a candidate below the current best and nothing
changes, or the result is the first sphere of least near root among the candidates. -/
theorem TraceRay_loop_spec (fsqrt : ℚ → ℚ) (ray : Ray) :
    ∀ (l : List Sphere) (i : ℕ) (cs : ℤ) (hd : ℚ),
      ((∀ s ∈ l, ¬ acceptedBelow fsqrt ray hd s) ∧
          Renderer.TraceRay.loop fsqrt ray l i cs hd = (cs, hd)) ∨
        ∃ j s, l[j]? = some s ∧ acceptedBelow fsqrt ray hd s ∧
          Renderer.TraceRay.loop fsqrt ray l i cs hd = (((i + j : ℕ) : ℤ), nearRoot fsqrt ray s) ∧
          ∀ j' s', l[j']? = some s' → acceptedBelow fsqrt ray hd s' →
            nearRoot fsqrt ray s ≤ nearRoot fsqrt ray s' ∧
              (j' < j → nearRoot fsqrt ray s < nearRoot fsqrt ray s') := by
  intro l
  induction l with
  | nil =>
    intro i cs hd
    left
    exact ⟨by simp, rfl⟩
  | cons sphere rest ih =>
    intro i cs hd
    rw [TraceRay_loop_cons]
    by_cases hacc : acceptedBelow fsqrt ray hd sphere
    · rw [if_pos hacc]
      right
      rcases ih (i + 1) (i : ℤ) (nearRoot fsqrt ray sphere) with ⟨hnone, heq⟩ | ⟨j, s, hj, hs, heq, hmin⟩
      · refine ⟨0, sphere, by simp, hacc, by simpa using heq, ?_⟩
        intro j' s' hj' hs'
        constructor
        · cases j' with
          | zero =>
            simp at hj'
            subst hj'
            exact le_refl _
          | succ n =>
            simp at hj'
            have hmem : s' ∈ rest := List.mem_iff_getElem?.mpr ⟨n, hj'⟩
            have := hnone s' hmem
            unfold acceptedBelow at this hs'
            by_contra hlt
            exact this ⟨hs'.1, hs'.2.1, not_le.mp hlt⟩
        · intro h; omega
      · refine ⟨j + 1, s, by simpa using hj, ⟨hs.1, hs.2.1, lt_trans hs.2.2 hacc.2.2⟩, ?_, ?_⟩
        · rw [heq]
          congr 2
          omega
        · intro j' s' hj' hs'
          cases j' with
          | zero =>
            simp at hj'
            subst hj'
            exact ⟨le_of_lt hs.2.2, fun _ => hs.2.2⟩
          | succ n =>
            simp at hj'
            by_cases hb : nearRoot fsqrt ray s' < nearRoot fsqrt ray sphere
            · have := hmin n s' hj' ⟨hs'.1, hs'.2.1, hb⟩
              exact ⟨this.1, fun h => this.2 (by omega)⟩
            · have hle : nearRoot fsqrt ray sphere ≤ nearRoot fsqrt ray s' := not_lt.mp hb
              have hlt : nearRoot fsqrt ray s < nearRoot fsqrt ray s' := lt_of_lt_of_le hs.2.2 hle
              exact ⟨le_of_lt hlt, fun _ => hlt⟩
    · rw [if_neg hacc]
      rcases ih (i + 1) cs hd with ⟨hnone, heq⟩ | ⟨j, s, hj, hs, heq, hmin⟩
      · left
        refine ⟨?_, heq⟩
        intro s hs
        rcases List.mem_cons.mp hs with h | h
        · rw [h]; exact hacc
        · exact hnone s h
      · right
        refine ⟨j + 1, s, by simpa using hj, hs, ?_, ?_⟩
        · rw [heq]
          congr 2
          omega
        · intro j' s' hj' hs'
          cases j' with
          | zero =>
            simp at hj'
            subst hj'
            exact absurd hs' hacc
          | succ n =>
            simp at hj'
            have := hmin n s' hj' hs'
            exact ⟨this.1, fun h => this.2 (by omega)⟩

/-- The two outcomes of `TraceRay`: a miss when no sphere has an accepted near root,
otherwise the closest-hit payload of the first sphere of least accepted near root. -/
theorem TraceRay_cases (fsqrt : ℚ → ℚ) (scene : Scene) (ray : Ray) :
    ((∀ s ∈ scene.Spheres, ¬ acceptedHit fsqrt ray s) ∧
        Renderer.TraceRay fsqrt scene ray = some (Renderer.Miss ray)) ∨
      ∃ (j : ℕ) (s : Sphere) (payload : HitPayload), scene.Spheres[j]? = some s ∧
        acceptedHit fsqrt ray s ∧
        Renderer.TraceRay fsqrt scene ray = some payload ∧
        Renderer.ClosestHit fsqrt scene ray (nearRoot fsqrt ray s) (j : ℤ) = some payload ∧
        payload.HitDistance = nearRoot fsqrt ray s ∧ payload.ObjectIndex = (j : ℤ) ∧
        ∀ (j' : ℕ) (s' : Sphere), scene.Spheres[j']? = some s' → acceptedHit fsqrt ray s' →
          nearRoot fsqrt ray s ≤ nearRoot fsqrt ray s' ∧
            (j' < j → nearRoot fsqrt ray s < nearRoot fsqrt ray s') := by
  rcases TraceRay_loop_spec fsqrt ray scene.Spheres 0 (-1) FLT_MAX with
    ⟨hnone, heq⟩ | ⟨j, s, hj, hs, heq, hmin⟩
  · left
    refine ⟨hnone, ?_⟩
    unfold Renderer.TraceRay
    simp [heq]
  · right
    have hidx : vectorAt scene.Spheres (j : ℤ) = some s := by
      unfold vectorAt
      simp [hj]
    have hch : Renderer.ClosestHit fsqrt scene ray (nearRoot fsqrt ray s) (j : ℤ) =
        some { HitDistance := nearRoot fsqrt ray s
               ObjectIndex := (j : ℤ)
               WorldNormal := glm.normalize fsqrt
                 (ray.Origin - s.Position + ray.Direction * nearRoot fsqrt ray s)
               WorldPosition :=
                 ray.Origin - s.Position + ray.Direction * nearRoot fsqrt ray s + s.Position } := by
      unfold Renderer.ClosestHit
      rw [hidx]
    refine ⟨j, s, _, hj, hs, ?_, hch, rfl, rfl, hmin⟩
    unfold Renderer.TraceRay
    simp only [heq, Nat.zero_add]
    rw [if_neg (by omega)]
    exact hch

theorem foldlM_option_congr {α β : Type} (F G : β → α → Option β) :
    ∀ (l : List α) (b : β), (∀ a ∈ l, ∀ b, F b a = G b a) →
      List.foldlM F b l = List.foldlM G b l := by
  intro l
  induction l with
  | nil => intro b _; rfl
  | cons a rest ih =>
    intro b h
    rw [List.foldlM_cons, List.foldlM_cons, h a (List.mem_cons_self _ _)]
    cases G b a with
    | none => rfl
    | some b1 => exact ih b1 (fun a1 h1 b2 => h a1 (List.mem_cons_of_mem _ h1) b2)

theorem foldlM_option_embed {α β γ : Type} (emb : β → γ) (F : γ → α → Option γ)
    (G : β → α → Option β) (h : ∀ a b, F (emb b) a = (G b a).map emb) :
    ∀ (l : List α) (b : β), List.foldlM F (emb b) l = (List.foldlM G b l).map emb := by
  intro l
  induction l with
  | nil => intro b; rfl
  | cons a rest ih =>
    intro b
    rw [List.foldlM_cons, List.foldlM_cons, h a b]
    cases G b a with
    | none => rfl
    | some b1 => exact ih b1

/-- The two nested loops over `y` and `x` visit the pixel indices `0 .. W*H-1` in
order, as long as `W * H` fits in 32 bits. -/
theorem foldlM_rows {β : Type} (G : β → ℕ → Option β) (W : ℕ) :
    ∀ (H : ℕ) (b : β), W * H ≤ 2 ^ 32 →
      List.foldlM (fun s1 y => List.foldlM (fun s2 x => G s2 ((x + y * W) % 2 ^ 32)) s1
        (List.range W)) b (List.range H) = List.foldlM G b (List.range (W * H)) := by
  intro H
  induction H with
  | zero => intro b _; rfl
  | succ n ih =>
    intro b hle
    have hWn : W * n ≤ 2 ^ 32 := le_trans (Nat.mul_le_mul_left W (Nat.le_succ n)) hle
    rw [List.range_succ, List.foldlM_append, ih b hWn]
    have e : W * (n + 1) = W * n + W := by ring
    rw [e, List.range_add, List.foldlM_append]
    cases List.foldlM G b (List.range (W * n)) with
    | none => rfl
    | some b1 =>
      simp only [Option.bind_eq_bind, Option.some_bind, List.foldlM_cons, List.foldlM_nil,
        Option.pure_def, Option.bind_some]
      rw [List.foldlM_map]
      apply foldlM_option_congr
      intro x hx b2
      have hx' : x < W := List.mem_range.mp hx
      have hlt : x + n * W < 2 ^ 32 := by
        have : x + n * W < W * n + W := by
          rw [Nat.mul_comm n W]; omega
        omega
      rw [Nat.mod_eq_of_lt hlt, Nat.add_comm x, Nat.mul_comm n W]

theorem frameSamples_length (pp : ℕ → ℕ → Option (glm.vec4 × ℕ)) :
    ∀ (l : List ℕ) (k : ℕ) (ss : List glm.vec4) (k1 : ℕ),
      frameSamples pp l k = some (ss, k1) → ss.length = l.length := by
  intro l
  induction l with
  | nil =>
    intro k ss k1 h
    simp [frameSamples] at h
    simp [h.1]
  | cons idx rest ih =>
    intro k ss k1 h
    unfold frameSamples at h
    cases hp : pp idx k with
    | none => rw [hp] at h; simp at h
    | some ck =>
      obtain ⟨c, k2⟩ := ck
      rw [hp] at h
      simp only at h
      cases hr : frameSamples pp rest k2 with
      | none => rw [hr] at h; simp at h
      | some res =>
        obtain ⟨cs, k3⟩ := res
        rw [hr] at h
        simp only [Option.some.injEq, Prod.mk.injEq] at h
        rw [← h.1, List.length_cons, List.length_cons, ih k2 cs k3 hr]

/-- The pixel loop over a run of consecutive indices: the entries of the run receive
their samples, the word written for each is the display value of the new entry, and
the entries before and after the run are left as they were. -/
theorem bufferStep_run (pp : ℕ → ℕ → Option (glm.vec4 × ℕ)) (f : ℕ) :
    ∀ (mid pre post : List glm.vec4) (ipre imid ipost : List ℕ) (k : ℕ),
      ipre.length = pre.length → imid.length = mid.length →
      List.foldlM (Renderer.bufferStep pp f) (pre ++ mid ++ post, ipre ++ imid ++ ipost, k)
          (List.range' pre.length mid.length) =
        match frameSamples pp (List.range' pre.length mid.length) k with
        | none => none
        | some (ss, k1) =>
          some (pre ++ List.zipWith (· + ·) mid ss ++ post,
                ipre ++ (List.zipWith (· + ·) mid ss).map (Renderer.displayed f) ++ ipost, k1) := by
  intro mid
  induction mid with
  | nil =>
    intro pre post ipre imid ipost k _ h2
    have : imid = [] := List.length_eq_zero.mp h2
    subst this
    simp [frameSamples]
  | cons a mid1 ih =>
    intro pre post ipre imid ipost k h1 h2
    cases imid with
    | nil => simp at h2
    | cons i0 imid1 =>
      have h2' : imid1.length = mid1.length := by simpa using h2
      rw [List.length_cons, List.range'_succ, List.foldlM_cons]
      unfold frameSamples
      have hstep : Renderer.bufferStep pp f
          (pre ++ a :: mid1 ++ post, ipre ++ i0 :: imid1 ++ ipost, k) pre.length =
          match pp pre.length k with
          | none => none
          | some (color, k1) =>
            some ((pre ++ [a + color]) ++ mid1 ++ post,
                  (ipre ++ [Renderer.displayed f (a + color)]) ++ imid1 ++ ipost, k1) := by
        unfold Renderer.bufferStep
        cases pp pre.length k with
        | none => rfl
        | some ck =>
          obtain ⟨c, k1⟩ := ck
          have hget : (pre ++ a :: mid1 ++ post)[pre.length]? = some a := by
            rw [List.append_assoc, List.getElem?_append_right (le_refl _)]
            simp
          have hlen : pre.length < (ipre ++ i0 :: imid1 ++ ipost).length := by
            simp; omega
          simp only [hget, hlen, if_true]
          have hs1 : (pre ++ a :: mid1 ++ post).set pre.length (a + c) =
              pre ++ [a + c] ++ mid1 ++ post := by
            simp [List.set_append]
          have hs2 : (ipre ++ i0 :: imid1 ++ ipost).set pre.length (Renderer.displayed f (a + c)) =
              ipre ++ [Renderer.displayed f (a + c)] ++ imid1 ++ ipost := by
            rw [← h1]
            simp [List.set_append]
          rw [hs1, hs2]
      rw [hstep]
      cases pp pre.length k with
      | none => rfl
      | some ck =>
        obtain ⟨c, k1⟩ := ck
        simp only [Option.bind_eq_bind, Option.some_bind]
        have hl : (pre ++ [a + c]).length = pre.length + 1 := by simp
        have hil : (ipre ++ [Renderer.displayed f (a + c)]).length = (pre ++ [a + c]).length := by
          simp [h1]
        have := ih (pre ++ [a + c]) post (ipre ++ [Renderer.displayed f (a + c)]) imid1 ipost k1
          hil h2'
        rw [hl] at this
        rw [this]
        cases frameSamples pp (List.range' (pre.length + 1) mid1.length) k1 with
        | none => rfl
        | some res =>
          obtain ⟨ss, k2⟩ := res
          simp

theorem PerPixel_eq_sampleAt (fsqrt : ℚ → ℚ) (rand : ℕ → glm.vec3) (r : Renderer)
    (scene : Scene) (camera : Camera) (img : Image)
    (hc : r.m_ActiveCamera = some camera) (hs : r.m_ActiveScene = some scene)
    (hi : r.m_FinalImage = some img) (k x y : ℕ) :
    Renderer.PerPixel fsqrt rand r k x y =
      Renderer.sampleAt fsqrt rand scene camera ((x + y * img.Width) % 2 ^ 32) k := by
  unfold Renderer.PerPixel Renderer.sampleAt
  rw [hc, hs, hi]

theorem Render_pixel_withBuffers (fsqrt : ℚ → ℚ) (rand : ℕ → glm.vec3) (r : Renderer)
    (scene : Scene) (camera : Camera) (img : Image)
    (hc : r.m_ActiveCamera = some camera) (hs : r.m_ActiveScene = some scene)
    (hi : r.m_FinalImage = some img) (x y : ℕ) (b : List glm.vec4 × List ℕ × ℕ) :
    Renderer.Render.pixel fsqrt rand x y (r.withBuffers b) =
      (Renderer.bufferStep (Renderer.sampleAt fsqrt rand scene camera) r.m_FrameIndex b
        ((x + y * img.Width) % 2 ^ 32)).map r.withBuffers := by
  obtain ⟨acc, dat, k⟩ := b
  have hpp := PerPixel_eq_sampleAt fsqrt rand (r.withBuffers (acc, dat, k)).1 scene camera img
    hc hs hi k x y
  unfold Renderer.Render.pixel Renderer.bufferStep
  have hi' : (r.withBuffers (acc, dat, k)).1.m_FinalImage = some img := hi
  rw [hi']
  simp only [Renderer.withBuffers] at hpp ⊢
  rw [hpp]
  cases Renderer.sampleAt fsqrt rand scene camera ((x + y * img.Width) % 2 ^ 32) k with
  | none => rfl
  | some ck =>
    obtain ⟨c, k1⟩ := ck
    simp only
    cases acc[(x + y * img.Width) % 2 ^ 32]? with
    | none => rfl
    | some old =>
      simp only
      by_cases hlt : (x + y * img.Width) % 2 ^ 32 < dat.length
      · rw [if_pos hlt, if_pos hlt]
        rfl
      · rw [if_neg hlt, if_neg hlt]
        rfl

/-- What one call of `Render` does to a renderer whose buffers have one element per
pixel: the samples of the frame are added, entry by entry, to the accumulation
buffer (zeroed first at frame index 1), the image receives the display value of
every new entry, and the frame index is advanced or reset. -/
theorem Render_eq (fsqrt : ℚ → ℚ) (rand : ℕ → glm.vec3) (scene : Scene) (camera : Camera)
    (r : Renderer) (k : ℕ) (img : Image) (himg : r.m_FinalImage = some img)
    (hsz : img.Width * img.Height < 2 ^ 32)
    (hacc : r.m_AccumulationData.length = img.Width * img.Height)
    (hdat : r.m_ImageData.length = img.Width * img.Height) :
    Renderer.Render fsqrt rand scene camera (r, k) =
      match frameSamples (Renderer.sampleAt fsqrt rand scene camera)
          (List.range (img.Width * img.Height)) k with
      | none => none
      | some (ss, k1) =>
        some ({ r with
                  m_ActiveScene := some scene
                  m_ActiveCamera := some camera
                  m_AccumulationData := List.zipWith (· + ·) r.frameBase ss
                  m_ImageData :=
                    (List.zipWith (· + ·) r.frameBase ss).map (Renderer.displayed r.m_FrameIndex)
                  m_FrameIndex := r.nextFrameIndex }, k1) := by
  have hmod : (img.Width * img.Height) % 2 ^ 32 = img.Width * img.Height :=
    Nat.mod_eq_of_lt hsz
  have hclear : (if r.m_FrameIndex = 1 then
        Renderer.memsetZero r.m_AccumulationData ((img.Width * img.Height) % 2 ^ 32)
      else some r.m_AccumulationData) = some r.frameBase := by
    unfold Renderer.frameBase Renderer.memsetZero
    by_cases h1 : r.m_FrameIndex = 1
    · rw [if_pos h1, if_pos h1, hmod, if_pos (le_of_eq hacc.symm), ← hacc]
      simp
    · rw [if_neg h1, if_neg h1]
  have hbl : r.frameBase.length = img.Width * img.Height := by
    unfold Renderer.frameBase
    by_cases h1 : r.m_FrameIndex = 1
    · rw [if_pos h1, List.length_replicate, hacc]
    · rw [if_neg h1, hacc]
  let r1 : Renderer := { r with m_ActiveScene := some scene, m_ActiveCamera := some camera }
  have hfold : ∀ b : List glm.vec4 × List ℕ × ℕ,
      List.foldlM (fun s1 y => List.foldlM
          (fun s2 x => Renderer.Render.pixel fsqrt rand x y s2) s1 (List.range img.Width))
        (r1.withBuffers b) (List.range img.Height) =
      (List.foldlM (Renderer.bufferStep (Renderer.sampleAt fsqrt rand scene camera)
        r.m_FrameIndex) b (List.range (img.Width * img.Height))).map r1.withBuffers := by
    intro b
    rw [← foldlM_rows _ img.Width img.Height b (le_of_lt hsz)]
    apply foldlM_option_embed
    intro y b1
    apply foldlM_option_embed
    intro x b2
    exact Render_pixel_withBuffers fsqrt rand r1 scene camera img rfl rfl himg x y b2
  unfold Renderer.Render
  simp only [himg, hclear]
  have hstart : (Renderer.mk (some img) r.m_ImageData r.frameBase r.m_FrameIndex r.m_Settings
      (some scene) (some camera), k) = r1.withBuffers (r.frameBase, r.m_ImageData, k) := by
    simp only [Renderer.withBuffers, r1, himg]
  rw [hstart, hfold]
  have hrun := bufferStep_run (Renderer.sampleAt fsqrt rand scene camera) r.m_FrameIndex
    r.frameBase [] [] [] r.m_ImageData [] k rfl (by rw [hdat, hbl])
  simp only [List.nil_append, List.append_nil, List.length_nil, hbl,
    ← List.range_eq_range'] at hrun
  rw [hrun]
  cases frameSamples (Renderer.sampleAt fsqrt rand scene camera)
      (List.range (img.Width * img.Height)) k with
  | none => rfl
  | some res =>
    obtain ⟨ss, k1⟩ := res
    simp [Renderer.withBuffers, r1, himg, Renderer.nextFrameIndex]

/-! ## The samples of a frame are defined under the render contract -/

theorem vectorAt_natCast {α : Type} (v : List α) (j : ℕ) : vectorAt v (j : ℤ) = v[j]? := by
  unfold vectorAt
  simp

theorem bounce_total (fsqrt : ℚ → ℚ) (rand : ℕ → glm.vec3) (scene : Scene)
    (hv : scene.valid) :
    ∀ (n : ℕ) (ray : Ray) (color : glm.vec3) (multiplier : ℚ) (k : ℕ),
      ∃ c k1, Renderer.PerPixel.bounce fsqrt rand scene n ray color multiplier k = some (c, k1) := by
  intro n
  induction n with
  | zero => intro ray color multiplier k; exact ⟨color, k, rfl⟩
  | succ n ih =>
    intro ray color multiplier k
    unfold Renderer.PerPixel.bounce
    rcases TraceRay_cases fsqrt scene ray with
      ⟨-, heq⟩ | ⟨j, s, payload, hj, hs, heq, -, hd, hobj, -⟩
    · rw [heq]
      have : (Renderer.Miss ray).HitDistance < 0 := by simp [Renderer.Miss]
      simp only [this, if_true]
      exact ⟨_, _, rfl⟩
    · rw [heq]
      have hpos : ¬ payload.HitDistance < 0 := by
        rw [hd]; exact not_lt.mpr (le_of_lt hs.2.1)
      simp only [hpos, if_false]
      rw [hobj, vectorAt_natCast, hj]
      have hmem : s ∈ scene.Spheres := List.mem_iff_getElem?.mpr ⟨j, hj⟩
      obtain ⟨h0, hlt⟩ := hv s hmem
      have hmat : vectorAt scene.Materials s.MaterialIndex =
          some (scene.Materials[s.MaterialIndex.toNat]) := by
        unfold vectorAt
        rw [if_pos h0]
        exact List.getElem?_eq_getElem hlt
      simp only [hmat]
      exact ih _ _ _ _

theorem sampleAt_total (fsqrt : ℚ → ℚ) (rand : ℕ → glm.vec3) (scene : Scene) (camera : Camera)
    (hv : scene.valid) (idx k : ℕ) (hidx : idx < camera.RayDirections.length) :
    ∃ c k1, Renderer.sampleAt fsqrt rand scene camera idx k = some (c, k1) := by
  unfold Renderer.sampleAt
  rw [List.getElem?_eq_getElem hidx]
  obtain ⟨c, k1, h⟩ := bounce_total fsqrt rand scene hv 5
    { Origin := camera.Position, Direction := camera.RayDirections[idx] } 0 1 k
  simp only [h]
  exact ⟨_, _, rfl⟩

theorem frameSamples_total (pp : ℕ → ℕ → Option (glm.vec4 × ℕ)) :
    ∀ (l : List ℕ), (∀ idx ∈ l, ∀ k, ∃ c k1, pp idx k = some (c, k1)) →
      ∀ k, ∃ ss k1, frameSamples pp l k = some (ss, k1) := by
  intro l
  induction l with
  | nil => intro _ k; exact ⟨[], k, rfl⟩
  | cons idx rest ih =>
    intro h k
    obtain ⟨c, k1, hc⟩ := h idx (List.mem_cons_self _ _) k
    obtain ⟨ss, k2, hss⟩ := ih (fun i hi => h i (List.mem_cons_of_mem _ hi)) k1
    refine ⟨c :: ss, k2, ?_⟩
    unfold frameSamples
    simp only [hc, hss]

theorem frame_total (fsqrt : ℚ → ℚ) (rand : ℕ → glm.vec3) (scene : Scene) (camera : Camera)
    (n : ℕ) (hv : scene.valid) (hcam : camera.RayDirections.length = n) (k : ℕ) :
    ∃ ss k1, frameSamples (Renderer.sampleAt fsqrt rand scene camera) (List.range n) k =
      some (ss, k1) ∧ ss.length = n := by
  obtain ⟨ss, k1, h⟩ := frameSamples_total (Renderer.sampleAt fsqrt rand scene camera)
    (List.range n)
    (fun idx hidx k => sampleAt_total fsqrt rand scene camera hv idx k
      (by rw [hcam]; exact List.mem_range.mp hidx)) k
  refine ⟨ss, k1, h, ?_⟩
  rw [frameSamples_length _ _ _ _ _ h, List.length_range]

/-- A call of `Render` under the render contract: it returns, the renderer keeps its
image, its buffer sizes and its settings, and the buffers and the frame index are
those of `Render_eq`. -/
theorem Render_sized (fsqrt : ℚ → ℚ) (rand : ℕ → glm.vec3) (scene : Scene) (camera : Camera)
    (r : Renderer) (k W H : ℕ) (hr : r.Sized W H) (hv : scene.valid)
    (hcam : camera.RayDirections.length = W * H) :
    ∃ ss k1 r1,
      frameSamples (Renderer.sampleAt fsqrt rand scene camera) (List.range (W * H)) k =
        some (ss, k1) ∧ ss.length = W * H ∧
      Renderer.Render fsqrt rand scene camera (r, k) = some (r1, k1) ∧
      r1.Sized W H ∧ r1.m_Settings = r.m_Settings ∧
      r1.m_FrameIndex = r.nextFrameIndex ∧
      r1.m_AccumulationData = List.zipWith (· + ·) r.frameBase ss ∧
      r1.m_ImageData =
        (List.zipWith (· + ·) r.frameBase ss).map (Renderer.displayed r.m_FrameIndex) := by
  obtain ⟨ss, k1, hss, hlen⟩ := frame_total fsqrt rand scene camera (W * H) hv hcam k
  have heq := Render_eq fsqrt rand scene camera r k ⟨W, H⟩ hr.image hr.fits hr.accum hr.data
  simp only [hss] at heq
  have hbl : r.frameBase.length = W * H := by
    unfold Renderer.frameBase
    by_cases h1 : r.m_FrameIndex = 1
    · rw [if_pos h1, List.length_replicate, hr.accum]
    · rw [if_neg h1, hr.accum]
  refine ⟨ss, k1, _, hss, hlen, heq, ?_, rfl, rfl, rfl, rfl⟩
  exact ⟨hr.image, hr.fits, by simp [hbl, hlen], by simp [hbl, hlen]⟩

/-! ## Progressive accumulation -/

theorem vec4_zero_add (v : glm.vec4) : (0 : glm.vec4) + v = v := by
  cases v
  show glm.vec4.mk _ _ _ _ = _
  congr 1 <;> exact zero_add _

theorem vec4_div_one (v : glm.vec4) : v / (1 : ℚ) = v := by
  cases v
  show glm.vec4.mk _ _ _ _ = _
  congr 1 <;> exact div_one _

theorem zipWith_replicate_zero :
    ∀ (ss : List glm.vec4), List.zipWith (· + ·) (List.replicate ss.length (0 : glm.vec4)) ss = ss := by
  intro ss
  induction ss with
  | nil => rfl
  | cons a rest ih =>
    rw [List.length_cons, List.replicate_succ, List.zipWith_cons_cons, ih, vec4_zero_add]

theorem displayed_one (v : glm.vec4) :
    Renderer.displayed 1 v = Utils.ConvertToRGBA (glm.clamp v 0 1) := by
  unfold Renderer.displayed
  rw [Nat.cast_one, vec4_div_one]

/-- A call of `Render` entered at frame index 1, under the render contract: the
accumulation buffer becomes the list of the samples of the call and the image their
encodings, whatever the two buffers held. -/
theorem Render_first_frame (fsqrt : ℚ → ℚ) (rand : ℕ → glm.vec3) (scene : Scene)
    (camera : Camera) (r : Renderer) (k W H : ℕ) (hr : r.Sized W H) (hv : scene.valid)
    (hcam : camera.RayDirections.length = W * H) (hframe : r.m_FrameIndex = 1) :
    ∃ ss k1 r1,
      frameSamples (Renderer.sampleAt fsqrt rand scene camera) (List.range (W * H)) k =
        some (ss, k1) ∧ ss.length = W * H ∧
      Renderer.Render fsqrt rand scene camera (r, k) = some (r1, k1) ∧
      r1.Sized W H ∧ r1.m_Settings = r.m_Settings ∧ r1.m_FrameIndex = r.nextFrameIndex ∧
      r1.m_AccumulationData = ss ∧
      r1.m_ImageData = ss.map (fun sample => Utils.ConvertToRGBA (glm.clamp sample 0 1)) := by
  obtain ⟨ss, k1, r1, hss, hlen, hrun, hsz, hset, hfi, hacc, himg⟩ :=
    Render_sized fsqrt rand scene camera r k W H hr hv hcam
  have hbase : List.zipWith (· + ·) r.frameBase ss = ss := by
    unfold Renderer.frameBase
    rw [if_pos hframe, hr.accum, ← hlen]
    exact zipWith_replicate_zero ss
  refine ⟨ss, k1, r1, hss, hlen, hrun, hsz, hset, hfi, ?_, ?_⟩
  · rw [hacc, hbase]
  · rw [himg, hbase, hframe]
    apply List.map_congr_left
    intro v _
    exact displayed_one v

theorem OnResize_init_sized (W H : ℕ) (hfits : W * H < 2 ^ 32) (newImageData : ℕ → ℕ)
    (newAccumulationData : ℕ → glm.vec4) :
    (Renderer.OnResize Renderer.init W H newImageData newAccumulationData).Sized W H ∧
      (Renderer.OnResize Renderer.init W H newImageData newAccumulationData).m_FrameIndex = 1 := by
  have hmod : (W * H) % 2 ^ 32 = W * H := Nat.mod_eq_of_lt hfits
  refine ⟨⟨rfl, hfits, ?_, ?_⟩, rfl⟩
  · simp only [Renderer.OnResize, Renderer.init, hmod]
    simp
  · simp only [Renderer.OnResize, Renderer.init, hmod]
    simp

/-- C4: when `Render` is entered with frame index 1 (under the render contract of
spec §6), the call returns, and for every pixel the image holds the encoding of the
clamped sample of that call and the accumulation buffer the sample itself, whatever
the buffers held before; a brand-new renderer resized to the same dimensions, with
any contents of its new arrays, writes the same image for the same call. -/
theorem Renderer.Render_clean_start (fsqrt : ℚ → ℚ) (rand : ℕ → glm.vec3) (scene : Scene)
    (camera : Camera) (r : Renderer) (k W H : ℕ) (hr : r.Sized W H) (hv : scene.valid)
    (hcam : camera.RayDirections.length = W * H) (hframe : r.m_FrameIndex = 1) :
    ∃ ss k1 r1,
      frameSamples (Renderer.sampleAt fsqrt rand scene camera) (List.range (W * H)) k =
        some (ss, k1) ∧
      Renderer.Render fsqrt rand scene camera (r, k) = some (r1, k1) ∧
      (∀ p, p < W * H → ∃ sample, ss[p]? = some sample ∧
        r1.m_ImageData[p]? = some (Utils.ConvertToRGBA (glm.clamp (sample / (1 : ℚ)) 0 1)) ∧
        r1.m_AccumulationData[p]? = some sample) ∧
      ∀ (newImageData : ℕ → ℕ) (newAccumulationData : ℕ → glm.vec4),
        ∃ r2, Renderer.Render fsqrt rand scene camera
            (Renderer.OnResize Renderer.init W H newImageData newAccumulationData, k) =
              some (r2, k1) ∧
          r2.m_ImageData = r1.m_ImageData := by
  obtain ⟨ss, k1, r1, hss, hlen, hrun, -, -, -, hacc, himg⟩ :=
    Render_first_frame fsqrt rand scene camera r k W H hr hv hcam hframe
  refine ⟨ss, k1, r1, hss, hrun, ?_, ?_⟩
  · intro p hp
    have hp' : p < ss.length := by rw [hlen]; exact hp
    refine ⟨ss[p], List.getElem?_eq_getElem hp', ?_, ?_⟩
    · rw [himg, List.getElem?_map, List.getElem?_eq_getElem hp', vec4_div_one]
      rfl
    · rw [hacc, List.getElem?_eq_getElem hp']
  · intro fi fa
    obtain ⟨hsz, hf1⟩ := OnResize_init_sized W H hr.fits fi fa
    obtain ⟨ss2, k2, r2, hss2, -, hrun2, -, -, -, -, himg2⟩ :=
      Render_first_frame fsqrt rand scene camera _ k W H hsz hv hcam hf1
    rw [hss] at hss2
    simp only [Option.some.injEq, Prod.mk.injEq] at hss2
    refine ⟨r2, ?_, ?_⟩
    · rw [hrun2, hss2.2]
    · rw [himg2, himg, hss2.1]

theorem sampleSum_congr (ss ss1 : ℕ → List glm.vec4) (p : ℕ) :
    ∀ n, (∀ m, m < n → ss m = ss1 m) → sampleSum ss p n = sampleSum ss1 p n := by
  intro n
  induction n with
  | zero => intro _; rfl
  | succ n ih =>
    intro h
    unfold sampleSum
    rw [ih (fun m hm => h m (Nat.lt_succ_of_lt hm)), h n (Nat.lt_succ_self n)]

theorem zipWith_add_getElem? (A B : List glm.vec4) (p : ℕ) (a b : glm.vec4)
    (ha : A[p]? = some a) (hb : B[p]? = some b) :
    (List.zipWith (· + ·) A B)[p]? = some (a + b) := by
  rw [List.getElem?_zipWith, ha, hb]

theorem getD_of_getElem? (l : List glm.vec4) (p : ℕ) (a : glm.vec4) (h : l[p]? = some a) :
    l.getD p 0 = a := by
  rw [List.getD_eq_getElem?_getD, h]
  rfl

/-- The state after `n < 2 ^ 32` accumulating calls of `Render` that started at frame
index 1: the frame index is `n + 1` modulo `2 ^ 32`, and after at least one call the
accumulation buffer holds the sums of the samples and the image their means. -/
theorem renderSeq_accumulate (fsqrt : ℚ → ℚ) (rand : ℕ → glm.vec3) (scenes : ℕ → Scene)
    (cameras : ℕ → Camera) (r : Renderer) (k0 W H : ℕ) (hr : r.Sized W H)
    (hv : ∀ n, (scenes n).valid) (hcam : ∀ n, (cameras n).RayDirections.length = W * H)
    (hframe : r.m_FrameIndex = 1) (hacc : r.m_Settings.Accumulate = true) :
    ∀ n, n < 2 ^ 32 →
      ∃ (ss : ℕ → List glm.vec4) (ks : ℕ → ℕ) (rn : Renderer),
        ks 0 = k0 ∧
        (∀ m, m < n →
          frameSamples (Renderer.sampleAt fsqrt rand (scenes m) (cameras m))
            (List.range (W * H)) (ks m) = some (ss m, ks (m + 1))) ∧
        Renderer.renderSeq fsqrt rand scenes cameras n (r, k0) = some (rn, ks n) ∧
        rn.Sized W H ∧ rn.m_Settings.Accumulate = true ∧
        rn.m_FrameIndex = (n + 1) % 2 ^ 32 ∧
        (1 ≤ n → ∀ p, p < W * H →
          rn.m_AccumulationData[p]? = some (sampleSum ss p n) ∧
          rn.m_ImageData[p]? = some (Renderer.displayed n (sampleSum ss p n))) := by
  intro n
  induction n with
  | zero =>
    intro _
    refine ⟨fun _ => [], fun _ => k0, r, rfl, ?_, rfl, hr, hacc, ?_, ?_⟩
    · intro m hm; omega
    · rw [hframe]; rfl
    · intro h; omega
  | succ n ih =>
    intro hn
    obtain ⟨ss, ks, rn, hk0, hsamples, hseq, hsz, hset, hfi, hpix⟩ := ih (by omega)
    obtain ⟨snew, k1, r1, hss, hlen, hrun, hsz1, hset1, hfi1, hacc1, himg1⟩ :=
      Render_sized fsqrt rand (scenes n) (cameras n) rn (ks n) W H hsz (hv n) (hcam n)
    have hfn : rn.m_FrameIndex = n + 1 := by rw [hfi]; exact Nat.mod_eq_of_lt hn
    refine ⟨fun m => if m = n then snew else ss m, fun m => if m ≤ n then ks m else k1, r1,
      ?_, ?_, ?_, hsz1, ?_, ?_, ?_⟩
    · simp only [Nat.zero_le, if_true]; exact hk0
    · intro m hm
      by_cases hmn : m = n
      · subst hmn
        simp only [if_true, le_refl, Nat.add_one_le_iff, lt_irrefl, if_false]
        exact hss
      · have hlt : m < n := by omega
        have h1 : m ≤ n := by omega
        have h2 : m + 1 ≤ n := by omega
        simp only [hmn, h1, h2, if_true, if_false]
        exact hsamples m hlt
    · have : ¬ (n + 1 ≤ n) := by omega
      simp only [this, if_false]
      unfold Renderer.renderSeq
      simp only [hseq]
      exact hrun
    · rw [hset1]; exact hset
    · rw [hfi1]
      unfold Renderer.nextFrameIndex
      rw [hset, if_pos rfl, hfn]
    · intro _ p hp
      have hp' : p < snew.length := by rw [hlen]; exact hp
      have hsn : snew[p]? = some snew[p] := List.getElem?_eq_getElem hp'
      have hsum : sampleSum (fun m => if m = n then snew else ss m) p (n + 1) =
          sampleSum ss p n + snew[p] := by
        show sampleSum _ p n + _ = _
        rw [sampleSum_congr _ ss p n (fun m hm => by
          have : m ≠ n := by omega
          simp only [this, if_false])]
        simp only [if_true]
        rw [getD_of_getElem? snew p _ hsn]
      have hget : (List.zipWith (· + ·) rn.frameBase snew)[p]? =
          some (sampleSum ss p n + snew[p]) := by
        apply zipWith_add_getElem? _ _ _ _ _ _ hsn
        unfold Renderer.frameBase
        by_cases h0 : n = 0
        · subst h0
          rw [if_pos hfn, List.getElem?_replicate, if_pos (by rw [hsz.accum]; exact hp)]
          rfl
        · have hne : rn.m_FrameIndex ≠ 1 := by rw [hfn]; omega
          rw [if_neg hne]
          exact (hpix (by omega) p hp).1
      rw [hsum]
      constructor
      · rw [hacc1]; exact hget
      · rw [himg1, List.getElem?_map, hget, hfn]
        rfl

/-- The frame index after any number of accumulating calls of `Render`, under the
render contract: the calls return and the counter has advanced modulo `2 ^ 32`. -/
theorem renderSeq_frameIndex (fsqrt : ℚ → ℚ) (rand : ℕ → glm.vec3) (scenes : ℕ → Scene)
    (cameras : ℕ → Camera) (r : Renderer) (k0 W H : ℕ) (hr : r.Sized W H)
    (hv : ∀ n, (scenes n).valid) (hcam : ∀ n, (cameras n).RayDirections.length = W * H)
    (hacc : r.m_Settings.Accumulate = true) :
    ∀ n, ∃ (rn : Renderer) (kn : ℕ),
      Renderer.renderSeq fsqrt rand scenes cameras n (r, k0) = some (rn, kn) ∧
      rn.Sized W H ∧ rn.m_Settings.Accumulate = true ∧
      rn.m_FrameIndex % 2 ^ 32 = (r.m_FrameIndex + n) % 2 ^ 32 ∧
      (1 ≤ n → rn.m_FrameIndex < 2 ^ 32) := by
  intro n
  induction n with
  | zero => exact ⟨r, k0, rfl, hr, hacc, rfl, fun h => by omega⟩
  | succ n ih =>
    obtain ⟨rn, kn, hseq, hsz, hset, hfi, -⟩ := ih
    obtain ⟨-, k1, r1, -, -, hrun, hsz1, hset1, hfi1, -, -⟩ :=
      Render_sized fsqrt rand (scenes n) (cameras n) rn kn W H hsz (hv n) (hcam n)
    have hnext : r1.m_FrameIndex = (rn.m_FrameIndex + 1) % 2 ^ 32 := by
      rw [hfi1]
      unfold Renderer.nextFrameIndex
      rw [hset, if_pos rfl]
    refine ⟨r1, k1, ?_, hsz1, ?_, ?_, ?_⟩
    · unfold Renderer.renderSeq
      simp only [hseq]
      exact hrun
    · rw [hset1]; exact hset
    · rw [hnext]
      omega
    · intro _
      rw [hnext]
      exact Nat.mod_lt _ (by norm_num)

/-- Exact arithmetic: from frame index 1, for every `N` with `1 ≤ N < 2 ^ 32`, after `N`
consecutive calls of `Render` with `Accumulate` enabled and no resize in between
(under the render contract of spec §6), every entry of the accumulation buffer is
the sum `s_1 + ... + s_N` of the samples of the `N` calls at that pixel and every
pixel of the image is `ConvertToRGBA(clamp((s_1 + ... + s_N) / N, 0, 1))`. -/
theorem Render_accumulation_mean_exact (fsqrt : ℚ → ℚ) (rand : ℕ → glm.vec3)
    (scenes : ℕ → Scene) (cameras : ℕ → Camera) (r : Renderer) (k0 W H N : ℕ)
    (hr : r.Sized W H) (hv : ∀ n, (scenes n).valid)
    (hcam : ∀ n, (cameras n).RayDirections.length = W * H)
    (hframe : r.m_FrameIndex = 1) (hacc : r.m_Settings.Accumulate = true)
    (hN1 : 1 ≤ N) (hN : N < 2 ^ 32) :
    Renderer.AccumulationMean fsqrt rand scenes cameras r k0 W H N := by
  obtain ⟨ss, ks, rn, hk0, hsamples, hseq, -, -, -, hpix⟩ :=
    renderSeq_accumulate fsqrt rand scenes cameras r k0 W H hr hv hcam hframe hacc N hN
  exact ⟨ss, ks, rn, hk0, hsamples, hseq, fun p hp => hpix hN1 p hp⟩

/-! ## Scenes without spheres -/

theorem TraceRay_no_spheres (fsqrt : ℚ → ℚ) (scene : Scene) (ray : Ray)
    (h : scene.Spheres = []) :
    Renderer.TraceRay fsqrt scene ray = some (Renderer.Miss ray) := by
  unfold Renderer.TraceRay
  rw [h]
  simp [Renderer.TraceRay.loop]

theorem bounce_no_spheres (fsqrt : ℚ → ℚ) (rand : ℕ → glm.vec3) (scene : Scene)
    (h : scene.Spheres = []) (n : ℕ) (ray : Ray) (color : glm.vec3) (multiplier : ℚ) (k : ℕ) :
    Renderer.PerPixel.bounce fsqrt rand scene (n + 1) ray color multiplier k =
      some (color + Renderer.skyColor * multiplier, k) := by
  unfold Renderer.PerPixel.bounce
  rw [TraceRay_no_spheres fsqrt scene ray h]
  have : (Renderer.Miss ray).HitDistance < 0 := by simp [Renderer.Miss]
  simp only [this, if_true]

theorem sampleAt_no_spheres (fsqrt : ℚ → ℚ) (rand : ℕ → glm.vec3) (scene : Scene)
    (camera : Camera) (h : scene.Spheres = []) (idx k : ℕ)
    (hidx : idx < camera.RayDirections.length) :
    Renderer.sampleAt fsqrt rand scene camera idx k = some (skySample, k) := by
  unfold Renderer.sampleAt
  rw [List.getElem?_eq_getElem hidx]
  simp only [bounce_no_spheres fsqrt rand scene h 4]
  have : (⟨((0 : glm.vec3) + Renderer.skyColor * (1 : ℚ)).x,
      ((0 : glm.vec3) + Renderer.skyColor * (1 : ℚ)).y,
      ((0 : glm.vec3) + Renderer.skyColor * (1 : ℚ)).z, 1⟩ : glm.vec4) = skySample := by
    decide!
  simp only [this]

theorem frameSamples_unit_no_spheres (fsqrt : ℚ → ℚ) (rand : ℕ → glm.vec3) (k : ℕ) :
    frameSamples (Renderer.sampleAt fsqrt rand emptyScene unitCamera) (List.range (1 * 1)) k =
      some ([skySample], k) := by
  have h0 : Renderer.sampleAt fsqrt rand emptyScene unitCamera 0 k = some (skySample, k) :=
    sampleAt_no_spheres fsqrt rand emptyScene unitCamera rfl 0 k (by decide)
  have hr : List.range (1 * 1) = [0] := rfl
  rw [hr]
  simp only [frameSamples, h0]

theorem emptyScene_valid : emptyScene.valid := by
  intro sphere hmem
  simp [emptyScene] at hmem

theorem staleRenderer_sized : staleRenderer.Sized 1 1 ∧ staleRenderer.m_FrameIndex = 1 :=
  OnResize_init_sized 1 1 (by norm_num) _ _

theorem sampleSum_alpha (ss : ℕ → List glm.vec4) (v : glm.vec4) :
    ∀ n, (∀ m, m < n → ss m = [v]) → (sampleSum ss 0 n).a = (n : ℚ) * v.a := by
  intro n
  induction n with
  | zero =>
    intro _
    show (0 : ℚ) = _
    simp
  | succ n ih =>
    intro h
    have hn : ss n = [v] := h n (Nat.lt_succ_self n)
    show (sampleSum ss 0 n).a + ((ss n).getD 0 0).a = _
    rw [ih (fun m hm => h m (Nat.lt_succ_of_lt hm)), hn]
    push_cast
    simp only [List.getD_cons_zero]
    ring

theorem renderSeq_succ (fsqrt : ℚ → ℚ) (rand : ℕ → glm.vec3) (scenes : ℕ → Scene)
    (cameras : ℕ → Camera) (n : ℕ) (s s1 : Renderer × ℕ)
    (h : Renderer.renderSeq fsqrt rand scenes cameras n s = some s1) :
    Renderer.renderSeq fsqrt rand scenes cameras (n + 1) s =
      Renderer.Render fsqrt rand (scenes n) (cameras n) s1 := by
  rw [Renderer.renderSeq]
  simp only [h]

/-- C3, counterexample: on an image of one pixel and a scene without spheres, every
call of `Render` samples the sky colour; after `2 ^ 32 + 1` accumulating calls from
frame index 1 the 32-bit frame index has wrapped to 1 and the buffer was cleared, so
the accumulation-mean property fails for `N = 2 ^ 32 + 1`. -/
theorem Renderer.accumulation_lost_after_wrap :
    ¬ Renderer.AccumulationMean Rat.sqrt zeroRand (fun _ => emptyScene) (fun _ => unitCamera)
        staleRenderer 0 1 1 (2 ^ 32 + 1) := by
  rintro ⟨ss, ks, rN, -, hsamples, hseq, hpix⟩
  obtain ⟨rn, kn, hseqn, hsz, -, hfi, hlt⟩ :=
    renderSeq_frameIndex Rat.sqrt zeroRand (fun _ => emptyScene) (fun _ => unitCamera)
      staleRenderer 0 1 1 staleRenderer_sized.1 (fun _ => emptyScene_valid) (fun _ => rfl) rfl
      (2 ^ 32)
  have hf1 : rn.m_FrameIndex = 1 := by
    have h1 := hlt (by norm_num)
    rw [staleRenderer_sized.2, Nat.mod_eq_of_lt h1] at hfi
    rw [hfi]
    norm_num
  obtain ⟨s1, k1, r1, hs1, -, hrun, -, -, -, hacc1, -⟩ :=
    Render_first_frame Rat.sqrt zeroRand emptyScene unitCamera rn kn 1 1 hsz emptyScene_valid
      rfl hf1
  rw [frameSamples_unit_no_spheres] at hs1
  simp only [Option.some.injEq, Prod.mk.injEq] at hs1
  have hlast : Renderer.renderSeq Rat.sqrt zeroRand (fun _ => emptyScene)
      (fun _ => unitCamera) (2 ^ 32 + 1) (staleRenderer, 0) = some (r1, k1) := by
    rw [renderSeq_succ _ _ _ _ (2 ^ 32) _ _ hseqn]
    exact hrun
  rw [hlast] at hseq
  simp only [Option.some.injEq, Prod.mk.injEq] at hseq
  have hbuf : rN.m_AccumulationData = [skySample] := by
    rw [← hseq.1, hacc1, ← hs1.1]
  have hp := (hpix 0 (by norm_num)).1
  rw [hbuf] at hp
  simp only [List.getElem?_cons_zero, Option.some.injEq] at hp
  have hall : ∀ m, m < 2 ^ 32 + 1 → ss m = [skySample] := by
    intro m hm
    have := hsamples m hm
    rw [frameSamples_unit_no_spheres] at this
    simp only [Option.some.injEq, Prod.mk.injEq] at this
    exact this.1.symm
  have ha := sampleSum_alpha ss skySample (2 ^ 32 + 1) hall
  rw [← hp] at ha
  simp only [skySample] at ha
  norm_num at ha

/-! ## What every call preserves -/

theorem foldlM_option_invariant {α β : Type} (P : β → Prop) (F : β → α → Option β)
    (h : ∀ a b b1, F b a = some b1 → P b → P b1) :
    ∀ (l : List α) (b b1 : β), List.foldlM F b l = some b1 → P b → P b1 := by
  intro l
  induction l with
  | nil =>
    intro b b1 hf hb
    simp only [List.foldlM_nil, Option.pure_def, Option.some.injEq] at hf
    rw [← hf]; exact hb
  | cons a rest ih =>
    intro b b1 hf hb
    rw [List.foldlM_cons] at hf
    cases hF : F b a with
    | none => rw [hF] at hf; simp at hf
    | some b2 =>
      rw [hF] at hf
      exact ih b2 b1 hf (h a b b2 hF hb)

theorem Render_pixel_shape (fsqrt : ℚ → ℚ) (rand : ℕ → glm.vec3) (r : Renderer) (x y : ℕ)
    (s s1 : Renderer × ℕ) (h : Renderer.Render.pixel fsqrt rand x y s = some s1)
    (hs : r.sameShape s.1) : r.sameShape s1.1 := by
  unfold Renderer.Render.pixel at h
  split at h
  · simp at h
  · split at h
    · simp at h
    · dsimp only at h
      split at h
      · simp at h
      · split at h
        · simp only [Option.some.injEq] at h
          rw [← h]
          obtain ⟨h1, h2, h3, h4, h5⟩ := hs
          exact ⟨h1, h2, h3, by simpa using h4, by simpa using h5⟩
        · simp at h

theorem RenderSSAA_pixel_shape (fsqrt : ℚ → ℚ) (rand : ℕ → glm.vec3) (r : Renderer) (x y : ℕ)
    (s s1 : Renderer × ℕ) (h : Renderer.RenderSSAA.pixel fsqrt rand x y s = some s1)
    (hs : r.sameShape s.1 ∧ s.1.m_AccumulationData = r.m_AccumulationData) :
    r.sameShape s1.1 ∧ s1.1.m_AccumulationData = r.m_AccumulationData := by
  unfold Renderer.RenderSSAA.pixel at h
  simp only at h
  split at h
  · simp at h
  · split at h
    · simp at h
    · split at h
      · simp only [Option.some.injEq] at h
        rw [← h]
        obtain ⟨⟨h1, h2, h3, h4, h5⟩, h6⟩ := hs
        exact ⟨⟨h1, h2, h3, h4, by simpa using h5⟩, h6⟩
      · simp at h

/-- Every call of `Render` that returns keeps the image, the settings and the sizes
of the two buffers, and leaves the frame index `Render` computes at its end. -/
theorem Render_shape (fsqrt : ℚ → ℚ) (rand : ℕ → glm.vec3) (scene : Scene) (camera : Camera)
    (s s1 : Renderer × ℕ) (h : Renderer.Render fsqrt rand scene camera s = some s1) :
    s1.1.m_FinalImage = s.1.m_FinalImage ∧ s1.1.m_Settings = s.1.m_Settings ∧
      s1.1.m_FrameIndex = s.1.nextFrameIndex ∧
      s1.1.m_AccumulationData.length = s.1.m_AccumulationData.length ∧
      s1.1.m_ImageData.length = s.1.m_ImageData.length := by
  unfold Renderer.Render at h
  simp only at h
  split at h
  · simp at h
  · rename_i img himg
    split at h
    · simp at h
    · rename_i data hdata
      have hlen : data.length = s.1.m_AccumulationData.length := by
        by_cases h1 : s.1.m_FrameIndex = 1
        · rw [if_pos h1] at hdata
          unfold Renderer.memsetZero at hdata
          split at hdata
          · rename_i hle
            simp only [Option.some.injEq] at hdata
            rw [← hdata]
            simp only [List.length_append, List.length_replicate, List.length_drop]
            omega
          · simp at hdata
        · rw [if_neg h1] at hdata
          simp only [Option.some.injEq] at hdata
          rw [← hdata]
      split at h
      · simp at h
      · rename_i r3 k1 hfold
        simp only [Option.some.injEq] at h
        have hshape : Renderer.sameShape
            { s.1 with m_ActiveScene := some scene, m_ActiveCamera := some camera,
                       m_AccumulationData := data } r3 := by
          have := foldlM_option_invariant
            (fun t : Renderer × ℕ => Renderer.sameShape
              { s.1 with m_ActiveScene := some scene, m_ActiveCamera := some camera,
                         m_AccumulationData := data } t.1)
            (fun s1 y => List.foldlM (fun s2 x => Renderer.Render.pixel fsqrt rand x y s2) s1
              (List.range img.Width))
            (fun y b b1 hb hP => foldlM_option_invariant _ _
              (fun x c c1 hc hPc => Render_pixel_shape fsqrt rand _ x y c c1 hc hPc)
              (List.range img.Width) b b1 hb hP)
            (List.range img.Height) _ _ hfold ⟨rfl, rfl, rfl, rfl, rfl⟩
          exact this
        obtain ⟨h1, h2, h3, h4, h5⟩ := hshape
        rw [← h]
        refine ⟨h1, h3, ?_, ?_, h5⟩
        · simp only [Renderer.nextFrameIndex]
          rw [h3, h2]
        · rw [h4]; exact hlen

/-- Every call of `RenderSSAA` that returns keeps the image, the frame index, the
settings, the accumulation buffer and the size of the image buffer. -/
theorem RenderSSAA_shape (fsqrt : ℚ → ℚ) (rand : ℕ → glm.vec3) (scene : Scene)
    (camera : Camera) (s s1 : Renderer × ℕ)
    (h : Renderer.RenderSSAA fsqrt rand scene camera s = some s1) :
    s.1.sameShape s1.1 ∧ s1.1.m_AccumulationData = s.1.m_AccumulationData := by
  unfold Renderer.RenderSSAA at h
  split at h
  · simp at h
  · rename_i img himg
    exact foldlM_option_invariant
      (fun t : Renderer × ℕ => s.1.sameShape t.1 ∧
        t.1.m_AccumulationData = s.1.m_AccumulationData)
      (fun s1 y => List.foldlM (fun s2 x => Renderer.RenderSSAA.pixel fsqrt rand x y s2) s1
        (List.range img.Width))
      (fun y b b1 hb hP => foldlM_option_invariant _ _
        (fun x c c1 hc hPc => RenderSSAA_pixel_shape fsqrt rand _ x y c c1 hc hPc)
        (List.range img.Width) b b1 hb hP)
      (List.range img.Height) _ _ h ⟨⟨rfl, rfl, rfl, rfl, rfl⟩, rfl⟩

/-! ## Reachable states -/

theorem OnResize_frameIndex (r : Renderer) (width height : ℕ) (newImageData : ℕ → ℕ)
    (newAccumulationData : ℕ → glm.vec4) :
    (Renderer.OnResize r width height newImageData newAccumulationData).m_FrameIndex =
        r.m_FrameIndex ∧
      (Renderer.OnResize r width height newImageData newAccumulationData).m_Settings =
        r.m_Settings := by
  unfold Renderer.OnResize
  simp only
  split
  · split <;> exact ⟨rfl, rfl⟩
  · exact ⟨rfl, rfl⟩

theorem OnResize_wellFormed (r : Renderer) (width height : ℕ) (newImageData : ℕ → ℕ)
    (newAccumulationData : ℕ → glm.vec4) (hr : r.WellFormed) (hw : width < 2 ^ 32)
    (hh : height < 2 ^ 32) :
    (Renderer.OnResize r width height newImageData newAccumulationData).WellFormed := by
  obtain ⟨hf, hb⟩ := hr
  unfold Renderer.OnResize
  simp only
  split
  · rename_i img himg
    split
    · refine ⟨hf, ?_⟩
      rw [himg] at hb ⊢
      exact hb
    · refine ⟨hf, ?_⟩
      simp only [Image.Resize, List.length_map, List.length_range]
      exact ⟨hw, hh, trivial, trivial⟩
  · refine ⟨hf, ?_⟩
    simp only [List.length_map, List.length_range]
    exact ⟨hw, hh, trivial, trivial⟩

theorem nextFrameIndex_lt (r : Renderer) : r.nextFrameIndex < 2 ^ 32 := by
  unfold Renderer.nextFrameIndex
  split
  · exact Nat.mod_lt _ (by norm_num)
  · norm_num

/-- In every reachable state the buffers agree with the image. -/
theorem reachableIn_wellFormed (fsqrt : ℚ → ℚ) (rand : ℕ → glm.vec3) (n : ℕ)
    (s : Renderer × ℕ) (hs : Renderer.ReachableIn fsqrt rand n s) : s.1.WellFormed := by
  induction hs with
  | init k => exact ⟨by simp [Renderer.init], by simp [Renderer.init]⟩
  | onResize width height fi fa _ hw hh ih => exact OnResize_wellFormed _ _ _ _ _ ih hw hh
  | render scene camera _ hrun ih =>
    obtain ⟨h1, _, h3, h4, h5⟩ := Render_shape fsqrt rand scene camera _ _ hrun
    obtain ⟨_, hb⟩ := ih
    refine ⟨by rw [h3]; exact nextFrameIndex_lt _, ?_⟩
    rw [h1, h4, h5]
    exact hb
  | renderSSAA scene camera _ hrun ih =>
    obtain ⟨⟨h1, h2, _, h4, h5⟩, _⟩ := RenderSSAA_shape fsqrt rand scene camera _ _ hrun
    obtain ⟨hf, hb⟩ := ih
    refine ⟨by rw [h2]; exact hf, ?_⟩
    rw [h1, h4, h5]
    exact hb
  | settings st _ ih => exact ih

/-- The frame index of a state reached with `n` calls of `Render` is at most `n + 1`
when it has not wrapped, which is the case for `n < 2 ^ 32 - 1`. -/
theorem reachableIn_frameIndex (fsqrt : ℚ → ℚ) (rand : ℕ → glm.vec3) (n : ℕ)
    (s : Renderer × ℕ) (hs : Renderer.ReachableIn fsqrt rand n s) :
    n < 2 ^ 32 - 1 → 1 ≤ s.1.m_FrameIndex ∧ s.1.m_FrameIndex ≤ n + 1 := by
  induction hs with
  | init k => intro _; simp [Renderer.init]
  | onResize width height fi fa _ hw hh ih =>
    intro hn
    rw [(OnResize_frameIndex _ width height fi fa).1]
    exact ih hn
  | render scene camera _ hrun ih =>
    rename_i m s0 s1 _
    intro hn
    obtain ⟨_, _, h3, _, _⟩ := Render_shape fsqrt rand scene camera _ _ hrun
    obtain ⟨hl, hu⟩ := ih (by omega)
    rw [h3]
    unfold Renderer.nextFrameIndex
    split
    · rw [Nat.mod_eq_of_lt (by omega)]
      omega
    · omega
  | renderSSAA scene camera _ hrun ih =>
    intro hn
    obtain ⟨⟨_, h2, _, _, _⟩, _⟩ := RenderSSAA_shape fsqrt rand scene camera _ _ hrun
    rw [h2]
    exact ih hn
  | settings st _ ih => exact ih

theorem renderSeq_reachableIn (fsqrt : ℚ → ℚ) (rand : ℕ → glm.vec3) (scenes : ℕ → Scene)
    (cameras : ℕ → Camera) (m : ℕ) (s : Renderer × ℕ)
    (hs : Renderer.ReachableIn fsqrt rand m s) :
    ∀ (n : ℕ) (s1 : Renderer × ℕ),
      Renderer.renderSeq fsqrt rand scenes cameras n s = some s1 →
      Renderer.ReachableIn fsqrt rand (m + n) s1 := by
  intro n
  induction n with
  | zero =>
    intro s1 h
    simp only [Renderer.renderSeq, Option.some.injEq] at h
    rw [← h]; exact hs
  | succ n ih =>
    intro s1 h
    rw [Renderer.renderSeq] at h
    split at h
    · simp at h
    · rename_i s2 hs2
      exact Renderer.ReachableIn.render (scenes n) (cameras n) (ih s2 hs2) h

theorem staleRenderer_reachableIn (fsqrt : ℚ → ℚ) (rand : ℕ → glm.vec3) (k : ℕ) :
    Renderer.ReachableIn fsqrt rand 0 (staleRenderer, k) :=
  Renderer.ReachableIn.onResize 1 1 _ _ (Renderer.ReachableIn.init k) (by norm_num)
    (by norm_num)

/-- C6, amended: in every state reached with fewer than `2 ^ 32 - 1` calls of `Render`
the frame index is at least 1 (and at most the number of calls plus 1); `Render` with
`Accumulate` true increments the counter modulo `2 ^ 32`, `Render` with `Accumulate`
false sets it to 1, and `RenderSSAA` and `OnResize` leave it unchanged. -/
theorem Renderer.frameIndex_invariant (fsqrt : ℚ → ℚ) (rand : ℕ → glm.vec3) (n : ℕ)
    (s : Renderer × ℕ) (hs : Renderer.ReachableIn fsqrt rand n s) (hn : n < 2 ^ 32 - 1) :
    Renderer.init.m_FrameIndex = 1 ∧
    1 ≤ s.1.m_FrameIndex ∧ s.1.m_FrameIndex ≤ n + 1 ∧
    (∀ scene camera s1, Renderer.Render fsqrt rand scene camera s = some s1 →
      s1.1.m_FrameIndex =
        if s.1.m_Settings.Accumulate then (s.1.m_FrameIndex + 1) % 2 ^ 32 else 1) ∧
    (∀ scene camera s1, Renderer.RenderSSAA fsqrt rand scene camera s = some s1 →
      s1.1.m_FrameIndex = s.1.m_FrameIndex) ∧
    (∀ width height newImageData newAccumulationData,
      (Renderer.OnResize s.1 width height newImageData newAccumulationData).m_FrameIndex =
        s.1.m_FrameIndex) := by
  obtain ⟨hl, hu⟩ := reachableIn_frameIndex fsqrt rand n s hs hn
  refine ⟨rfl, hl, hu, ?_, ?_, ?_⟩
  · intro scene camera s1 hrun
    obtain ⟨_, _, h3, _, _⟩ := Render_shape fsqrt rand scene camera _ _ hrun
    rw [h3]
    rfl
  · intro scene camera s1 hrun
    exact (RenderSSAA_shape fsqrt rand scene camera _ _ hrun).1.2.1
  · intro width height fi fa
    exact (OnResize_frameIndex _ width height fi fa).1

/-- C6, counterexample: after `OnResize(1, 1)` on a new renderer and `2 ^ 32 - 1` calls
of `Render` with `Accumulate` true, a reachable state, the 32-bit frame index has
wrapped around to 0. -/
theorem Renderer.frameIndex_wraps_to_zero :
    ∃ s, Renderer.renderSeq Rat.sqrt zeroRand (fun _ => emptyScene) (fun _ => unitCamera)
          (2 ^ 32 - 1) (staleRenderer, 0) = some s ∧
      Renderer.Reachable Rat.sqrt zeroRand s ∧ s.1.m_FrameIndex = 0 := by
  obtain ⟨rn, kn, hseq, -, -, hfi, hlt⟩ :=
    renderSeq_frameIndex Rat.sqrt zeroRand (fun _ => emptyScene) (fun _ => unitCamera)
      staleRenderer 0 1 1 staleRenderer_sized.1 (fun _ => emptyScene_valid) (fun _ => rfl) rfl
      (2 ^ 32 - 1)
  refine ⟨(rn, kn), hseq, ⟨_, renderSeq_reachableIn _ _ _ _ 0 _
    (staleRenderer_reachableIn _ _ 0) _ _ hseq⟩, ?_⟩
  have h1 := hlt (by norm_num)
  rw [staleRenderer_sized.2, Nat.mod_eq_of_lt h1] at hfi
  rw [hfi]
  norm_num

/-! ## The `Accumulate` setting -/

/-- C5, amended: under the render contract, every call of `Render` made with
`Accumulate` false returns and leaves the frame index at 1; the call itself starts
from a zeroed accumulation buffer only when the frame index was 1 on entry; and the
next call of `Render` (whatever the settings then are) has its accumulation buffer
zeroed, so that after it the buffer holds that call's samples alone and the image
their encodings. -/
theorem Renderer.Render_accumulate_off (fsqrt : ℚ → ℚ) (rand : ℕ → glm.vec3)
    (scene scene1 : Scene) (camera camera1 : Camera) (r : Renderer) (k W H : ℕ)
    (hr : r.Sized W H) (hv : scene.valid) (hcam : camera.RayDirections.length = W * H)
    (hv1 : scene1.valid) (hcam1 : camera1.RayDirections.length = W * H)
    (hoff : r.m_Settings.Accumulate = false) :
    ∃ ss k1 r1,
      frameSamples (Renderer.sampleAt fsqrt rand scene camera) (List.range (W * H)) k =
        some (ss, k1) ∧
      Renderer.Render fsqrt rand scene camera (r, k) = some (r1, k1) ∧
      r1.m_FrameIndex = 1 ∧
      (r.m_FrameIndex = 1 →
        r1.m_AccumulationData = ss ∧
        r1.m_ImageData = ss.map (fun sample => Utils.ConvertToRGBA (glm.clamp sample 0 1))) ∧
      ∀ settings : Settings, ∃ ss1 k2 r2,
        frameSamples (Renderer.sampleAt fsqrt rand scene1 camera1) (List.range (W * H)) k1 =
          some (ss1, k2) ∧
        Renderer.Render fsqrt rand scene1 camera1 ({ r1 with m_Settings := settings }, k1) =
          some (r2, k2) ∧
        r2.m_AccumulationData = ss1 ∧
        r2.m_ImageData = ss1.map (fun sample => Utils.ConvertToRGBA (glm.clamp sample 0 1)) := by
  obtain ⟨ss, k1, r1, hss, hlen, hrun, hsz, hset, hfi, hacc, himg⟩ :=
    Render_sized fsqrt rand scene camera r k W H hr hv hcam
  have hf1 : r1.m_FrameIndex = 1 := by
    rw [hfi]
    unfold Renderer.nextFrameIndex
    rw [hoff]
    rfl
  refine ⟨ss, k1, r1, hss, hrun, hf1, ?_, ?_⟩
  · intro hframe
    obtain ⟨ss0, k0, r0, hss0, -, hrun0, -, -, -, hacc0, himg0⟩ :=
      Render_first_frame fsqrt rand scene camera r k W H hr hv hcam hframe
    rw [hss] at hss0
    rw [hrun] at hrun0
    simp only [Option.some.injEq, Prod.mk.injEq] at hss0 hrun0
    rw [hrun0.1, hss0.1]
    exact ⟨hacc0, himg0⟩
  · intro settings
    have hsz1 : Renderer.Sized { r1 with m_Settings := settings } W H :=
      ⟨hsz.image, hsz.fits, hsz.accum, hsz.data⟩
    obtain ⟨ss1, k2, r2, hss1, -, hrun1, -, -, -, hacc1, himg1⟩ :=
      Render_first_frame fsqrt rand scene1 camera1 { r1 with m_Settings := settings } k1 W H
        hsz1 hv1 hcam1 hf1
    exact ⟨ss1, k2, r2, hss1, hrun1, hacc1, himg1⟩

/-- C5, counterexample: a renderer of one pixel renders a sphere once with `Accumulate`
true, `Accumulate` is then switched off, and `Render` is called on a scene without
spheres.  That call, made with `Accumulate` false from a reachable state, samples
the sky colour, but the accumulation buffer is not zeroed: it holds the sum of both
samples, and the image is the encoding of their mean, not of the sky colour. -/
theorem Renderer.first_call_after_switch_keeps_sums :
    ∃ s1 s2 : Renderer × ℕ,
      Renderer.Render Rat.sqrt zeroRand oneSphereScene unitCamera (staleRenderer, 0) = some s1 ∧
      Renderer.Reachable Rat.sqrt zeroRand ({ s1.1 with m_Settings := ⟨false⟩ }, s1.2) ∧
      Renderer.Render Rat.sqrt zeroRand emptyScene unitCamera
        ({ s1.1 with m_Settings := ⟨false⟩ }, s1.2) = some s2 ∧
      frameSamples (Renderer.sampleAt Rat.sqrt zeroRand emptyScene unitCamera)
        (List.range (1 * 1)) s1.2 = some ([skySample], s2.2) ∧
      s2.1.m_AccumulationData = [⟨19 / 10, 21 / 20, 47 / 20, 2⟩] ∧
      s2.1.m_AccumulationData ≠ [skySample] ∧
      s2.1.m_ImageData = [4294936050] ∧
      s2.1.m_ImageData ≠ [Utils.ConvertToRGBA (glm.clamp skySample 0 1)] := by
  have h1 : Renderer.Render Rat.sqrt zeroRand oneSphereScene unitCamera (staleRenderer, 0) =
      some (⟨some ⟨1, 1⟩, [4294924799], [⟨13 / 10, 7 / 20, 29 / 20, 1⟩], 2, ⟨true⟩,
        some oneSphereScene, some unitCamera⟩, 1) := by decide!
  have h2 : Renderer.Render Rat.sqrt zeroRand emptyScene unitCamera
      (⟨some ⟨1, 1⟩, [4294924799], [⟨13 / 10, 7 / 20, 29 / 20, 1⟩], 2, ⟨false⟩,
        some oneSphereScene, some unitCamera⟩, 1) =
      some (⟨some ⟨1, 1⟩, [4294936050], [⟨19 / 10, 21 / 20, 47 / 20, 2⟩], 1, ⟨false⟩,
        some emptyScene, some unitCamera⟩, 1) := by decide!
  refine ⟨_, _, h1, ?_, h2, ?_, rfl, ?_, rfl, ?_⟩
  · exact ⟨1, Renderer.ReachableIn.settings ⟨false⟩
      (Renderer.ReachableIn.render oneSphereScene unitCamera
        (staleRenderer_reachableIn Rat.sqrt zeroRand 0) h1)⟩
  · exact frameSamples_unit_no_spheres Rat.sqrt zeroRand 1
  · decide!
  · decide!

/-! ## Resizing -/

/-- C7, amended: for every width and height greater than 0 whose product is below
`2 ^ 32`, after `OnResize(width, height)` on a reachable renderer the image has
dimensions `(width, height)` and the image-data buffer and the accumulation buffer
have exactly `width * height` elements; and when an image with these dimensions
already exists the call changes nothing: buffers, contents and frame index are
those of before. -/
theorem Renderer.OnResize_contract (fsqrt : ℚ → ℚ) (rand : ℕ → glm.vec3) (s : Renderer × ℕ)
    (hs : Renderer.Reachable fsqrt rand s) (width height : ℕ) (_hw : 0 < width)
    (_hh : 0 < height) (hfit : width * height < 2 ^ 32) (newImageData : ℕ → ℕ)
    (newAccumulationData : ℕ → glm.vec4) :
    (∃ img, (Renderer.OnResize s.1 width height newImageData newAccumulationData).m_FinalImage
        = some img ∧ img.Width = width ∧ img.Height = height) ∧
    (Renderer.OnResize s.1 width height newImageData newAccumulationData).m_ImageData.length
      = width * height ∧
    (Renderer.OnResize s.1 width height newImageData
      newAccumulationData).m_AccumulationData.length = width * height ∧
    (∀ img, s.1.m_FinalImage = some img → img.Width = width → img.Height = height →
      Renderer.OnResize s.1 width height newImageData newAccumulationData = s.1) := by
  obtain ⟨n, hn⟩ := hs
  obtain ⟨-, hb⟩ := reachableIn_wellFormed fsqrt rand n s hn
  have hmod : (width * height) % 2 ^ 32 = width * height := Nat.mod_eq_of_lt hfit
  have hfit1 : width * height < 4294967296 := by simpa using hfit
  cases himg : s.1.m_FinalImage with
  | none =>
    refine ⟨?_, ?_, ?_, ?_⟩
    · exact ⟨⟨width, height⟩, by simp [Renderer.OnResize, himg], rfl, rfl⟩
    · simp [Renderer.OnResize, himg, hfit1]
    · simp [Renderer.OnResize, himg, hfit1]
    · intro img h; simp at h
  | some img0 =>
    rw [himg] at hb
    by_cases hsame : img0.Width = width ∧ img0.Height = height
    · have hno : Renderer.OnResize s.1 width height newImageData newAccumulationData = s.1 := by
        simp [Renderer.OnResize, himg, hsame]
      rw [hno]
      refine ⟨⟨img0, himg, hsame.1, hsame.2⟩, ?_, ?_, fun _ _ _ _ => rfl⟩
      · rw [hb.2.2.2, hsame.1, hsame.2, hmod]
      · rw [hb.2.2.1, hsame.1, hsame.2, hmod]
    · refine ⟨?_, ?_, ?_, ?_⟩
      · exact ⟨⟨width, height⟩, by simp [Renderer.OnResize, himg, hsame, Image.Resize],
          rfl, rfl⟩
      · simp [Renderer.OnResize, himg, hsame, hfit1]
      · simp [Renderer.OnResize, himg, hsame, hfit1]
      · intro img h h1 h2
        simp only [Option.some.injEq] at h
        rw [← h] at h1 h2
        exact absurd ⟨h1, h2⟩ hsame

/-- C7, counterexample: `OnResize(65536, 65536)` on a new renderer makes an image of
65536 by 65536 pixels, but the 32-bit product `width * height` is 0, so both buffers
are allocated with 0 elements instead of `65536 * 65536`. -/
theorem Renderer.OnResize_product_wraps :
    (Renderer.OnResize Renderer.init 65536 65536 (fun _ => 0) (fun _ => 0)).m_FinalImage =
      some ⟨65536, 65536⟩ ∧
    (Renderer.OnResize Renderer.init 65536 65536 (fun _ => 0) (fun _ => 0)).m_ImageData.length
      = 0 ∧
    (Renderer.OnResize Renderer.init 65536 65536 (fun _ => 0)
      (fun _ => 0)).m_AccumulationData.length = 0 ∧
    (Renderer.OnResize Renderer.init 65536 65536 (fun _ => 0) (fun _ => 0)).m_ImageData.length
      ≠ 65536 * 65536 := by
  decide!

/-- Evaluation of the source on the failing input of C8: a renderer of one pixel has
rendered one accumulating frame (frame index 2) and is resized to two pixels, the
new accumulation array holding `(9, 9, 9, 9)` in each element.  `OnResize` leaves
these values in place, and the next `Render`, at frame index 2, adds its sky samples
to them: the image is white, not the sky colour. -/
theorem Renderer.OnResize_accumulation_not_zeroed :
    ∃ s1 s2 : Renderer × ℕ,
      Renderer.Render Rat.sqrt zeroRand emptyScene unitCamera (staleRenderer, 0) = some s1 ∧
      s1.1.m_FrameIndex = 2 ∧
      (Renderer.OnResize s1.1 2 1 (fun _ => 7) (fun _ => ⟨9, 9, 9, 9⟩)).m_AccumulationData =
        [⟨9, 9, 9, 9⟩, ⟨9, 9, 9, 9⟩] ∧
      Renderer.Render Rat.sqrt zeroRand emptyScene twoPixelCamera
        (Renderer.OnResize s1.1 2 1 (fun _ => 7) (fun _ => ⟨9, 9, 9, 9⟩), s1.2) = some s2 ∧
      s2.1.m_AccumulationData =
        [⟨48 / 5, 97 / 10, 99 / 10, 10⟩, ⟨48 / 5, 97 / 10, 99 / 10, 10⟩] ∧
      s2.1.m_ImageData = [4294967295, 4294967295] ∧
      Utils.ConvertToRGBA (glm.clamp skySample 0 1) = 4293243545 := by
  have h1 : Renderer.Render Rat.sqrt zeroRand emptyScene unitCamera (staleRenderer, 0) =
      some (⟨some ⟨1, 1⟩, [4293243545], [skySample], 2, ⟨true⟩,
        some emptyScene, some unitCamera⟩, 0) := by decide!
  have h2 : Renderer.Render Rat.sqrt zeroRand emptyScene twoPixelCamera
      (Renderer.OnResize ⟨some ⟨1, 1⟩, [4293243545], [skySample], 2, ⟨true⟩,
        some emptyScene, some unitCamera⟩ 2 1 (fun _ => 7) (fun _ => ⟨9, 9, 9, 9⟩), 0) =
      some (⟨some ⟨2, 1⟩, [4294967295, 4294967295],
        [⟨48 / 5, 97 / 10, 99 / 10, 10⟩, ⟨48 / 5, 97 / 10, 99 / 10, 10⟩], 3, ⟨true⟩,
        some emptyScene, some twoPixelCamera⟩, 0) := by decide!
  exact ⟨_, _, h1, rfl, by decide!, h2, rfl, rfl, by decide!⟩

/-! ## Encoding round trip -/

theorem clampScalar_of_unit (x : ℚ) (h0 : 0 ≤ x) (h1 : x ≤ 1) : glm.clampScalar x 0 1 = x := by
  unfold glm.clampScalar glm.max glm.min
  rw [if_neg (not_lt.mpr h0), if_neg (not_lt.mpr h1)]

theorem toUInt8_level (n : ℕ) (h : n ≤ 255) : toUInt8 ((n : ℚ) / 255 * 255) = n := by
  have e : (n : ℚ) / 255 * 255 = ((n : ℤ) : ℚ) := by
    rw [div_mul_cancel₀ _ (by norm_num : (255 : ℚ) ≠ 0)]
    norm_cast
  unfold toUInt8 truncToInt
  rw [e, if_pos (by exact_mod_cast Int.natCast_nonneg n), Int.floor_intCast]
  omega

theorem level_unit (n : ℕ) (h : n ≤ 255) : (0 : ℚ) ≤ (n : ℚ) / 255 ∧ (n : ℚ) / 255 ≤ 1 := by
  constructor
  · positivity
  · rw [div_le_one (by norm_num)]
    exact_mod_cast h

/-- C2: for every 8-bit tuple `(r, g, b, a)`, clamping the colour
`(r/255, g/255, b/255, a/255)` to [0,1] and encoding it with `ConvertToRGBA` yields a
word whose four bytes, from the least significant one, are exactly `r`, `g`, `b`,
`a`. -/
theorem Utils.ConvertToRGBA_round_trip (r g b a : ℕ) (hr : r ≤ 255) (hg : g ≤ 255)
    (hb : b ≤ 255) (ha : a ≤ 255) :
    Utils.ConvertToRGBA
        (glm.clamp ⟨(r : ℚ) / 255, (g : ℚ) / 255, (b : ℚ) / 255, (a : ℚ) / 255⟩ 0 1) % 2 ^ 8 = r ∧
    Utils.ConvertToRGBA
        (glm.clamp ⟨(r : ℚ) / 255, (g : ℚ) / 255, (b : ℚ) / 255, (a : ℚ) / 255⟩ 0 1) / 2 ^ 8
          % 2 ^ 8 = g ∧
    Utils.ConvertToRGBA
        (glm.clamp ⟨(r : ℚ) / 255, (g : ℚ) / 255, (b : ℚ) / 255, (a : ℚ) / 255⟩ 0 1) / 2 ^ 16
          % 2 ^ 8 = b ∧
    Utils.ConvertToRGBA
        (glm.clamp ⟨(r : ℚ) / 255, (g : ℚ) / 255, (b : ℚ) / 255, (a : ℚ) / 255⟩ 0 1) / 2 ^ 24
          % 2 ^ 8 = a := by
  have hc : glm.clamp ⟨(r : ℚ) / 255, (g : ℚ) / 255, (b : ℚ) / 255, (a : ℚ) / 255⟩ 0 1 =
      ⟨(r : ℚ) / 255, (g : ℚ) / 255, (b : ℚ) / 255, (a : ℚ) / 255⟩ := by
    unfold glm.clamp
    show glm.vec4.mk (glm.clampScalar _ 0 1) (glm.clampScalar _ 0 1) (glm.clampScalar _ 0 1)
      (glm.clampScalar _ 0 1) = _
    rw [clampScalar_of_unit _ (level_unit r hr).1 (level_unit r hr).2,
      clampScalar_of_unit _ (level_unit g hg).1 (level_unit g hg).2,
      clampScalar_of_unit _ (level_unit b hb).1 (level_unit b hb).2,
      clampScalar_of_unit _ (level_unit a ha).1 (level_unit a ha).2]
  have hw := ConvertToRGBA_eq
    ⟨(r : ℚ) / 255, (g : ℚ) / 255, (b : ℚ) / 255, (a : ℚ) / 255⟩ r g b a
    (toUInt8_level r hr) (toUInt8_level g hg) (toUInt8_level b hb) (toUInt8_level a ha)
    hr hg hb ha
  rw [hc, hw]
  refine ⟨?_, ?_, ?_, ?_⟩ <;> omega

set_option maxRecDepth 100000 in
/-- The round trip of C2 with the two `float` operations rounded to binary32: for every
8-bit level `n`, the `float` nearest to `n / 255`, multiplied by 255 in `float`
arithmetic and truncated, gives `n` again. -/
theorem toUInt8_binary32_level :
    ∀ n : Fin 256,
      toUInt8 (roundBinary32 (roundBinary32 ((n.val : ℚ) / 255) * 255)) = n.val := by
  decide!

/-! ## Instances of the theorems on concrete inputs -/

/-- Instance of C1 on the sky colour `(0.6, 0.7, 0.9, 1)`. -/
theorem Utils.ConvertToRGBA_layout_witness :
    ∃ R G B A : ℕ,
      (R : ℤ) = ⌊skySample.r * 255⌋ ∧ (G : ℤ) = ⌊skySample.g * 255⌋ ∧
      (B : ℤ) = ⌊skySample.b * 255⌋ ∧ (A : ℤ) = ⌊skySample.a * 255⌋ ∧
      R ≤ 255 ∧ G ≤ 255 ∧ B ≤ 255 ∧ A ≤ 255 ∧
      Utils.ConvertToRGBA skySample < 2 ^ 32 ∧
      Utils.ConvertToRGBA skySample = ((A <<< 24) ||| (B <<< 16) ||| (G <<< 8) ||| R) ∧
      Utils.ConvertToRGBA skySample % 2 ^ 8 = R ∧
      Utils.ConvertToRGBA skySample / 2 ^ 8 % 2 ^ 8 = G ∧
      Utils.ConvertToRGBA skySample / 2 ^ 16 % 2 ^ 8 = B ∧
      Utils.ConvertToRGBA skySample / 2 ^ 24 = A :=
  Utils.ConvertToRGBA_layout skySample (by decide!) (by decide!) (by decide!) (by decide!)

/-- Instance of C2 on the bytes `(153, 178, 229, 255)`. -/
theorem Utils.ConvertToRGBA_round_trip_witness :
    Utils.ConvertToRGBA
        (glm.clamp ⟨((153 : ℕ) : ℚ) / 255, ((178 : ℕ) : ℚ) / 255, ((229 : ℕ) : ℚ) / 255,
          ((255 : ℕ) : ℚ) / 255⟩ 0 1) % 2 ^ 8 = 153 ∧
    Utils.ConvertToRGBA
        (glm.clamp ⟨((153 : ℕ) : ℚ) / 255, ((178 : ℕ) : ℚ) / 255, ((229 : ℕ) : ℚ) / 255,
          ((255 : ℕ) : ℚ) / 255⟩ 0 1) / 2 ^ 8 % 2 ^ 8 = 178 ∧
    Utils.ConvertToRGBA
        (glm.clamp ⟨((153 : ℕ) : ℚ) / 255, ((178 : ℕ) : ℚ) / 255, ((229 : ℕ) : ℚ) / 255,
          ((255 : ℕ) : ℚ) / 255⟩ 0 1) / 2 ^ 16 % 2 ^ 8 = 229 ∧
    Utils.ConvertToRGBA
        (glm.clamp ⟨((153 : ℕ) : ℚ) / 255, ((178 : ℕ) : ℚ) / 255, ((229 : ℕ) : ℚ) / 255,
          ((255 : ℕ) : ℚ) / 255⟩ 0 1) / 2 ^ 24 % 2 ^ 8 = 255 :=
  Utils.ConvertToRGBA_round_trip 153 178 229 255 (by decide) (by decide) (by decide) (by decide)

theorem oneSphereScene_valid : oneSphereScene.valid := by
  intro sphere hmem
  simp only [oneSphereScene, List.mem_singleton] at hmem
  subst hmem
  decide

theorem sphereThenEmpty_valid (n : ℕ) : (sphereThenEmpty n).valid := by
  unfold sphereThenEmpty
  split
  · exact oneSphereScene_valid
  · exact emptyScene_valid

/-- Instance of C4: a renderer of one pixel whose buffers hold stale values renders
the sphere at frame index 1. -/
theorem Renderer.Render_clean_start_witness :
    ∃ ss k1 r1,
      frameSamples (Renderer.sampleAt Rat.sqrt zeroRand oneSphereScene unitCamera)
        (List.range (1 * 1)) 0 = some (ss, k1) ∧
      Renderer.Render Rat.sqrt zeroRand oneSphereScene unitCamera (staleRenderer, 0) =
        some (r1, k1) ∧
      (∀ p, p < 1 * 1 → ∃ sample, ss[p]? = some sample ∧
        r1.m_ImageData[p]? = some (Utils.ConvertToRGBA (glm.clamp (sample / (1 : ℚ)) 0 1)) ∧
        r1.m_AccumulationData[p]? = some sample) ∧
      ∀ (newImageData : ℕ → ℕ) (newAccumulationData : ℕ → glm.vec4),
        ∃ r2, Renderer.Render Rat.sqrt zeroRand oneSphereScene unitCamera
            (Renderer.OnResize Renderer.init 1 1 newImageData newAccumulationData, 0) =
              some (r2, k1) ∧
          r2.m_ImageData = r1.m_ImageData :=
  Renderer.Render_clean_start Rat.sqrt zeroRand oneSphereScene unitCamera staleRenderer 0 1 1
    staleRenderer_sized.1 oneSphereScene_valid rfl staleRenderer_sized.2

/-- Instance of C5: a renderer of one pixel with `Accumulate` false renders the sphere
and then the scene without spheres. -/
theorem Renderer.Render_accumulate_off_witness :
    ∃ ss k1 r1,
      frameSamples (Renderer.sampleAt Rat.sqrt zeroRand oneSphereScene unitCamera)
        (List.range (1 * 1)) 0 = some (ss, k1) ∧
      Renderer.Render Rat.sqrt zeroRand oneSphereScene unitCamera
        ({ staleRenderer with m_Settings := ⟨false⟩ }, 0) = some (r1, k1) ∧
      r1.m_FrameIndex = 1 ∧
      (({ staleRenderer with m_Settings := ⟨false⟩ } : Renderer).m_FrameIndex = 1 →
        r1.m_AccumulationData = ss ∧
        r1.m_ImageData = ss.map (fun sample => Utils.ConvertToRGBA (glm.clamp sample 0 1))) ∧
      ∀ settings : Settings, ∃ ss1 k2 r2,
        frameSamples (Renderer.sampleAt Rat.sqrt zeroRand emptyScene unitCamera)
          (List.range (1 * 1)) k1 = some (ss1, k2) ∧
        Renderer.Render Rat.sqrt zeroRand emptyScene unitCamera
          ({ r1 with m_Settings := settings }, k1) = some (r2, k2) ∧
        r2.m_AccumulationData = ss1 ∧
        r2.m_ImageData = ss1.map (fun sample => Utils.ConvertToRGBA (glm.clamp sample 0 1)) :=
  Renderer.Render_accumulate_off Rat.sqrt zeroRand oneSphereScene emptyScene unitCamera
    unitCamera { staleRenderer with m_Settings := ⟨false⟩ } 0 1 1
    ⟨rfl, by decide, rfl, rfl⟩ oneSphereScene_valid rfl emptyScene_valid rfl rfl

/-- Instance of C6 on the renderer resized to one pixel, before any call of `Render`. -/
theorem Renderer.frameIndex_invariant_witness :
    Renderer.ReachableIn Rat.sqrt zeroRand 0 (staleRenderer, 0) ∧
    (Renderer.init.m_FrameIndex = 1 ∧
    1 ≤ (staleRenderer, 0).1.m_FrameIndex ∧ (staleRenderer, 0).1.m_FrameIndex ≤ 0 + 1 ∧
    (∀ scene camera s1,
      Renderer.Render Rat.sqrt zeroRand scene camera (staleRenderer, 0) = some s1 →
      s1.1.m_FrameIndex =
        if (staleRenderer, 0).1.m_Settings.Accumulate then
          ((staleRenderer, 0).1.m_FrameIndex + 1) % 2 ^ 32 else 1) ∧
    (∀ scene camera s1,
      Renderer.RenderSSAA Rat.sqrt zeroRand scene camera (staleRenderer, 0) = some s1 →
      s1.1.m_FrameIndex = (staleRenderer, 0).1.m_FrameIndex) ∧
    (∀ width height newImageData newAccumulationData,
      (Renderer.OnResize (staleRenderer, 0).1 width height newImageData
        newAccumulationData).m_FrameIndex = (staleRenderer, 0).1.m_FrameIndex)) :=
  ⟨staleRenderer_reachableIn Rat.sqrt zeroRand 0,
    Renderer.frameIndex_invariant Rat.sqrt zeroRand 0 (staleRenderer, 0)
      (staleRenderer_reachableIn Rat.sqrt zeroRand 0) (by decide)⟩

/-- Instance of C7: the renderer of one pixel is resized to 2 by 3 pixels. -/
theorem Renderer.OnResize_contract_witness :
    (∃ img, (Renderer.OnResize (staleRenderer, 0).1 2 3 (fun _ => 0)
        (fun _ => 0)).m_FinalImage = some img ∧ img.Width = 2 ∧ img.Height = 3) ∧
    (Renderer.OnResize (staleRenderer, 0).1 2 3 (fun _ => 0) (fun _ => 0)).m_ImageData.length
      = 2 * 3 ∧
    (Renderer.OnResize (staleRenderer, 0).1 2 3 (fun _ => 0)
      (fun _ => 0)).m_AccumulationData.length = 2 * 3 ∧
    (∀ img, (staleRenderer, 0).1.m_FinalImage = some img → img.Width = 2 → img.Height = 3 →
      Renderer.OnResize (staleRenderer, 0).1 2 3 (fun _ => 0) (fun _ => 0) =
        (staleRenderer, 0).1) :=
  Renderer.OnResize_contract Rat.sqrt zeroRand (staleRenderer, 0)
    ⟨0, staleRenderer_reachableIn Rat.sqrt zeroRand 0⟩ 2 3 (by decide) (by decide) (by decide)
    (fun _ => 0) (fun _ => 0)

/-- Evaluation of `TraceRay` on the scene with a tie: the distance is 4 and the index
reported is 1, the first of the two coinciding spheres in storage order. -/
theorem TraceRay_tieScene :
    (Renderer.TraceRay Rat.sqrt tieScene axisRay).map
      (fun payload => (payload.HitDistance, payload.ObjectIndex)) = some (4, 1) := by
  decide!

/-! ## Vector algebra -/

theorem vec3_ext (u v : glm.vec3) (hx : u.x = v.x) (hy : u.y = v.y) (hz : u.z = v.z) :
    u = v := by
  cases u; cases v
  simp only [glm.vec3.mk.injEq]
  exact ⟨hx, hy, hz⟩

theorem vec3_add_x (u v : glm.vec3) : (u + v).x = u.x + v.x := rfl
theorem vec3_add_y (u v : glm.vec3) : (u + v).y = u.y + v.y := rfl
theorem vec3_add_z (u v : glm.vec3) : (u + v).z = u.z + v.z := rfl
theorem vec3_sub_x (u v : glm.vec3) : (u - v).x = u.x - v.x := rfl
theorem vec3_sub_y (u v : glm.vec3) : (u - v).y = u.y - v.y := rfl
theorem vec3_sub_z (u v : glm.vec3) : (u - v).z = u.z - v.z := rfl
theorem vec3_neg_x (u : glm.vec3) : (-u).x = -u.x := rfl
theorem vec3_neg_y (u : glm.vec3) : (-u).y = -u.y := rfl
theorem vec3_neg_z (u : glm.vec3) : (-u).z = -u.z := rfl
theorem vec3_mul_x (u : glm.vec3) (t : ℚ) : (u * t).x = u.x * t := rfl
theorem vec3_mul_y (u : glm.vec3) (t : ℚ) : (u * t).y = u.y * t := rfl
theorem vec3_mul_z (u : glm.vec3) (t : ℚ) : (u * t).z = u.z * t := rfl
theorem vec3_smul_x (t : ℚ) (u : glm.vec3) : (t * u).x = t * u.x := rfl
theorem vec3_smul_y (t : ℚ) (u : glm.vec3) : (t * u).y = t * u.y := rfl
theorem vec3_smul_z (t : ℚ) (u : glm.vec3) : (t * u).z = t * u.z := rfl
theorem vec3_zero_x : (0 : glm.vec3).x = 0 := rfl
theorem vec3_zero_y : (0 : glm.vec3).y = 0 := rfl
theorem vec3_zero_z : (0 : glm.vec3).z = 0 := rfl

theorem dot_self_nonneg (u : glm.vec3) : 0 ≤ glm.dot u u := by
  unfold glm.dot
  nlinarith [mul_self_nonneg u.x, mul_self_nonneg u.y, mul_self_nonneg u.z]

theorem dot_self_pos (u : glm.vec3) (h : u ≠ 0) : 0 < glm.dot u u := by
  rcases lt_or_eq_of_le (dot_self_nonneg u) with hlt | heq
  · exact hlt
  · exfalso
    apply h
    unfold glm.dot at heq
    have hx : u.x = 0 := by
      nlinarith [mul_self_nonneg u.x, mul_self_nonneg u.y, mul_self_nonneg u.z]
    have hy : u.y = 0 := by
      nlinarith [mul_self_nonneg u.x, mul_self_nonneg u.y, mul_self_nonneg u.z]
    have hz : u.z = 0 := by
      nlinarith [mul_self_nonneg u.x, mul_self_nonneg u.y, mul_self_nonneg u.z]
    exact vec3_ext u 0 hx hy hz

/-! ## Near roots of particular rays -/

/-- The one sphere of a scene with one sphere, when its near root is accepted, is the
hit `TraceRay` reports, at the distance of the near root. -/
theorem TraceRay_single (fsqrt : ℚ → ℚ) (sphere : Sphere) (materials : List Material)
    (lightDir : glm.vec3) (ray : Ray) (h : acceptedHit fsqrt ray sphere) :
    ∃ payload, Renderer.TraceRay fsqrt ⟨[sphere], materials, lightDir⟩ ray = some payload ∧
      payload.HitDistance = nearRoot fsqrt ray sphere ∧ payload.ObjectIndex = 0 := by
  rcases TraceRay_cases fsqrt ⟨[sphere], materials, lightDir⟩ ray with
    ⟨hnone, -⟩ | ⟨j, s, payload, hj, -, heq, -, hd, hobj, -⟩
  · exact absurd h (hnone sphere (by simp))
  · cases j with
    | zero =>
      simp only [List.getElem?_cons_zero, Option.some.injEq] at hj
      subst hj
      exact ⟨payload, heq, hd, by simpa using hobj⟩
    | succ n => simp at hj

/-- Exact arithmetic: for a scene with a single sphere of radius `r > 0` and a ray of unit direction
whose origin is at distance `d > r` from the centre and whose direction points
straight at the centre (going `d` along the direction from the origin reaches the
centre), `TraceRay` reports a hit on that sphere with `HitDistance = d - r`; the
distance `d` is a `float` value, so at most `FLT_MAX`, and `fsqrt` returns the root
of a square. -/
theorem TraceRay_head_on_exact (fsqrt : ℚ → ℚ) (hsqrt : ∀ x, 0 ≤ x → fsqrt (x * x) = x)
    (sphere : Sphere) (materials : List Material) (lightDir : glm.vec3) (ray : Ray) (d : ℚ)
    (hr : 0 < sphere.Radius) (hd : sphere.Radius < d) (hrange : d ≤ FLT_MAX)
    (hunit : glm.dot ray.Direction ray.Direction = 1)
    (haim : ray.Origin + ray.Direction * d = sphere.Position) :
    ∃ payload, Renderer.TraceRay fsqrt ⟨[sphere], materials, lightDir⟩ ray = some payload ∧
      payload.HitDistance = d - sphere.Radius ∧ payload.ObjectIndex = 0 := by
  have hx : ray.Origin.x + ray.Direction.x * d = sphere.Position.x := congrArg glm.vec3.x haim
  have hy : ray.Origin.y + ray.Direction.y * d = sphere.Position.y := congrArg glm.vec3.y haim
  have hz : ray.Origin.z + ray.Direction.z * d = sphere.Position.z := congrArg glm.vec3.z haim
  have hu : ray.Direction.x * ray.Direction.x + ray.Direction.y * ray.Direction.y +
      ray.Direction.z * ray.Direction.z = 1 := hunit
  have hb : glm.dot (ray.Origin - sphere.Position) ray.Direction = -d := by
    unfold glm.dot
    rw [vec3_sub_x, vec3_sub_y, vec3_sub_z, ← hx, ← hy, ← hz]
    linear_combination (-d) * hu
  have hc : glm.dot (ray.Origin - sphere.Position) (ray.Origin - sphere.Position) = d * d := by
    unfold glm.dot
    rw [vec3_sub_x, vec3_sub_y, vec3_sub_z, ← hx, ← hy, ← hz]
    linear_combination (d * d) * hu
  have hdisc : discriminant ray sphere = (2 * sphere.Radius) * (2 * sphere.Radius) := by
    unfold discriminant
    rw [hb, hc, hunit]
    ring
  have hroot : nearRoot fsqrt ray sphere = d - sphere.Radius := by
    unfold nearRoot
    rw [hdisc, hsqrt (2 * sphere.Radius) (by linarith), hb, hunit]
    ring
  have hacc : acceptedHit fsqrt ray sphere := by
    refine ⟨?_, ?_, ?_⟩
    · rw [hdisc]; exact mul_self_nonneg _
    · rw [hroot]; linarith
    · rw [hroot]; linarith
  obtain ⟨payload, heq, hdist, hobj⟩ := TraceRay_single fsqrt sphere materials lightDir ray hacc
  exact ⟨payload, heq, by rw [hdist, hroot], hobj⟩

/-- A sphere is not accepted when the ray origin is on the far side of its centre:
with `dot(Origin - Position, Direction) ≥ 0` the near root is not positive. -/
theorem not_accepted_of_aimed_away (fsqrt : ℚ → ℚ) (hsqrt : ∀ x, 0 ≤ x → 0 ≤ fsqrt x)
    (ray : Ray) (sphere : Sphere)
    (h : 0 ≤ glm.dot (ray.Origin - sphere.Position) ray.Direction) :
    ¬ acceptedHit fsqrt ray sphere := by
  rintro ⟨hdisc, hpos, -⟩
  have hs := hsqrt _ hdisc
  have ha := dot_self_nonneg ray.Direction
  have hnum : -(2 * glm.dot (ray.Origin - sphere.Position) ray.Direction) -
      fsqrt (discriminant ray sphere) ≤ 0 := by linarith
  have : nearRoot fsqrt ray sphere ≤ 0 := by
    unfold nearRoot
    exact div_nonpos_of_nonpos_of_nonneg hnum (by linarith)
  linarith

/-- C12: for every scene and every ray with non-zero direction `D` such that
`dot(Origin - sphere.Position, D) ≥ 0` for every sphere of the scene, `TraceRay`
returns a miss (`HitDistance < 0`); `fsqrt` returns no negative value. -/
theorem Renderer.TraceRay_aimed_away (fsqrt : ℚ → ℚ) (hsqrt : ∀ x, 0 ≤ x → 0 ≤ fsqrt x)
    (scene : Scene) (ray : Ray) (_hD : ray.Direction ≠ 0)
    (haway : ∀ sphere ∈ scene.Spheres,
      0 ≤ glm.dot (ray.Origin - sphere.Position) ray.Direction) :
    ∃ payload, Renderer.TraceRay fsqrt scene ray = some payload ∧
      payload.HitDistance < 0 ∧ payload.HitDistance = -1 := by
  rcases TraceRay_cases fsqrt scene ray with
    ⟨-, heq⟩ | ⟨j, s, payload, hj, hs, -, -, -, -, -⟩
  · exact ⟨Renderer.Miss ray, heq, by simp [Renderer.Miss], rfl⟩
  · have hmem : s ∈ scene.Spheres := List.mem_iff_getElem?.mpr ⟨j, hj⟩
    exact absurd hs (not_accepted_of_aimed_away fsqrt hsqrt ray s (haway s hmem))

/-! ## The bounces of `PerPixel` -/

theorem vec3_add_zero (u : glm.vec3) : u + 0 = u := by
  apply vec3_ext <;>
    simp only [vec3_add_x, vec3_add_y, vec3_add_z, vec3_zero_x, vec3_zero_y, vec3_zero_z] <;>
    ring

theorem vec3_zero_smul (u : glm.vec3) : (0 : ℚ) * u = 0 := by
  apply vec3_ext <;>
    simp only [vec3_smul_x, vec3_smul_y, vec3_smul_z, vec3_zero_x, vec3_zero_y, vec3_zero_z] <;>
    ring

theorem reflect_eq (I N : glm.vec3) : glm.reflect I N = I - (2 * glm.dot N I) * N := by
  unfold glm.reflect
  apply vec3_ext <;>
    simp only [vec3_sub_x, vec3_sub_y, vec3_sub_z, vec3_mul_x, vec3_mul_y, vec3_mul_z,
      vec3_smul_x, vec3_smul_y, vec3_smul_z] <;> ring

/-- One iteration of the bounce loop at a hit: the loop goes on with the next ray. -/
theorem bounce_hit (fsqrt : ℚ → ℚ) (rand : ℕ → glm.vec3) (scene : Scene) (n : ℕ) (ray : Ray)
    (color : glm.vec3) (multiplier : ℚ) (k : ℕ) (payload : HitPayload) (sphere : Sphere)
    (material : Material) (ht : Renderer.TraceRay fsqrt scene ray = some payload)
    (hhit : ¬ payload.HitDistance < 0)
    (hs : vectorAt scene.Spheres payload.ObjectIndex = some sphere)
    (hm : vectorAt scene.Materials sphere.MaterialIndex = some material) :
    Renderer.PerPixel.bounce fsqrt rand scene (n + 1) ray color multiplier k =
      Renderer.PerPixel.bounce fsqrt rand scene n
        (Renderer.PerPixel.nextRay rand ray payload material k)
        (color + material.Albedo *
          glm.max (glm.dot payload.WorldNormal (-scene.lightDir)) 0 * multiplier)
        (multiplier * (1 / 2)) (k + 1) := by
  rw [Renderer.PerPixel.bounce]
  simp only [ht, hhit, if_false, hs, hm]
  rfl

/-- The next ray at a hit on a material of roughness 0: the mirror reflection. -/
theorem nextRay_mirror (rand : ℕ → glm.vec3) (ray : Ray) (payload : HitPayload)
    (material : Material) (k : ℕ) (hr : material.Roughness = 0) :
    Renderer.PerPixel.nextRay rand ray payload material k =
      { Origin := payload.WorldPosition + (1 / 10000 : ℚ) * payload.WorldNormal
        Direction := ray.Direction -
          (2 * glm.dot payload.WorldNormal ray.Direction) * payload.WorldNormal } := by
  unfold Renderer.PerPixel.nextRay
  rw [hr, vec3_zero_smul, vec3_add_zero, reflect_eq]
  congr 1
  apply vec3_ext <;>
    simp only [vec3_add_x, vec3_add_y, vec3_add_z, vec3_mul_x, vec3_mul_y, vec3_mul_z,
      vec3_smul_x, vec3_smul_y, vec3_smul_z] <;> ring

/-- C13: in `PerPixel`, at every hit on a sphere whose material has `Roughness = 0`, the
bounce loop continues, whatever the random sampler returns, with the ray whose
direction is `D - 2*dot(N, D)*N`, for the incoming direction `D` and the normal `N`
of the payload, and whose origin is `WorldPosition + 0.0001*N`. -/
theorem Renderer.PerPixel_mirror (fsqrt : ℚ → ℚ) (rand : ℕ → glm.vec3) (scene : Scene)
    (n : ℕ) (ray : Ray) (color : glm.vec3) (multiplier : ℚ) (k : ℕ) (payload : HitPayload)
    (sphere : Sphere) (material : Material)
    (ht : Renderer.TraceRay fsqrt scene ray = some payload)
    (hhit : ¬ payload.HitDistance < 0)
    (hs : vectorAt scene.Spheres payload.ObjectIndex = some sphere)
    (hm : vectorAt scene.Materials sphere.MaterialIndex = some material)
    (hr : material.Roughness = 0) :
    Renderer.PerPixel.bounce fsqrt rand scene (n + 1) ray color multiplier k =
      Renderer.PerPixel.bounce fsqrt rand scene n
        { Origin := payload.WorldPosition + (1 / 10000 : ℚ) * payload.WorldNormal
          Direction := ray.Direction -
            (2 * glm.dot payload.WorldNormal ray.Direction) * payload.WorldNormal }
        (color + material.Albedo *
          glm.max (glm.dot payload.WorldNormal (-scene.lightDir)) 0 * multiplier)
        (multiplier * (1 / 2)) (k + 1) := by
  rw [bounce_hit fsqrt rand scene n ray color multiplier k payload sphere material ht hhit hs hm,
    nextRay_mirror rand ray payload material k hr]

theorem vectorAt_mem {α : Type} (v : List α) (i : ℤ) (a : α) (h : vectorAt v i = some a) :
    a ∈ v := by
  unfold vectorAt at h
  split at h
  · exact List.mem_iff_getElem?.mpr ⟨_, h⟩
  · simp at h

theorem bounce_miss (fsqrt : ℚ → ℚ) (rand : ℕ → glm.vec3) (scene : Scene) (n : ℕ) (ray : Ray)
    (color : glm.vec3) (multiplier : ℚ) (k : ℕ) (payload : HitPayload)
    (ht : Renderer.TraceRay fsqrt scene ray = some payload) (hmiss : payload.HitDistance < 0) :
    Renderer.PerPixel.bounce fsqrt rand scene (n + 1) ray color multiplier k =
      some (color + Renderer.skyColor * multiplier, k) := by
  rw [Renderer.PerPixel.bounce]
  simp only [ht, hmiss, if_true]

theorem bounce_rand_indep (fsqrt : ℚ → ℚ) (rand rand1 : ℕ → glm.vec3) (scene : Scene)
    (hrough : ∀ material ∈ scene.Materials, material.Roughness = 0) :
    ∀ (n : ℕ) (ray : Ray) (color : glm.vec3) (multiplier : ℚ) (k k1 : ℕ),
      (Renderer.PerPixel.bounce fsqrt rand scene n ray color multiplier k).map Prod.fst =
        (Renderer.PerPixel.bounce fsqrt rand1 scene n ray color multiplier k1).map Prod.fst := by
  intro n
  induction n with
  | zero => intro ray color multiplier k k1; rfl
  | succ n ih =>
    intro ray color multiplier k k1
    cases ht : Renderer.TraceRay fsqrt scene ray with
    | none =>
      rw [Renderer.PerPixel.bounce, Renderer.PerPixel.bounce]
      simp only [ht]
    | some payload =>
      by_cases hmiss : payload.HitDistance < 0
      · rw [bounce_miss fsqrt rand scene n ray color multiplier k payload ht hmiss,
          bounce_miss fsqrt rand1 scene n ray color multiplier k1 payload ht hmiss]
        rfl
      · cases hs : vectorAt scene.Spheres payload.ObjectIndex with
        | none =>
          rw [Renderer.PerPixel.bounce, Renderer.PerPixel.bounce]
          simp only [ht, hmiss, if_false, hs]
        | some sphere =>
          cases hm : vectorAt scene.Materials sphere.MaterialIndex with
          | none =>
            rw [Renderer.PerPixel.bounce, Renderer.PerPixel.bounce]
            simp only [ht, hmiss, if_false, hs, hm]
          | some material =>
            have hr := hrough material (vectorAt_mem _ _ _ hm)
            rw [bounce_hit fsqrt rand scene n ray color multiplier k payload sphere material
                ht hmiss hs hm,
              bounce_hit fsqrt rand1 scene n ray color multiplier k1 payload sphere material
                ht hmiss hs hm,
              nextRay_mirror rand ray payload material k hr,
              nextRay_mirror rand1 ray payload material k1 hr]
            exact ih _ _ _ _ _

theorem sampleAt_rand_indep (fsqrt : ℚ → ℚ) (rand rand1 : ℕ → glm.vec3) (scene : Scene)
    (camera : Camera) (hrough : ∀ material ∈ scene.Materials, material.Roughness = 0)
    (idx k k1 : ℕ) :
    (Renderer.sampleAt fsqrt rand scene camera idx k).map Prod.fst =
      (Renderer.sampleAt fsqrt rand1 scene camera idx k1).map Prod.fst := by
  unfold Renderer.sampleAt
  cases camera.RayDirections[idx]? with
  | none => rfl
  | some direction =>
    have h := bounce_rand_indep fsqrt rand rand1 scene hrough 5
      { Origin := camera.Position, Direction := direction } 0 1 k k1
    simp only
    cases h1 : Renderer.PerPixel.bounce fsqrt rand scene 5
        { Origin := camera.Position, Direction := direction } 0 1 k with
    | none =>
      rw [h1] at h
      cases h2 : Renderer.PerPixel.bounce fsqrt rand1 scene 5
          { Origin := camera.Position, Direction := direction } 0 1 k1 with
      | none => rfl
      | some res => rw [h2] at h; simp at h
    | some res =>
      rw [h1] at h
      cases h2 : Renderer.PerPixel.bounce fsqrt rand1 scene 5
          { Origin := camera.Position, Direction := direction } 0 1 k1 with
      | none => rw [h2] at h; simp at h
      | some res1 =>
        rw [h2] at h
        simp only [Option.map_some', Option.some.injEq] at h
        obtain ⟨c, kk⟩ := res
        obtain ⟨c1, kk1⟩ := res1
        simp only at h
        subst h
        rfl

theorem frameSamples_indep (pp pp1 : ℕ → ℕ → Option (glm.vec4 × ℕ))
    (h : ∀ idx k k1, (pp idx k).map Prod.fst = (pp1 idx k1).map Prod.fst) :
    ∀ (l : List ℕ) (k k1 : ℕ),
      (frameSamples pp l k).map Prod.fst = (frameSamples pp1 l k1).map Prod.fst := by
  intro l
  induction l with
  | nil => intro k k1; rfl
  | cons idx rest ih =>
    intro k k1
    have h0 := h idx k k1
    unfold frameSamples
    cases hp : pp idx k with
    | none =>
      rw [hp] at h0
      cases hp1 : pp1 idx k1 with
      | none => rfl
      | some res => rw [hp1] at h0; simp at h0
    | some res =>
      rw [hp] at h0
      cases hp1 : pp1 idx k1 with
      | none => rw [hp1] at h0; simp at h0
      | some res1 =>
        rw [hp1] at h0
        obtain ⟨c, kk⟩ := res
        obtain ⟨c1, kk1⟩ := res1
        simp only [Option.map_some', Option.some.injEq] at h0
        subst h0
        have h2 := ih kk kk1
        simp only
        cases hr : frameSamples pp rest kk with
        | none =>
          rw [hr] at h2
          cases hr1 : frameSamples pp1 rest kk1 with
          | none => rfl
          | some res2 => rw [hr1] at h2; simp at h2
        | some res2 =>
          rw [hr] at h2
          cases hr1 : frameSamples pp1 rest kk1 with
          | none => rw [hr1] at h2; simp at h2
          | some res3 =>
            rw [hr1] at h2
            obtain ⟨cs, kk2⟩ := res2
            obtain ⟨cs1, kk3⟩ := res3
            simp only [Option.map_some', Option.some.injEq] at h2
            subst h2
            rfl

/-! ## Accumulation of samples that are the same in every call -/

theorem sampleSum_const (ss : ℕ → List glm.vec4) (L : List glm.vec4) (p : ℕ) (s : glm.vec4)
    (hp : L[p]? = some s) :
    ∀ n, (∀ m, m < n → ss m = L) →
      sampleSum ss p n = ⟨(n : ℚ) * s.r, (n : ℚ) * s.g, (n : ℚ) * s.b, (n : ℚ) * s.a⟩ := by
  intro n
  induction n with
  | zero =>
    intro _
    show (0 : glm.vec4) = _
    simp only [Nat.cast_zero, zero_mul]
    rfl
  | succ n ih =>
    intro h
    have hn : ss n = L := h n (Nat.lt_succ_self n)
    show sampleSum ss p n + (ss n).getD p 0 = _
    rw [ih (fun m hm => h m (Nat.lt_succ_of_lt hm)), hn, getD_of_getElem? L p s hp]
    show glm.vec4.mk _ _ _ _ = _
    push_cast
    congr 1 <;> ring

theorem displayed_scaled (n : ℕ) (hn : 1 ≤ n) (s : glm.vec4) :
    Renderer.displayed n ⟨(n : ℚ) * s.r, (n : ℚ) * s.g, (n : ℚ) * s.b, (n : ℚ) * s.a⟩ =
      Utils.ConvertToRGBA (glm.clamp s 0 1) := by
  have hne : (n : ℚ) ≠ 0 := by
    have : (0 : ℚ) < n := by exact_mod_cast hn
    exact ne_of_gt this
  unfold Renderer.displayed
  have : (⟨(n : ℚ) * s.r, (n : ℚ) * s.g, (n : ℚ) * s.b, (n : ℚ) * s.a⟩ : glm.vec4) / (n : ℚ)
      = s := by
    cases s
    show glm.vec4.mk _ _ _ _ = _
    congr 1 <;> field_simp
  rw [this]

/-- An accumulation sequence over a static scene and camera in which every call
computes the same list of samples: after `N` calls, `1 ≤ N < 2 ^ 32`, the image is
the list of the encodings of these samples. -/
theorem renderSeq_constant (fsqrt : ℚ → ℚ) (rand : ℕ → glm.vec3) (scene : Scene)
    (camera : Camera) (r : Renderer) (k0 W H : ℕ) (L : List glm.vec4) (hr : r.Sized W H)
    (hv : scene.valid) (hcam : camera.RayDirections.length = W * H)
    (hframe : r.m_FrameIndex = 1) (hacc : r.m_Settings.Accumulate = true)
    (hconst : ∀ k, ∃ k1, frameSamples (Renderer.sampleAt fsqrt rand scene camera)
      (List.range (W * H)) k = some (L, k1))
    (N : ℕ) (hN1 : 1 ≤ N) (hN : N < 2 ^ 32) :
    ∃ rN kN, Renderer.renderSeq fsqrt rand (fun _ => scene) (fun _ => camera) N (r, k0) =
        some (rN, kN) ∧
      rN.m_ImageData = L.map (fun sample => Utils.ConvertToRGBA (glm.clamp sample 0 1)) := by
  obtain ⟨ss, ks, rn, -, hsamples, hseq, hsz, -, -, hpix⟩ :=
    renderSeq_accumulate fsqrt rand (fun _ => scene) (fun _ => camera) r k0 W H hr
      (fun _ => hv) (fun _ => hcam) hframe hacc N hN
  have hall : ∀ m, m < N → ss m = L := by
    intro m hm
    obtain ⟨k1, hk1⟩ := hconst (ks m)
    have := hsamples m hm
    rw [hk1] at this
    simp only [Option.some.injEq, Prod.mk.injEq] at this
    exact this.1.symm
  have hL : L.length = W * H := by
    obtain ⟨k1, hk1⟩ := hconst 0
    rw [frameSamples_length _ _ _ _ _ hk1, List.length_range]
  refine ⟨rn, ks N, hseq, ?_⟩
  apply List.ext_getElem?
  intro p
  by_cases hp : p < W * H
  · have hLp : L[p]? = some L[p] := List.getElem?_eq_getElem (by rw [hL]; exact hp)
    rw [(hpix hN1 p hp).2, sampleSum_const ss L p _ hLp N hall, displayed_scaled N hN1,
      List.getElem?_map, hLp]
    rfl
  · have h1 : rn.m_ImageData.length ≤ p := by rw [hsz.data]; omega
    have h2 : (L.map (fun sample => Utils.ConvertToRGBA (glm.clamp sample 0 1))).length ≤ p := by
      rw [List.length_map, hL]; omega
    rw [List.getElem?_eq_none h1, List.getElem?_eq_none h2]

/-! ## The sky colour in the progressive mode -/

theorem frameSamples_const (pp : ℕ → ℕ → Option (glm.vec4 × ℕ)) (s : glm.vec4) :
    ∀ (l : List ℕ) (k : ℕ), (∀ idx ∈ l, ∀ k, pp idx k = some (s, k)) →
      frameSamples pp l k = some (List.replicate l.length s, k) := by
  intro l
  induction l with
  | nil => intro k _; rfl
  | cons idx rest ih =>
    intro k h
    unfold frameSamples
    rw [h idx (List.mem_cons_self _ _) k]
    simp only [ih k (fun i hi => h i (List.mem_cons_of_mem _ hi)), List.length_cons,
      List.replicate_succ]

theorem no_spheres_valid (scene : Scene) (h : scene.Spheres = []) : scene.valid := by
  intro sphere hmem
  rw [h] at hmem
  simp at hmem

theorem frameSamples_no_spheres (fsqrt : ℚ → ℚ) (rand : ℕ → glm.vec3) (scene : Scene)
    (camera : Camera) (h : scene.Spheres = []) (n k : ℕ)
    (hcam : camera.RayDirections.length = n) :
    frameSamples (Renderer.sampleAt fsqrt rand scene camera) (List.range n) k =
      some (List.replicate n skySample, k) := by
  have := frameSamples_const (Renderer.sampleAt fsqrt rand scene camera) skySample
    (List.range n) k
    (fun idx hidx k1 => sampleAt_no_spheres fsqrt rand scene camera h idx k1
      (by rw [hcam]; exact List.mem_range.mp hidx))
  rw [List.length_range] at this
  exact this

/-- C14, amended: for a scene with zero spheres, any camera and any image size,
`PerPixel` returns `(0.6, 0.7, 0.9, 1)` for every pixel; over exact arithmetic every
pixel written by `Render` at frame index `N`, `1 ≤ N < 2 ^ 32`, of an accumulation
sequence over that scene is the encoded sky colour, the word with the bytes R = 153,
G = 178, B = 229, A = 255; and in binary32 arithmetic the pixel written at the frame
indices 1 to 5 is that word. -/
theorem Renderer.miss_colour_progressive (fsqrt : ℚ → ℚ) (rand : ℕ → glm.vec3) (scene : Scene)
    (camera : Camera) (r : Renderer) (k0 W H N : ℕ) (hempty : scene.Spheres = [])
    (hr : r.Sized W H) (hcam : camera.RayDirections.length = W * H)
    (hframe : r.m_FrameIndex = 1) (hacc : r.m_Settings.Accumulate = true)
    (hN1 : 1 ≤ N) (hN : N < 2 ^ 32) :
    (∀ (r0 : Renderer) (img : Image) (k x y : ℕ),
      r0.m_ActiveScene = some scene → r0.m_ActiveCamera = some camera →
      r0.m_FinalImage = some img →
      (x + y * img.Width) % 2 ^ 32 < camera.RayDirections.length →
      Renderer.PerPixel fsqrt rand r0 k x y = some (⟨3 / 5, 7 / 10, 9 / 10, 1⟩, k)) ∧
    (∃ rN kN,
      Renderer.renderSeq fsqrt rand (fun _ => scene) (fun _ => camera) N (r, k0) =
        some (rN, kN) ∧
      rN.m_ImageData = List.replicate (W * H) 4293243545) ∧
    (4293243545 % 2 ^ 8 = 153 ∧ 4293243545 / 2 ^ 8 % 2 ^ 8 = 178 ∧
      4293243545 / 2 ^ 16 % 2 ^ 8 = 229 ∧ 4293243545 / 2 ^ 24 % 2 ^ 8 = 255) ∧
    ∀ n ∈ [1, 2, 3, 4, 5], (skyFrameBinary32 n).2 = 4293243545 := by
  refine ⟨?_, ?_, by decide, by decide!⟩
  · intro r0 img k x y hs hc hi hidx
    rw [PerPixel_eq_sampleAt fsqrt rand r0 scene camera img hc hs hi]
    exact sampleAt_no_spheres fsqrt rand scene camera hempty _ k hidx
  · obtain ⟨rN, kN, hseq, himg⟩ := renderSeq_constant fsqrt rand scene camera r k0 W H
      (List.replicate (W * H) skySample) hr (no_spheres_valid scene hempty) hcam hframe hacc
      (fun k => ⟨k, frameSamples_no_spheres fsqrt rand scene camera hempty (W * H) k hcam⟩)
      N hN1 hN
    refine ⟨rN, kN, hseq, ?_⟩
    rw [himg, List.map_replicate]
    have : Utils.ConvertToRGBA (glm.clamp skySample 0 1) = 4293243545 := by decide!
    rw [this]

/-- C14, counterexample: in binary32 arithmetic, the pixel of a scene with zero spheres
written by the sixth call of an accumulation sequence (frame index 6) has the red
byte 152: the sum of six `0.6f`, divided by 6, is a `float` below `0.6f`. -/
theorem Renderer.sky_red_byte_at_frame_six :
    (skyFrameBinary32 6).2 % 2 ^ 8 = 152 ∧ (skyFrameBinary32 6).2 = 4293243544 ∧
      (skyFrameBinary32 6).2 ≠ 4293243545 := by
  decide!

/-! ## Determinism without roughness -/

/-- Exact arithmetic: for a scene in which every material has `Roughness = 0`, the colour `PerPixel`
returns for a given camera and pixel is the same for any two random samplers (and any
two counts of vectors drawn); consequently, over exact arithmetic, in an accumulation
sequence over such a static scene and camera the image written by `Render` at every
frame index `N`, `1 ≤ N < 2 ^ 32`, equals the image written at frame index 1, which
is also the image written with another random sampler. -/
theorem determinism_without_roughness_exact (fsqrt : ℚ → ℚ) (rand rand1 : ℕ → glm.vec3)
    (scene : Scene) (camera : Camera) (r : Renderer) (k0 k1 W H N : ℕ)
    (hrough : ∀ material ∈ scene.Materials, material.Roughness = 0)
    (hr : r.Sized W H) (hv : scene.valid) (hcam : camera.RayDirections.length = W * H)
    (hframe : r.m_FrameIndex = 1) (hacc : r.m_Settings.Accumulate = true)
    (hN1 : 1 ≤ N) (hN : N < 2 ^ 32) :
    (∀ (r0 : Renderer) (k k2 x y : ℕ), r0.m_ActiveScene = some scene →
      (Renderer.PerPixel fsqrt rand r0 k x y).map Prod.fst =
        (Renderer.PerPixel fsqrt rand1 r0 k2 x y).map Prod.fst) ∧
    ∃ rA rB rN kA kB kN,
      Renderer.Render fsqrt rand scene camera (r, k0) = some (rA, kA) ∧
      Renderer.Render fsqrt rand1 scene camera (r, k1) = some (rB, kB) ∧
      Renderer.renderSeq fsqrt rand (fun _ => scene) (fun _ => camera) N (r, k0) =
        some (rN, kN) ∧
      rN.m_ImageData = rA.m_ImageData ∧ rB.m_ImageData = rA.m_ImageData := by
  constructor
  · intro r0 k k2 x y hs
    unfold Renderer.PerPixel
    rw [hs]
    cases r0.m_ActiveCamera with
    | none => rfl
    | some cam =>
      cases r0.m_FinalImage with
      | none => rfl
      | some img =>
        exact sampleAt_rand_indep fsqrt rand rand1 scene cam hrough _ k k2
  · obtain ⟨ssA, kA, rA, hssA, -, hrunA, -, -, -, -, himgA⟩ :=
      Render_first_frame fsqrt rand scene camera r k0 W H hr hv hcam hframe
    obtain ⟨ssB, kB, rB, hssB, -, hrunB, -, -, -, -, himgB⟩ :=
      Render_first_frame fsqrt rand1 scene camera r k1 W H hr hv hcam hframe
    have hAB : ssB = ssA := by
      have := frameSamples_indep _ _
        (fun idx k k2 => sampleAt_rand_indep fsqrt rand rand1 scene camera hrough idx k k2)
        (List.range (W * H)) k0 k1
      rw [hssA, hssB] at this
      simp only [Option.map_some', Option.some.injEq] at this
      exact this.symm
    have hconst : ∀ k, ∃ k2, frameSamples (Renderer.sampleAt fsqrt rand scene camera)
        (List.range (W * H)) k = some (ssA, k2) := by
      intro k
      obtain ⟨ss, k2, hss, -⟩ := frame_total fsqrt rand scene camera (W * H) hv hcam k
      have := frameSamples_indep _ _
        (fun idx k k2 => sampleAt_rand_indep fsqrt rand rand scene camera hrough idx k k2)
        (List.range (W * H)) k0 k
      rw [hssA, hss] at this
      simp only [Option.map_some', Option.some.injEq] at this
      exact ⟨k2, by rw [hss, ← this]⟩
    obtain ⟨rN, kN, hseq, himgN⟩ := renderSeq_constant fsqrt rand scene camera r k0 W H ssA hr
      hv hcam hframe hacc hconst N hN1 hN
    exact ⟨rA, rB, rN, kA, kB, kN, hrunA, hrunB, hseq, by rw [himgN, himgA],
      by rw [himgB, himgA, hAB]⟩

/-! ## The supersampling pass -/

theorem toUInt32_half (x s : ℕ) (hx : x < 2 ^ 32) (hs : s < 2) :
    toUInt32 ((x : ℚ) + (s : ℚ) / ((2 : ℕ) : ℚ)) = x := by
  have hfloor : ⌊(x : ℚ) + (s : ℚ) / ((2 : ℕ) : ℚ)⌋ = (x : ℤ) := by
    rw [Int.floor_eq_iff]
    have hs' : s = 0 ∨ s = 1 := by omega
    rcases hs' with h | h <;> subst h <;> constructor <;> push_cast <;> norm_num
  have hnn : (0 : ℚ) ≤ (x : ℚ) + (s : ℚ) / ((2 : ℕ) : ℚ) := by positivity
  unfold toUInt32 truncToInt
  rw [if_pos hnn, hfloor]
  omega

/-- The four samples of a pixel in `RenderSSAA`: four calls of `PerPixel` for the pixel
`(x, y)` itself, each starting from the count of random vectors the previous left. -/
theorem RenderSSAA_samples_eq (fsqrt : ℚ → ℚ) (rand : ℕ → glm.vec3) (r : Renderer)
    (x y k : ℕ) (hx : x < 2 ^ 32) (hy : y < 2 ^ 32) :
    Renderer.RenderSSAA.samples fsqrt rand r 2 x y k =
      match Renderer.PerPixel fsqrt rand r k x y with
      | none => none
      | some (c1, k1) =>
        match Renderer.PerPixel fsqrt rand r k1 x y with
        | none => none
        | some (c2, k2) =>
          match Renderer.PerPixel fsqrt rand r k2 x y with
          | none => none
          | some (c3, k3) =>
            match Renderer.PerPixel fsqrt rand r k3 x y with
            | none => none
            | some (c4, k4) => some (0 + c1 + c2 + c3 + c4, k4) := by
  have hr2 : ((List.range 2 : List ℕ) : List ℚ) = [((0 : ℕ) : ℚ), ((1 : ℕ) : ℚ)] := rfl
  have hx0 := toUInt32_half x 0 hx (by norm_num)
  have hx1 := toUInt32_half x 1 hx (by norm_num)
  have hy0 := toUInt32_half y 0 hy (by norm_num)
  have hy1 := toUInt32_half y 1 hy (by norm_num)
  unfold Renderer.RenderSSAA.samples
  rw [hr2]
  simp only [List.foldlM_cons, List.foldlM_nil, hx0, hx1, hy0, hy1, Option.pure_def,
    Option.bind_eq_bind]
  cases Renderer.PerPixel fsqrt rand r k x y with
  | none => rfl
  | some p1 =>
    obtain ⟨c1, k1⟩ := p1
    simp only [Option.some_bind]
    cases Renderer.PerPixel fsqrt rand r k1 x y with
    | none => rfl
    | some p2 =>
      obtain ⟨c2, k2⟩ := p2
      simp only [Option.some_bind]
      cases Renderer.PerPixel fsqrt rand r k2 x y with
      | none => rfl
      | some p3 =>
        obtain ⟨c3, k3⟩ := p3
        simp only [Option.some_bind]
        cases Renderer.PerPixel fsqrt rand r k3 x y with
        | none => rfl
        | some p4 =>
          obtain ⟨c4, k4⟩ := p4
          simp only [Option.some_bind]

/-- Evaluation of the source on the failing input of C15: a renderer of one pixel has
rendered the sphere with `Render`; `RenderSSAA` is then called with the scene without
spheres.  The pixel written is the colour of the sphere, not the encoded sky colour:
`RenderSSAA` reads its two arguments nowhere, and on a renderer that never ran
`Render` it goes through the null `m_ActiveScene`. -/
theorem Renderer.RenderSSAA_ignores_its_scene :
    (∀ (fsqrt : ℚ → ℚ) (rand : ℕ → glm.vec3) (scene scene1 : Scene) (camera camera1 : Camera)
      (s : Renderer × ℕ),
      Renderer.RenderSSAA fsqrt rand scene camera s =
        Renderer.RenderSSAA fsqrt rand scene1 camera1 s) ∧
    (∃ s1 s2 : Renderer × ℕ,
      Renderer.Render Rat.sqrt zeroRand oneSphereScene unitCamera (staleRenderer, 0) = some s1 ∧
      Renderer.RenderSSAA Rat.sqrt zeroRand emptyScene unitCamera s1 = some s2 ∧
      s2.1.m_ImageData = [4294924799]) ∧
    Utils.ConvertToRGBA (glm.clamp skySample 0 1) = 4293243545 ∧
    Renderer.RenderSSAA Rat.sqrt zeroRand emptyScene unitCamera (staleRenderer, 0) = none := by
  refine ⟨fun _ _ _ _ _ _ _ => rfl, ?_, by decide!, by decide!⟩
  have h1 : Renderer.Render Rat.sqrt zeroRand oneSphereScene unitCamera (staleRenderer, 0) =
      some (⟨some ⟨1, 1⟩, [4294924799], [⟨13 / 10, 7 / 20, 29 / 20, 1⟩], 2, ⟨true⟩,
        some oneSphereScene, some unitCamera⟩, 1) := by decide!
  have h2 : Renderer.RenderSSAA Rat.sqrt zeroRand emptyScene unitCamera
      (⟨some ⟨1, 1⟩, [4294924799], [⟨13 / 10, 7 / 20, 29 / 20, 1⟩], 2, ⟨true⟩,
        some oneSphereScene, some unitCamera⟩, 1) =
      some (⟨some ⟨1, 1⟩, [4294924799], [⟨13 / 10, 7 / 20, 29 / 20, 1⟩], 2, ⟨true⟩,
        some oneSphereScene, some unitCamera⟩, 5) := by decide!
  exact ⟨_, _, h1, h2, rfl⟩

/-- Evaluation of the source for C16: in `RenderSSAA` the sums `x + sx/2` and
`y + sy/2` are converted to the `uint32_t` parameters of `PerPixel`, which discards
the half: for every pixel `(x, y)` the four samples are four calls of `PerPixel` for
`(x, y)` itself, and the sample for `(sx, sy) = (1, 1)` is taken at the position of
the pixel. -/
theorem Renderer.RenderSSAA_samples_at_pixel :
    (∀ x : Fin (2 ^ 32), ∀ s : Fin 2,
      toUInt32 ((x.val : ℚ) + (s.val : ℚ) / ((2 : ℕ) : ℚ)) = x.val) ∧
    (∀ (fsqrt : ℚ → ℚ) (rand : ℕ → glm.vec3) (r : Renderer) (x y : Fin (2 ^ 32)) (k : ℕ),
      Renderer.RenderSSAA.samples fsqrt rand r 2 x.val y.val k =
        match Renderer.PerPixel fsqrt rand r k x.val y.val with
        | none => none
        | some (c1, k1) =>
          match Renderer.PerPixel fsqrt rand r k1 x.val y.val with
          | none => none
          | some (c2, k2) =>
            match Renderer.PerPixel fsqrt rand r k2 x.val y.val with
            | none => none
            | some (c3, k3) =>
              match Renderer.PerPixel fsqrt rand r k3 x.val y.val with
              | none => none
              | some (c4, k4) => some (0 + c1 + c2 + c3 + c4, k4)) ∧
    toUInt32 ((0 : ℚ) + (1 : ℚ) / 2) = 0 := by
  refine ⟨fun x s => toUInt32_half x.val s.val x.isLt s.isLt,
    fun fsqrt rand r x y k => RenderSSAA_samples_eq fsqrt rand r x.val y.val k x.isLt y.isLt,
    by decide!⟩

/-! ## Instances of the theorems on ray tracing and shading -/

theorem rat_sqrt_sq (x : ℚ) (hx : 0 ≤ x) : Rat.sqrt (x * x) = x := by
  rw [Rat.sqrt_eq, abs_of_nonneg hx]

theorem oneSphereScene_sphere (P : Sphere → Prop) (h : P ⟨⟨0, 0, 0⟩, 1, 0⟩) :
    ∀ sphere ∈ oneSphereScene.Spheres, P sphere := by
  intro sphere hmem
  have : sphere = ⟨⟨0, 0, 0⟩, 1, 0⟩ := by
    simpa [oneSphereScene] using hmem
  rw [this]
  exact h

/-- Instance of C12: the ray from `(0, 0, -5)` with direction `(0, 0, -1)` leaves the
sphere at the origin behind and misses. -/
theorem Renderer.TraceRay_aimed_away_witness :
    (∀ sphere ∈ oneSphereScene.Spheres,
      0 ≤ glm.dot ((⟨0, 0, -5⟩ : glm.vec3) - sphere.Position) ⟨0, 0, -1⟩) ∧
    ∃ payload, Renderer.TraceRay Rat.sqrt oneSphereScene ⟨⟨0, 0, -5⟩, ⟨0, 0, -1⟩⟩ =
        some payload ∧ payload.HitDistance < 0 ∧ payload.HitDistance = -1 :=
  ⟨oneSphereScene_sphere _ (by decide!),
    Renderer.TraceRay_aimed_away Rat.sqrt (fun x _ => Rat.sqrt_nonneg x) oneSphereScene
      ⟨⟨0, 0, -5⟩, ⟨0, 0, -1⟩⟩ (by decide!) (oneSphereScene_sphere _ (by decide!))⟩

/-- Instance of C13: the ray along the z axis hits the sphere of roughness 0 at
`(0, 0, -1)` with normal `(0, 0, -1)` and continues from `(0, 0, -1.0001)` in the
direction `(0, 0, -1)`. -/
theorem Renderer.PerPixel_mirror_witness :
    Renderer.TraceRay Rat.sqrt oneSphereScene axisRay =
      some ⟨4, ⟨0, 0, -1⟩, ⟨0, 0, -1⟩, 0⟩ ∧
    Renderer.PerPixel.bounce Rat.sqrt zeroRand oneSphereScene (4 + 1) axisRay 0 1 0 =
      Renderer.PerPixel.bounce Rat.sqrt zeroRand oneSphereScene 4
        { Origin := (⟨0, 0, -1⟩ : glm.vec3) + (1 / 10000 : ℚ) * (⟨0, 0, -1⟩ : glm.vec3)
          Direction := axisRay.Direction -
            (2 * glm.dot (⟨0, 0, -1⟩ : glm.vec3) axisRay.Direction) * (⟨0, 0, -1⟩ : glm.vec3) }
        (0 + (⟨1, 0, 1⟩ : glm.vec3) *
          glm.max (glm.dot (⟨0, 0, -1⟩ : glm.vec3) (-oneSphereScene.lightDir)) 0 * (1 : ℚ))
        (1 * (1 / 2)) (0 + 1) :=
  ⟨by decide!,
    Renderer.PerPixel_mirror Rat.sqrt zeroRand oneSphereScene 4 axisRay 0 1 0
      ⟨4, ⟨0, 0, -1⟩, ⟨0, 0, -1⟩, 0⟩ ⟨⟨0, 0, 0⟩, 1, 0⟩ ⟨⟨1, 0, 1⟩, 0⟩ (by decide!) (by decide!)
      (by decide!) (by decide!) rfl⟩

/-- Instance of C14: six accumulating calls of `Render` over the scene without spheres
on an image of one pixel. -/
theorem Renderer.miss_colour_progressive_witness :
    (∀ (r0 : Renderer) (img : Image) (k x y : ℕ),
      r0.m_ActiveScene = some emptyScene → r0.m_ActiveCamera = some unitCamera →
      r0.m_FinalImage = some img →
      (x + y * img.Width) % 2 ^ 32 < unitCamera.RayDirections.length →
      Renderer.PerPixel Rat.sqrt zeroRand r0 k x y = some (⟨3 / 5, 7 / 10, 9 / 10, 1⟩, k)) ∧
    (∃ rN kN,
      Renderer.renderSeq Rat.sqrt zeroRand (fun _ => emptyScene) (fun _ => unitCamera) 6
        (staleRenderer, 0) = some (rN, kN) ∧
      rN.m_ImageData = List.replicate (1 * 1) 4293243545) ∧
    (4293243545 % 2 ^ 8 = 153 ∧ 4293243545 / 2 ^ 8 % 2 ^ 8 = 178 ∧
      4293243545 / 2 ^ 16 % 2 ^ 8 = 229 ∧ 4293243545 / 2 ^ 24 % 2 ^ 8 = 255) ∧
    ∀ n ∈ [1, 2, 3, 4, 5], (skyFrameBinary32 n).2 = 4293243545 :=
  Renderer.miss_colour_progressive Rat.sqrt zeroRand emptyScene unitCamera staleRenderer 0 1 1 6
    rfl staleRenderer_sized.1 (by decide) (by decide) (by decide) (by decide) (by decide)

theorem round3_id (v : glm.vec3) : glm.round3 (fun x => x) v = v := rfl

theorem round4_id (v : glm.vec4) : glm.round4 (fun x => x) v = v := rfl

theorem dotFl_id (u v : glm.vec3) : glm.dotFl (fun x => x) u v = glm.dot u v := rfl

theorem normalizeFl_id (fsqrt : ℚ → ℚ) (v : glm.vec3) :
    glm.normalizeFl (fun x => x) fsqrt v = glm.normalize fsqrt v := rfl

theorem reflectFl_id (I N : glm.vec3) : glm.reflectFl (fun x => x) I N = glm.reflect I N := rfl

theorem ConvertToRGBAFl_id (color : glm.vec4) :
    Utils.ConvertToRGBAFl (fun x => x) color = Utils.ConvertToRGBA color := rfl

theorem ClosestHitFl_id (fsqrt : ℚ → ℚ) (scene : Scene) (ray : Ray) (hitDistance : ℚ)
    (objectIndex : ℤ) :
    Renderer.ClosestHitFl (fun x => x) fsqrt scene ray hitDistance objectIndex =
      Renderer.ClosestHit fsqrt scene ray hitDistance objectIndex := rfl

theorem TraceRayFl_loop_id (fsqrt : ℚ → ℚ) (ray : Ray) :
    ∀ (spheres : List Sphere) (i : ℕ) (closestSphere : ℤ) (hitDistance : ℚ),
      Renderer.TraceRayFl.loop (fun x => x) fsqrt ray spheres i closestSphere hitDistance =
        Renderer.TraceRay.loop fsqrt ray spheres i closestSphere hitDistance := by
  intro spheres
  induction spheres with
  | nil => intro i c h; rfl
  | cons sphere rest ih =>
    intro i c h
    unfold Renderer.TraceRayFl.loop Renderer.TraceRay.loop
    simp only [ih, round3_id, dotFl_id]

theorem TraceRayFl_id (fsqrt : ℚ → ℚ) (scene : Scene) (ray : Ray) :
    Renderer.TraceRayFl (fun x => x) fsqrt scene ray = Renderer.TraceRay fsqrt scene ray := by
  unfold Renderer.TraceRayFl Renderer.TraceRay
  simp only [TraceRayFl_loop_id, ClosestHitFl_id]

theorem bounceFl_id (fsqrt : ℚ → ℚ) (rand : ℕ → glm.vec3) (scene : Scene) :
    ∀ (n : ℕ) (ray : Ray) (color : glm.vec3) (multiplier : ℚ) (k : ℕ),
      Renderer.PerPixelFl.bounce (fun x => x) fsqrt rand scene n ray color multiplier k =
        Renderer.PerPixel.bounce fsqrt rand scene n ray color multiplier k := by
  intro n
  induction n with
  | zero => intro ray color multiplier k; rfl
  | succ n ih =>
    intro ray color multiplier k
    unfold Renderer.PerPixelFl.bounce Renderer.PerPixel.bounce
    simp only [TraceRayFl_id, ih, round3_id, dotFl_id, reflectFl_id]
    rfl

theorem PerPixelFl_id (fsqrt : ℚ → ℚ) (rand : ℕ → glm.vec3) (r : Renderer) (k x y : ℕ) :
    Renderer.PerPixelFl (fun x => x) fsqrt rand r k x y = Renderer.PerPixel fsqrt rand r k x y := by
  unfold Renderer.PerPixelFl Renderer.PerPixel
  simp only [bounceFl_id]

theorem sampleAtFl_id (fsqrt : ℚ → ℚ) (rand : ℕ → glm.vec3) (scene : Scene) (camera : Camera)
    (idx k : ℕ) :
    Renderer.sampleAtFl (fun x => x) fsqrt rand scene camera idx k =
      Renderer.sampleAt fsqrt rand scene camera idx k := by
  unfold Renderer.sampleAtFl Renderer.sampleAt
  simp only [bounceFl_id]

theorem RenderFl_pixel_id (fsqrt : ℚ → ℚ) (rand : ℕ → glm.vec3) (x y : ℕ) (s : Renderer × ℕ) :
    Renderer.RenderFl.pixel (fun x => x) fsqrt rand x y s = Renderer.Render.pixel fsqrt rand x y s := by
  unfold Renderer.RenderFl.pixel Renderer.Render.pixel
  simp only [PerPixelFl_id, round4_id, ConvertToRGBAFl_id]

theorem RenderFl_id (fsqrt : ℚ → ℚ) (rand : ℕ → glm.vec3) (scene : Scene) (camera : Camera)
    (s : Renderer × ℕ) :
    Renderer.RenderFl (fun x => x) fsqrt rand scene camera s =
      Renderer.Render fsqrt rand scene camera s := by
  unfold Renderer.RenderFl Renderer.Render
  simp only [RenderFl_pixel_id]

theorem renderSeqFl_id (fsqrt : ℚ → ℚ) (rand : ℕ → glm.vec3) (scenes : ℕ → Scene)
    (cameras : ℕ → Camera) :
    ∀ (n : ℕ) (s : Renderer × ℕ),
      Renderer.renderSeqFl (fun x => x) fsqrt rand scenes cameras n s =
        Renderer.renderSeq fsqrt rand scenes cameras n s := by
  intro n
  induction n with
  | zero => intro s; rfl
  | succ n ih =>
    intro s
    unfold Renderer.renderSeqFl Renderer.renderSeq
    simp only [ih, RenderFl_id]

/-- A rounding function that changes no value is the identity. -/
theorem fl_exact (fl : ℚ → ℚ) (hexact : ∀ x, fl x = x) : fl = fun x => x := funext hexact

/-! ## Square roots that are not below the root -/

theorem log2Fuel_spec : ∀ (fuel n : ℕ), n ≤ fuel → n < 2 ^ (log2Fuel fuel n + 1) := by
  intro fuel
  induction fuel with
  | zero =>
    intro n hn
    have : n = 0 := by omega
    subst this
    simp [log2Fuel]
  | succ fuel ih =>
    intro n hn
    unfold log2Fuel
    by_cases h2 : n < 2
    · rw [if_pos h2]
      simpa using h2
    · rw [if_neg h2]
      have hhalf : n / 2 ≤ fuel := by omega
      have := ih (n / 2) hhalf
      rw [pow_succ]
      omega

theorem isqrtBits_spec : ∀ (bits n : ℕ), n < 4 ^ bits →
    isqrtBits bits n * isqrtBits bits n ≤ n ∧
      n < (isqrtBits bits n + 1) * (isqrtBits bits n + 1) := by
  intro bits
  induction bits with
  | zero =>
    intro n hn
    have : n = 0 := by simpa using hn
    subst this
    simp [isqrtBits]
  | succ bits ih =>
    intro n hn
    have hq : n / 4 < 4 ^ bits := by
      rw [pow_succ] at hn
      omega
    obtain ⟨h1, h2⟩ := ih (n / 4) hq
    unfold isqrtBits
    simp only
    have hlow : (2 * isqrtBits bits (n / 4)) * (2 * isqrtBits bits (n / 4)) ≤ n := by
      have : 4 * (isqrtBits bits (n / 4) * isqrtBits bits (n / 4)) ≤ n := by omega
      nlinarith
    have hhigh : n < (2 * isqrtBits bits (n / 4) + 1 + 1) *
        (2 * isqrtBits bits (n / 4) + 1 + 1) := by
      have : n < 4 * ((isqrtBits bits (n / 4) + 1) * (isqrtBits bits (n / 4) + 1)) := by omega
      nlinarith
    by_cases hc : (2 * isqrtBits bits (n / 4) + 1) * (2 * isqrtBits bits (n / 4) + 1) ≤ n
    · rw [if_pos hc]
      exact ⟨hc, hhigh⟩
    · rw [if_neg hc]
      exact ⟨hlow, not_le.mp hc⟩

theorem isqrt_spec (n : ℕ) : isqrt n * isqrt n ≤ n ∧ n < (isqrt n + 1) * (isqrt n + 1) := by
  unfold isqrt
  apply isqrtBits_spec
  have h1 := log2Fuel_spec n n (le_refl n)
  have h2 : 2 ^ (log2Fuel n n + 1) ≤ 4 ^ (log2Fuel n n + 1) :=
    Nat.pow_le_pow_left (by norm_num) _
  omega

/-- The square root rounded upward is not below the square root, whatever its
argument. -/
theorem sqrtUp_notBelow (x : ℚ) (hx : 0 ≤ x) : NotBelowSqrt sqrtUp x := by
  have hpos : (0 : ℚ) ≤ x * 4 ^ 24 := by positivity
  have hfl : (0 : ℤ) ≤ ⌊x * 4 ^ 24⌋ := Int.floor_nonneg.mpr hpos
  obtain ⟨-, hlt⟩ := isqrt_spec ⌊x * 4 ^ 24⌋.toNat
  have hcast : ((⌊x * 4 ^ 24⌋.toNat : ℕ) : ℚ) = ((⌊x * 4 ^ 24⌋ : ℤ) : ℚ) := by
    have : ((⌊x * 4 ^ 24⌋.toNat : ℕ) : ℤ) = ⌊x * 4 ^ 24⌋ := Int.toNat_of_nonneg hfl
    exact_mod_cast congrArg (fun z : ℤ => (z : ℚ)) this
  have hlt' : ((⌊x * 4 ^ 24⌋.toNat : ℕ) : ℚ) + 1 ≤
      ((isqrt ⌊x * 4 ^ 24⌋.toNat + 1 : ℕ) : ℚ) * ((isqrt ⌊x * 4 ^ 24⌋.toNat + 1 : ℕ) : ℚ) := by
    have : ⌊x * 4 ^ 24⌋.toNat + 1 ≤
        (isqrt ⌊x * 4 ^ 24⌋.toNat + 1) * (isqrt ⌊x * 4 ^ 24⌋.toNat + 1) := hlt
    exact_mod_cast this
  have hx1 : x * 4 ^ 24 < ((⌊x * 4 ^ 24⌋ : ℤ) : ℚ) + 1 := Int.lt_floor_add_one _
  unfold NotBelowSqrt sqrtUp
  constructor
  · positivity
  · have h4 : ((2 : ℚ) ^ 24) * (2 ^ 24) = 4 ^ 24 := by norm_num
    rw [div_mul_div_comm, h4, le_div_iff₀ (by positivity)]
    rw [hcast] at hlt'
    linarith

theorem isSqrt_notBelow (fsqrt : ℚ → ℚ) (x : ℚ) (h : IsSqrt fsqrt x) : NotBelowSqrt fsqrt x :=
  ⟨h.1, le_of_eq h.2.symm⟩

/-! ## Rays from inside a sphere, and the geometry of a hit -/

/-- With the ray origin strictly inside a sphere, a non-zero direction and a square
root of the discriminant that is not below the root, the near root of the sphere is
negative. -/
theorem nearRoot_neg_of_inside (fsqrt : ℚ → ℚ) (ray : Ray) (S : Sphere)
    (hD : ray.Direction ≠ 0)
    (hin : glm.dot (ray.Origin - S.Position) (ray.Origin - S.Position) < S.Radius * S.Radius)
    (hsqrt : NotBelowSqrt fsqrt (discriminant ray S)) : nearRoot fsqrt ray S < 0 := by
  have ha := dot_self_pos ray.Direction hD
  obtain ⟨hs0, hs2⟩ := hsqrt
  have hnum : -(2 * glm.dot (ray.Origin - S.Position) ray.Direction) -
      fsqrt (discriminant ray S) < 0 := by
    by_contra hge
    have hle : fsqrt (discriminant ray S) ≤
        -(2 * glm.dot (ray.Origin - S.Position) ray.Direction) := by linarith
    have hsq : fsqrt (discriminant ray S) * fsqrt (discriminant ray S) ≤
        (2 * glm.dot (ray.Origin - S.Position) ray.Direction) *
          (2 * glm.dot (ray.Origin - S.Position) ray.Direction) := by nlinarith
    have hsq2 := le_trans hs2 hsq
    unfold discriminant at hsq2
    nlinarith
  unfold nearRoot
  exact div_neg_of_neg_of_pos hnum (by linarith)

/-- Exact arithmetic: with the ray origin strictly inside a sphere `S` of the scene,
the payload `TraceRay` returns is never a hit on `S`, and a miss when `S` is the only
sphere. -/
theorem TraceRay_origin_inside_exact (fsqrt : ℚ → ℚ) (scene : Scene) (ray : Ray) (i : ℕ)
    (S : Sphere) (hS : scene.Spheres[i]? = some S) (hD : ray.Direction ≠ 0)
    (hin : glm.dot (ray.Origin - S.Position) (ray.Origin - S.Position) < S.Radius * S.Radius)
    (hsqrt : NotBelowSqrt fsqrt (discriminant ray S)) :
    ∃ payload, Renderer.TraceRay fsqrt scene ray = some payload ∧
      ¬ (payload.HitDistance ≠ -1 ∧ payload.ObjectIndex = (i : ℤ)) ∧
      (scene.Spheres = [S] → payload.HitDistance = -1 ∧ payload.HitDistance < 0) := by
  have hneg := nearRoot_neg_of_inside fsqrt ray S hD hin hsqrt
  rcases TraceRay_cases fsqrt scene ray with
    ⟨-, heq⟩ | ⟨j, s, payload, hj, hs, heq, -, -, hobj, -⟩
  · refine ⟨Renderer.Miss ray, heq, ?_, ?_⟩
    · rintro ⟨h, -⟩
      exact h rfl
    · intro _
      exact ⟨rfl, by simp [Renderer.Miss]⟩
  · have hne : j ≠ i := by
      intro hji
      rw [hji, hS] at hj
      simp only [Option.some.injEq] at hj
      rw [← hj] at hs
      exact absurd hs.2.1 (not_lt.mpr (le_of_lt hneg))
    refine ⟨payload, heq, ?_, ?_⟩
    · rintro ⟨-, h⟩
      rw [hobj] at h
      exact hne (by exact_mod_cast h)
    · intro hone
      rw [hone] at hj hS
      cases j with
      | zero =>
        cases i with
        | zero => exact absurd rfl hne
        | succ n => simp at hS
      | succ n => simp at hj

/-- Exact arithmetic: the payload of a hit, whatever `fsqrt` returns.  The position is
`Origin + Direction * t`; its squared distance to the centre of the sphere differs
from the squared radius by `(s * s - discriminant) / (4 * a)`, where `s` is the value
`fsqrt` returned for the discriminant; the normal is the vector from the centre
divided by the value `fsqrt` returned for its squared length. -/
theorem TraceRay_hit_geometry_exact (fsqrt : ℚ → ℚ) (scene : Scene) (ray : Ray)
    (payload : HitPayload) (htrace : Renderer.TraceRay fsqrt scene ray = some payload)
    (hhit : payload.HitDistance ≠ -1) :
    ∃ (i : ℕ) (S : Sphere), scene.Spheres[i]? = some S ∧ payload.ObjectIndex = (i : ℤ) ∧
      0 < payload.HitDistance ∧ payload.HitDistance = nearRoot fsqrt ray S ∧
      payload.WorldPosition = ray.Origin + ray.Direction * payload.HitDistance ∧
      glm.dot (payload.WorldPosition - S.Position) (payload.WorldPosition - S.Position) -
          S.Radius * S.Radius =
        (fsqrt (discriminant ray S) * fsqrt (discriminant ray S) - discriminant ray S) /
          (4 * glm.dot ray.Direction ray.Direction) ∧
      payload.WorldNormal = (payload.WorldPosition - S.Position) *
        (1 / fsqrt (glm.dot (payload.WorldPosition - S.Position)
          (payload.WorldPosition - S.Position))) := by
  rcases TraceRay_cases fsqrt scene ray with
    ⟨-, heq⟩ | ⟨j, S, payload1, hj, hs, heq, hch, -, -, -⟩
  · rw [heq] at htrace
    simp only [Option.some.injEq] at htrace
    rw [← htrace] at hhit
    exact absurd rfl hhit
  · rw [heq] at htrace
    simp only [Option.some.injEq] at htrace
    subst htrace
    have hidx : vectorAt scene.Spheres (j : ℤ) = some S := by
      rw [vectorAt_natCast]; exact hj
    unfold Renderer.ClosestHit at hch
    rw [hidx] at hch
    simp only [Option.some.injEq] at hch
    have ha0 : glm.dot ray.Direction ray.Direction ≠ 0 := by
      intro h0
      have ht := hs.2.1
      unfold nearRoot at ht
      rw [h0] at ht
      simp at ht
    have h1 : nearRoot fsqrt ray S * (2 * glm.dot ray.Direction ray.Direction) =
        -(2 * glm.dot (ray.Origin - S.Position) ray.Direction) -
          fsqrt (discriminant ray S) := by
      unfold nearRoot
      exact div_mul_cancel₀ _ (mul_ne_zero (by norm_num) ha0)
    have hexp : glm.dot (ray.Origin - S.Position + ray.Direction * nearRoot fsqrt ray S)
        (ray.Origin - S.Position + ray.Direction * nearRoot fsqrt ray S) =
        glm.dot (ray.Origin - S.Position) (ray.Origin - S.Position) +
          2 * nearRoot fsqrt ray S * glm.dot (ray.Origin - S.Position) ray.Direction +
          nearRoot fsqrt ray S * nearRoot fsqrt ray S *
            glm.dot ray.Direction ray.Direction := by
      unfold glm.dot
      simp only [vec3_add_x, vec3_add_y, vec3_add_z, vec3_mul_x, vec3_mul_y, vec3_mul_z]
      ring
    have hsurf : glm.dot (ray.Origin - S.Position + ray.Direction * nearRoot fsqrt ray S)
        (ray.Origin - S.Position + ray.Direction * nearRoot fsqrt ray S) -
          S.Radius * S.Radius =
        (fsqrt (discriminant ray S) * fsqrt (discriminant ray S) - discriminant ray S) /
          (4 * glm.dot ray.Direction ray.Direction) := by
      rw [hexp, eq_div_iff (mul_ne_zero (by norm_num) ha0)]
      have hd : discriminant ray S =
          (2 * glm.dot (ray.Origin - S.Position) ray.Direction) *
            (2 * glm.dot (ray.Origin - S.Position) ray.Direction) -
          4 * glm.dot ray.Direction ray.Direction *
            (glm.dot (ray.Origin - S.Position) (ray.Origin - S.Position) -
              S.Radius * S.Radius) := rfl
      linear_combination
        (2 * glm.dot ray.Direction ray.Direction * nearRoot fsqrt ray S +
          2 * glm.dot (ray.Origin - S.Position) ray.Direction -
          fsqrt (discriminant ray S)) * h1 + hd
    have hwp : ray.Origin - S.Position + ray.Direction * nearRoot fsqrt ray S + S.Position -
        S.Position = ray.Origin - S.Position + ray.Direction * nearRoot fsqrt ray S := by
      apply vec3_ext <;>
        simp only [vec3_add_x, vec3_add_y, vec3_add_z, vec3_sub_x, vec3_sub_y, vec3_sub_z,
          vec3_mul_x, vec3_mul_y, vec3_mul_z] <;> ring
    subst hch
    refine ⟨j, S, hj, rfl, hs.2.1, rfl, ?_, ?_, ?_⟩
    · show ray.Origin - S.Position + ray.Direction * nearRoot fsqrt ray S + S.Position =
        ray.Origin + ray.Direction * nearRoot fsqrt ray S
      apply vec3_ext <;>
        simp only [vec3_add_x, vec3_add_y, vec3_add_z, vec3_sub_x, vec3_sub_y, vec3_sub_z,
          vec3_mul_x, vec3_mul_y, vec3_mul_z] <;> ring
    · show glm.dot (ray.Origin - S.Position + ray.Direction * nearRoot fsqrt ray S +
          S.Position - S.Position) (ray.Origin - S.Position +
          ray.Direction * nearRoot fsqrt ray S + S.Position - S.Position) -
          S.Radius * S.Radius = _
      rw [hwp, hsurf]
    · show glm.normalize fsqrt (ray.Origin - S.Position +
          ray.Direction * nearRoot fsqrt ray S) =
        (ray.Origin - S.Position + ray.Direction * nearRoot fsqrt ray S + S.Position -
          S.Position) * (1 / fsqrt (glm.dot (ray.Origin - S.Position +
          ray.Direction * nearRoot fsqrt ray S + S.Position - S.Position)
          (ray.Origin - S.Position + ray.Direction * nearRoot fsqrt ray S + S.Position -
          S.Position)))
      rw [hwp]
      rfl

theorem dot_smul_self (v : glm.vec3) (s : ℚ) :
    glm.dot (v * s) (v * s) = glm.dot v v * (s * s) := by
  unfold glm.dot
  simp only [vec3_mul_x, vec3_mul_y, vec3_mul_z]
  ring

/-! ## Near roots and hit payloads: exact arithmetic and binary32 -/

/-- C11, amended: for a scene with a single sphere of radius `r > 0` and a ray of unit
direction whose origin is at distance `d > r` (a `float`, so at most `FLT_MAX`) from
the centre and whose direction points straight at the centre, over exact arithmetic
(`fl x = x` and `fsqrt` returning the root of a square) `TraceRay` reports a hit on
that sphere with `HitDistance = d - r`; in binary32 arithmetic the sphere at the
origin with radius 1 and the ray from `(0, 0, -5)` with direction `(0, 0, 1)` give
`HitDistance = 4`. -/
theorem Renderer.TraceRayFl_head_on (fl fsqrt : ℚ → ℚ) (hexact : ∀ x, fl x = x)
    (hsqrt : ∀ x, 0 ≤ x → fsqrt (x * x) = x)
    (sphere : Sphere) (materials : List Material) (lightDir : glm.vec3) (ray : Ray) (d : ℚ)
    (hr : 0 < sphere.Radius) (hd : sphere.Radius < d) (hrange : d ≤ FLT_MAX)
    (hunit : glm.dot ray.Direction ray.Direction = 1)
    (haim : ray.Origin + ray.Direction * d = sphere.Position) :
    (∃ payload,
      Renderer.TraceRayFl fl fsqrt ⟨[sphere], materials, lightDir⟩ ray = some payload ∧
      payload.HitDistance = d - sphere.Radius ∧ payload.ObjectIndex = 0) ∧
    Renderer.TraceRayFl roundBinary32 sqrtBinary32 oneSphereScene axisRay =
      some ⟨4, ⟨0, 0, -1⟩, ⟨0, 0, -1⟩, 0⟩ := by
  have hfl := fl_exact fl hexact
  subst hfl
  refine ⟨?_, by decide!⟩
  rw [TraceRayFl_id]
  exact TraceRay_head_on_exact fsqrt hsqrt sphere materials lightDir ray d hr hd hrange hunit haim

/-- C11, counterexample: in binary32 arithmetic, for the sphere at the origin with
radius `0.1f` and the ray from `(0, 0, -5)` with unit direction `(0, 0, 1)`, at
distance `d = 5` from the centre and aimed at it, `TraceRay` reports the distance
`5138021 / 2 ^ 20 = 4.8999987`, which is not `d - r`. -/
theorem Renderer.head_on_distance_rounded :
    (0 < roundBinary32 (1 / 10) ∧ roundBinary32 (1 / 10) < 5 ∧
      glm.dot axisRay.Direction axisRay.Direction = 1 ∧
      axisRay.Origin + axisRay.Direction * (5 : ℚ) = (⟨0, 0, 0⟩ : glm.vec3)) ∧
    (Renderer.TraceRayFl roundBinary32 sqrtBinary32 tenthSphereScene axisRay).map
        (fun payload => (payload.HitDistance, payload.ObjectIndex)) =
      some (5138021 / 1048576, 0) ∧
    (5138021 / 1048576 : ℚ) ≠ 5 - roundBinary32 (1 / 10) := by
  decide!

/-- C18, amended: for every scene and every ray with non-zero direction whose origin
lies strictly inside a sphere `S` of the scene, over exact arithmetic (`fl x = x`)
with a square root of the discriminant of `S` that is not below the root (the exact
one, or one rounded upward), the near root for `S` is negative, the payload
`TraceRay` returns is never a hit on `S`, and it is a miss when `S` is the only
sphere; in binary32 arithmetic the ray from `(1/2, 0, 0)` inside the sphere of radius
1 at the origin, along the z axis, is a miss. -/
theorem Renderer.TraceRayFl_origin_inside (fl fsqrt : ℚ → ℚ) (hexact : ∀ x, fl x = x)
    (scene : Scene) (ray : Ray) (i : ℕ) (S : Sphere) (hS : scene.Spheres[i]? = some S)
    (hD : ray.Direction ≠ 0) (_hR : 0 < S.Radius)
    (hin : glm.dot (ray.Origin - S.Position) (ray.Origin - S.Position) < S.Radius * S.Radius)
    (hsqrt : NotBelowSqrt fsqrt (discriminant ray S)) :
    nearRoot fsqrt ray S < 0 ∧
    (∃ payload, Renderer.TraceRayFl fl fsqrt scene ray = some payload ∧
      ¬ (payload.HitDistance ≠ -1 ∧ payload.ObjectIndex = (i : ℤ)) ∧
      (scene.Spheres = [S] → payload.HitDistance = -1 ∧ payload.HitDistance < 0)) ∧
    Renderer.TraceRayFl roundBinary32 sqrtBinary32 oneSphereScene insideRay =
      some (Renderer.Miss insideRay) := by
  have hfl := fl_exact fl hexact
  subst hfl
  refine ⟨nearRoot_neg_of_inside fsqrt ray S hD hin hsqrt, ?_, by decide!⟩
  rw [TraceRayFl_id]
  exact TraceRay_origin_inside_exact fsqrt scene ray i S hS hD hin hsqrt

/-- C18, counterexample: in binary32 arithmetic, the origin `(1.625, 349099 / 2 ^ 17, 0)`
lies strictly inside the sphere at `(0, 0, 0)` of radius `3.12f`, yet for the ray from
it in the direction `(-1, 0, 0)` the sum of the rounded squares of the origin exceeds
the rounded square of the radius, and `TraceRay` reports a hit on that sphere, at the
distance `2 ^ (-22)`. -/
theorem Renderer.inside_origin_reported :
    (∃ S, wideSphereScene.Spheres[0]? = some S ∧ 0 < S.Radius ∧
      glm.dot (grazingRay.Origin - S.Position) (grazingRay.Origin - S.Position) <
        S.Radius * S.Radius) ∧
    grazingRay.Direction ≠ 0 ∧
    (Renderer.TraceRayFl roundBinary32 sqrtBinary32 wideSphereScene grazingRay).map
        (fun payload => (payload.HitDistance, payload.ObjectIndex)) =
      some (1 / 4194304, 0) := by
  refine ⟨⟨⟨⟨0, 0, 0⟩, roundBinary32 (78 / 25), 0⟩, rfl, by decide!, by decide!⟩, by decide!,
    by decide!⟩

/-- C19, amended: for every scene of spheres with `Radius > 0` and every ray for which
`TraceRay` reports a hit, on a sphere `S` at distance `t`, over exact arithmetic
(`fl x = x`) the payload satisfies `WorldPosition = Origin + t * Direction`; the
squared distance of `WorldPosition` to the centre of `S` exceeds `Radius * Radius` by
`(s * s - discriminant) / (4 * dot(D, D))`, where `s` is the value the square root
returned for the discriminant; `WorldNormal` is `WorldPosition - S.Position` divided
by the value the square root returned for its squared length; so, when the square
root of the discriminant is exact, the point lies on the surface of `S`, and when
that of `Radius * Radius` is too, `WorldNormal` is the unit vector
`(WorldPosition - S.Position) / S.Radius`.  In binary32 arithmetic the ray from
`(0, 0, -5)` with direction `(0, 0, 1)` hits the sphere of radius 1 at the origin at
`(0, 0, -1)` with the unit normal `(0, 0, -1)`. -/
theorem Renderer.TraceRayFl_hit_geometry (fl fsqrt : ℚ → ℚ) (hexact : ∀ x, fl x = x)
    (scene : Scene) (ray : Ray) (payload : HitPayload)
    (hpos : ∀ s ∈ scene.Spheres, 0 < s.Radius)
    (htrace : Renderer.TraceRayFl fl fsqrt scene ray = some payload)
    (hhit : payload.HitDistance ≠ -1) :
    (∃ (i : ℕ) (S : Sphere), scene.Spheres[i]? = some S ∧ payload.ObjectIndex = (i : ℤ) ∧
      0 < payload.HitDistance ∧
      payload.WorldPosition = ray.Origin + ray.Direction * payload.HitDistance ∧
      glm.dot (payload.WorldPosition - S.Position) (payload.WorldPosition - S.Position) -
          S.Radius * S.Radius =
        (fsqrt (discriminant ray S) * fsqrt (discriminant ray S) - discriminant ray S) /
          (4 * glm.dot ray.Direction ray.Direction) ∧
      payload.WorldNormal = (payload.WorldPosition - S.Position) *
        (1 / fsqrt (glm.dot (payload.WorldPosition - S.Position)
          (payload.WorldPosition - S.Position))) ∧
      (fsqrt (discriminant ray S) * fsqrt (discriminant ray S) = discriminant ray S →
        glm.dot (payload.WorldPosition - S.Position) (payload.WorldPosition - S.Position) =
          S.Radius * S.Radius ∧
        (fsqrt (S.Radius * S.Radius) = S.Radius →
          payload.WorldNormal = (payload.WorldPosition - S.Position) * (1 / S.Radius) ∧
          glm.dot payload.WorldNormal payload.WorldNormal = 1))) ∧
    Renderer.TraceRayFl roundBinary32 sqrtBinary32 oneSphereScene axisRay =
      some ⟨4, ⟨0, 0, -1⟩, ⟨0, 0, -1⟩, 0⟩ := by
  have hfl := fl_exact fl hexact
  subst hfl
  refine ⟨?_, by decide!⟩
  rw [TraceRayFl_id] at htrace
  obtain ⟨i, S, hi, hobj, ht, -, hwp, hsurf, hn⟩ :=
    TraceRay_hit_geometry_exact fsqrt scene ray payload htrace hhit
  refine ⟨i, S, hi, hobj, ht, hwp, hsurf, hn, ?_⟩
  intro hs2
  have hR := hpos S (List.mem_iff_getElem?.mpr ⟨i, hi⟩)
  have hon : glm.dot (payload.WorldPosition - S.Position)
      (payload.WorldPosition - S.Position) = S.Radius * S.Radius := by
    rw [hs2, sub_self, zero_div] at hsurf
    linarith
  refine ⟨hon, ?_⟩
  intro hsR
  have hn1 : payload.WorldNormal = (payload.WorldPosition - S.Position) * (1 / S.Radius) := by
    rw [hn, hon, hsR]
  refine ⟨hn1, ?_⟩
  rw [hn1, dot_smul_self, hon]
  field_simp

/-- C19, counterexample: in binary32 arithmetic, the ray from `(1/2, 0, -5)` with
direction `(0, 0, 1)` hits the sphere of radius 1 at the origin (discriminant 3) at
the distance `8669573 / 2 ^ 21`; the position reported is `(1/2, 0, -1816187 / 2 ^ 21)`,
whose squared distance to the centre is not 1, and the normal reported, the same
vector, is not a unit vector. -/
theorem Renderer.hit_point_off_surface :
    Renderer.TraceRayFl roundBinary32 sqrtBinary32 oneSphereScene offAxisRay =
      some ⟨8669573 / 2097152, ⟨1 / 2, 0, -1816187 / 2097152⟩,
        ⟨1 / 2, 0, -1816187 / 2097152⟩, 0⟩ ∧
    glm.dot ((⟨1 / 2, 0, -1816187 / 2097152⟩ : glm.vec3) - ⟨0, 0, 0⟩)
        ((⟨1 / 2, 0, -1816187 / 2097152⟩ : glm.vec3) - ⟨0, 0, 0⟩) =
      4398046846745 / 4398046511104 ∧
    (4398046846745 / 4398046511104 : ℚ) ≠ 1 * 1 := by
  decide!

/-- Instance of C11: the sphere of radius 1 at the origin and the ray from `(0, 0, -5)`
with direction `(0, 0, 1)`, at distance 5 from the centre, in exact arithmetic. -/
theorem Renderer.TraceRayFl_head_on_witness :
    (∃ payload,
      Renderer.TraceRayFl (fun x => x) Rat.sqrt
        ⟨[⟨⟨0, 0, 0⟩, 1, 0⟩], [⟨⟨1, 0, 1⟩, 0⟩], ⟨0, 0, 1⟩⟩ axisRay = some payload ∧
      payload.HitDistance = 5 - (⟨⟨0, 0, 0⟩, 1, 0⟩ : Sphere).Radius ∧
      payload.ObjectIndex = 0) ∧
    Renderer.TraceRayFl roundBinary32 sqrtBinary32 oneSphereScene axisRay =
      some ⟨4, ⟨0, 0, -1⟩, ⟨0, 0, -1⟩, 0⟩ :=
  Renderer.TraceRayFl_head_on (fun x => x) Rat.sqrt (fun _ => rfl) rat_sqrt_sq
    ⟨⟨0, 0, 0⟩, 1, 0⟩ [⟨⟨1, 0, 1⟩, 0⟩] ⟨0, 0, 1⟩ axisRay 5 (by decide!) (by decide!)
    (by decide!) (by decide!) (by decide!)

/-- Instance of C18: the ray from `(1/2, 0, 0)` inside the only sphere of the scene,
whose discriminant 3 has no rational root, with the square root rounded upward. -/
theorem Renderer.TraceRayFl_origin_inside_witness :
    discriminant insideRay ⟨⟨0, 0, 0⟩, 1, 0⟩ = 3 ∧
    nearRoot sqrtUp insideRay ⟨⟨0, 0, 0⟩, 1, 0⟩ < 0 ∧
    (∃ payload, Renderer.TraceRayFl (fun x => x) sqrtUp oneSphereScene insideRay =
        some payload ∧
      ¬ (payload.HitDistance ≠ -1 ∧ payload.ObjectIndex = ((0 : ℕ) : ℤ)) ∧
      (oneSphereScene.Spheres = [⟨⟨0, 0, 0⟩, 1, 0⟩] →
        payload.HitDistance = -1 ∧ payload.HitDistance < 0)) ∧
    Renderer.TraceRayFl roundBinary32 sqrtBinary32 oneSphereScene insideRay =
      some (Renderer.Miss insideRay) :=
  ⟨by decide!,
    Renderer.TraceRayFl_origin_inside (fun x => x) sqrtUp (fun _ => rfl) oneSphereScene
      insideRay 0 ⟨⟨0, 0, 0⟩, 1, 0⟩ rfl (by decide!) (by decide!) (by decide!)
      (sqrtUp_notBelow _ (by decide!))⟩

/-- Instance of C19: the hit of the ray from `(1/2, 0, -5)` along the z axis on the
sphere of radius 1 at the origin, off its axis, with the square root rounded upward. -/
theorem Renderer.TraceRayFl_hit_geometry_witness :
    ∃ payload : HitPayload,
      Renderer.TraceRayFl (fun x => x) sqrtUp oneSphereScene offAxisRay = some payload ∧
      payload.HitDistance ≠ -1 ∧
      ((∃ (i : ℕ) (S : Sphere), oneSphereScene.Spheres[i]? = some S ∧
        payload.ObjectIndex = (i : ℤ) ∧ 0 < payload.HitDistance ∧
        payload.WorldPosition = offAxisRay.Origin + offAxisRay.Direction * payload.HitDistance ∧
        glm.dot (payload.WorldPosition - S.Position) (payload.WorldPosition - S.Position) -
            S.Radius * S.Radius =
          (sqrtUp (discriminant offAxisRay S) * sqrtUp (discriminant offAxisRay S) -
            discriminant offAxisRay S) /
            (4 * glm.dot offAxisRay.Direction offAxisRay.Direction) ∧
        payload.WorldNormal = (payload.WorldPosition - S.Position) *
          (1 / sqrtUp (glm.dot (payload.WorldPosition - S.Position)
            (payload.WorldPosition - S.Position))) ∧
        (sqrtUp (discriminant offAxisRay S) * sqrtUp (discriminant offAxisRay S) =
            discriminant offAxisRay S →
          glm.dot (payload.WorldPosition - S.Position) (payload.WorldPosition - S.Position) =
            S.Radius * S.Radius ∧
          (sqrtUp (S.Radius * S.Radius) = S.Radius →
            payload.WorldNormal = (payload.WorldPosition - S.Position) * (1 / S.Radius) ∧
            glm.dot payload.WorldNormal payload.WorldNormal = 1))) ∧
      Renderer.TraceRayFl roundBinary32 sqrtBinary32 oneSphereScene axisRay =
        some ⟨4, ⟨0, 0, -1⟩, ⟨0, 0, -1⟩, 0⟩) := by
  have hsome : (Renderer.TraceRayFl (fun x => x) sqrtUp oneSphereScene offAxisRay).isSome = true := by
    decide!
  obtain ⟨payload, hp⟩ := Option.isSome_iff_exists.mp hsome
  have hhit : payload.HitDistance ≠ -1 := by
    have : (Renderer.TraceRayFl (fun x => x) sqrtUp oneSphereScene offAxisRay).map
        (fun p => decide (p.HitDistance ≠ -1)) = some true := by decide!
    rw [hp] at this
    simpa using this
  exact ⟨payload, hp, hhit,
    Renderer.TraceRayFl_hit_geometry (fun x => x) sqrtUp (fun _ => rfl) oneSphereScene
      offAxisRay payload (oneSphereScene_sphere _ (by decide!)) hp hhit⟩

/-! ## The pixel loop of `RenderFl` -/

/-- The pixel loop of `RenderFl` over a run of consecutive indices: the entries of the
run receive the rounded sums with their samples, the word written for each is the
display value of the new entry, and the other entries are left as they were. -/
theorem bufferStepFl_run (fl : ℚ → ℚ) (pp : ℕ → ℕ → Option (glm.vec4 × ℕ)) (f : ℕ) :
    ∀ (mid pre post : List glm.vec4) (ipre imid ipost : List ℕ) (k : ℕ),
      ipre.length = pre.length → imid.length = mid.length →
      List.foldlM (Renderer.bufferStepFl fl pp f)
          (pre ++ mid ++ post, ipre ++ imid ++ ipost, k)
          (List.range' pre.length mid.length) =
        match frameSamples pp (List.range' pre.length mid.length) k with
        | none => none
        | some (ss, k1) =>
          some (pre ++ List.zipWith (glm.addFl fl) mid ss ++ post,
                ipre ++ (List.zipWith (glm.addFl fl) mid ss).map (Renderer.displayedFl fl f) ++
                  ipost, k1) := by
  intro mid
  induction mid with
  | nil =>
    intro pre post ipre imid ipost k _ h2
    have : imid = [] := List.length_eq_zero.mp h2
    subst this
    simp [frameSamples]
  | cons a mid1 ih =>
    intro pre post ipre imid ipost k h1 h2
    cases imid with
    | nil => simp at h2
    | cons i0 imid1 =>
      have h2' : imid1.length = mid1.length := by simpa using h2
      rw [List.length_cons, List.range'_succ, List.foldlM_cons]
      unfold frameSamples
      have hstep : Renderer.bufferStepFl fl pp f
          (pre ++ a :: mid1 ++ post, ipre ++ i0 :: imid1 ++ ipost, k) pre.length =
          match pp pre.length k with
          | none => none
          | some (color, k1) =>
            some ((pre ++ [glm.addFl fl a color]) ++ mid1 ++ post,
                  (ipre ++ [Renderer.displayedFl fl f (glm.addFl fl a color)]) ++ imid1 ++ ipost,
                  k1) := by
        unfold Renderer.bufferStepFl
        cases pp pre.length k with
        | none => rfl
        | some ck =>
          obtain ⟨c, k1⟩ := ck
          have hget : (pre ++ a :: mid1 ++ post)[pre.length]? = some a := by
            rw [List.append_assoc, List.getElem?_append_right (le_refl _)]
            simp
          have hlen : pre.length < (ipre ++ i0 :: imid1 ++ ipost).length := by
            simp; omega
          simp only [hget, hlen, if_true]
          have hs1 : (pre ++ a :: mid1 ++ post).set pre.length (glm.round4 fl (a + c)) =
              pre ++ [glm.addFl fl a c] ++ mid1 ++ post := by
            simp [List.set_append, glm.addFl]
          have hs2 : (ipre ++ i0 :: imid1 ++ ipost).set pre.length
              (Renderer.displayedFl fl f (glm.round4 fl (a + c))) =
              ipre ++ [Renderer.displayedFl fl f (glm.addFl fl a c)] ++ imid1 ++ ipost := by
            rw [← h1]
            simp [List.set_append, glm.addFl]
          rw [hs1, hs2]
      rw [hstep]
      cases pp pre.length k with
      | none => rfl
      | some ck =>
        obtain ⟨c, k1⟩ := ck
        simp only [Option.bind_eq_bind, Option.some_bind]
        have hl : (pre ++ [glm.addFl fl a c]).length = pre.length + 1 := by simp
        have hil : (ipre ++ [Renderer.displayedFl fl f (glm.addFl fl a c)]).length =
            (pre ++ [glm.addFl fl a c]).length := by
          simp [h1]
        have := ih (pre ++ [glm.addFl fl a c]) post
          (ipre ++ [Renderer.displayedFl fl f (glm.addFl fl a c)]) imid1 ipost k1 hil h2'
        rw [hl] at this
        rw [this]
        cases frameSamples pp (List.range' (pre.length + 1) mid1.length) k1 with
        | none => rfl
        | some res =>
          obtain ⟨ss, k2⟩ := res
          simp

theorem PerPixelFl_eq_sampleAtFl (fl fsqrt : ℚ → ℚ) (rand : ℕ → glm.vec3) (r : Renderer)
    (scene : Scene) (camera : Camera) (img : Image)
    (hc : r.m_ActiveCamera = some camera) (hs : r.m_ActiveScene = some scene)
    (hi : r.m_FinalImage = some img) (k x y : ℕ) :
    Renderer.PerPixelFl fl fsqrt rand r k x y =
      Renderer.sampleAtFl fl fsqrt rand scene camera ((x + y * img.Width) % 2 ^ 32) k := by
  unfold Renderer.PerPixelFl Renderer.sampleAtFl
  rw [hc, hs, hi]

theorem RenderFl_pixel_withBuffers (fl fsqrt : ℚ → ℚ) (rand : ℕ → glm.vec3) (r : Renderer)
    (scene : Scene) (camera : Camera) (img : Image)
    (hc : r.m_ActiveCamera = some camera) (hs : r.m_ActiveScene = some scene)
    (hi : r.m_FinalImage = some img) (x y : ℕ) (b : List glm.vec4 × List ℕ × ℕ) :
    Renderer.RenderFl.pixel fl fsqrt rand x y (r.withBuffers b) =
      (Renderer.bufferStepFl fl (Renderer.sampleAtFl fl fsqrt rand scene camera) r.m_FrameIndex b
        ((x + y * img.Width) % 2 ^ 32)).map r.withBuffers := by
  obtain ⟨acc, dat, k⟩ := b
  have hpp := PerPixelFl_eq_sampleAtFl fl fsqrt rand (r.withBuffers (acc, dat, k)).1 scene camera
    img hc hs hi k x y
  unfold Renderer.RenderFl.pixel Renderer.bufferStepFl
  have hi' : (r.withBuffers (acc, dat, k)).1.m_FinalImage = some img := hi
  rw [hi']
  simp only [Renderer.withBuffers] at hpp ⊢
  rw [hpp]
  cases Renderer.sampleAtFl fl fsqrt rand scene camera ((x + y * img.Width) % 2 ^ 32) k with
  | none => rfl
  | some ck =>
    obtain ⟨c, k1⟩ := ck
    simp only
    cases acc[(x + y * img.Width) % 2 ^ 32]? with
    | none => rfl
    | some old =>
      simp only
      by_cases hlt : (x + y * img.Width) % 2 ^ 32 < dat.length
      · rw [if_pos hlt, if_pos hlt]
        rfl
      · rw [if_neg hlt, if_neg hlt]
        rfl

/-- What one call of `RenderFl` does to a renderer whose buffers have one element per
pixel: the samples of the frame are added with rounding, entry by entry, to the
accumulation buffer (zeroed first at frame index 1), the image receives the display
value of every new entry, and the frame index is advanced or reset. -/
theorem RenderFl_eq (fl fsqrt : ℚ → ℚ) (rand : ℕ → glm.vec3) (scene : Scene) (camera : Camera)
    (r : Renderer) (k : ℕ) (img : Image) (himg : r.m_FinalImage = some img)
    (hsz : img.Width * img.Height < 2 ^ 32)
    (hacc : r.m_AccumulationData.length = img.Width * img.Height)
    (hdat : r.m_ImageData.length = img.Width * img.Height) :
    Renderer.RenderFl fl fsqrt rand scene camera (r, k) =
      match frameSamples (Renderer.sampleAtFl fl fsqrt rand scene camera)
          (List.range (img.Width * img.Height)) k with
      | none => none
      | some (ss, k1) =>
        some ({ r with
                  m_ActiveScene := some scene
                  m_ActiveCamera := some camera
                  m_AccumulationData := List.zipWith (glm.addFl fl) r.frameBase ss
                  m_ImageData :=
                    (List.zipWith (glm.addFl fl) r.frameBase ss).map
                      (Renderer.displayedFl fl r.m_FrameIndex)
                  m_FrameIndex := r.nextFrameIndex }, k1) := by
  have hmod : (img.Width * img.Height) % 2 ^ 32 = img.Width * img.Height :=
    Nat.mod_eq_of_lt hsz
  have hclear : (if r.m_FrameIndex = 1 then
        Renderer.memsetZero r.m_AccumulationData ((img.Width * img.Height) % 2 ^ 32)
      else some r.m_AccumulationData) = some r.frameBase := by
    unfold Renderer.frameBase Renderer.memsetZero
    by_cases h1 : r.m_FrameIndex = 1
    · rw [if_pos h1, if_pos h1, hmod, if_pos (le_of_eq hacc.symm), ← hacc]
      simp
    · rw [if_neg h1, if_neg h1]
  have hbl : r.frameBase.length = img.Width * img.Height := by
    unfold Renderer.frameBase
    by_cases h1 : r.m_FrameIndex = 1
    · rw [if_pos h1, List.length_replicate, hacc]
    · rw [if_neg h1, hacc]
  let r1 : Renderer := { r with m_ActiveScene := some scene, m_ActiveCamera := some camera }
  have hfold : ∀ b : List glm.vec4 × List ℕ × ℕ,
      List.foldlM (fun s1 y => List.foldlM
          (fun s2 x => Renderer.RenderFl.pixel fl fsqrt rand x y s2) s1 (List.range img.Width))
        (r1.withBuffers b) (List.range img.Height) =
      (List.foldlM (Renderer.bufferStepFl fl (Renderer.sampleAtFl fl fsqrt rand scene camera)
        r.m_FrameIndex) b (List.range (img.Width * img.Height))).map r1.withBuffers := by
    intro b
    rw [← foldlM_rows _ img.Width img.Height b (le_of_lt hsz)]
    apply foldlM_option_embed
    intro y b1
    apply foldlM_option_embed
    intro x b2
    exact RenderFl_pixel_withBuffers fl fsqrt rand r1 scene camera img rfl rfl himg x y b2
  unfold Renderer.RenderFl
  simp only [himg, hclear]
  have hstart : (Renderer.mk (some img) r.m_ImageData r.frameBase r.m_FrameIndex r.m_Settings
      (some scene) (some camera), k) = r1.withBuffers (r.frameBase, r.m_ImageData, k) := by
    simp only [Renderer.withBuffers, r1, himg]
  rw [hstart, hfold]
  have hrun := bufferStepFl_run fl (Renderer.sampleAtFl fl fsqrt rand scene camera) r.m_FrameIndex
    r.frameBase [] [] [] r.m_ImageData [] k rfl (by rw [hdat, hbl])
  simp only [List.nil_append, List.append_nil, List.length_nil, hbl,
    ← List.range_eq_range'] at hrun
  rw [hrun]
  cases frameSamples (Renderer.sampleAtFl fl fsqrt rand scene camera)
      (List.range (img.Width * img.Height)) k with
  | none => rfl
  | some res =>
    obtain ⟨ss, k1⟩ := res
    simp [Renderer.withBuffers, r1, himg, Renderer.nextFrameIndex]

/-! ## The samples of `PerPixelFl` are defined under the render contract -/

/-- The loop of `TraceRayFl` returns the values it was entered with, or the index of a
sphere it went through and a positive distance. -/
theorem TraceRayFl_loop_spec (fl fsqrt : ℚ → ℚ) (ray : Ray) :
    ∀ (spheres : List Sphere) (i : ℕ) (closestSphere : ℤ) (hitDistance : ℚ),
      Renderer.TraceRayFl.loop fl fsqrt ray spheres i closestSphere hitDistance =
          (closestSphere, hitDistance) ∨
        ∃ j : ℕ, i ≤ j ∧ j < i + spheres.length ∧
          (Renderer.TraceRayFl.loop fl fsqrt ray spheres i closestSphere hitDistance).1 = (j : ℤ) ∧
          0 < (Renderer.TraceRayFl.loop fl fsqrt ray spheres i closestSphere hitDistance).2 := by
  intro spheres
  induction spheres with
  | nil => intro i c h; exact Or.inl rfl
  | cons sphere rest ih =>
    intro i c h
    unfold Renderer.TraceRayFl.loop
    simp only [List.length_cons]
    split
    · rcases ih (i + 1) c h with h1 | ⟨j, hj1, hj2, hj3, hj4⟩
      · exact Or.inl h1
      · exact Or.inr ⟨j, by omega, by omega, hj3, hj4⟩
    · split
      · rename_i hacc
        rcases ih (i + 1) (i : ℤ) _ with h1 | ⟨j, hj1, hj2, hj3, hj4⟩
        · right
          refine ⟨i, le_refl i, by omega, ?_, ?_⟩
          · rw [h1]
          · rw [h1]; exact hacc.1
        · exact Or.inr ⟨j, by omega, by omega, hj3, hj4⟩
      · rcases ih (i + 1) c h with h1 | ⟨j, hj1, hj2, hj3, hj4⟩
        · exact Or.inl h1
        · exact Or.inr ⟨j, by omega, by omega, hj3, hj4⟩

/-- The result of `TraceRayFl`: a miss, or a payload with a positive distance that
names a sphere of the scene. -/
theorem TraceRayFl_cases (fl fsqrt : ℚ → ℚ) (scene : Scene) (ray : Ray) :
    Renderer.TraceRayFl fl fsqrt scene ray = some (Renderer.Miss ray) ∨
      ∃ (j : ℕ) (S : Sphere) (payload : HitPayload), scene.Spheres[j]? = some S ∧
        Renderer.TraceRayFl fl fsqrt scene ray = some payload ∧
        payload.ObjectIndex = (j : ℤ) ∧ 0 < payload.HitDistance := by
  unfold Renderer.TraceRayFl
  rcases TraceRayFl_loop_spec fl fsqrt ray scene.Spheres 0 (-1) FLT_MAX with
    h1 | ⟨j, -, hj2, hj3, hj4⟩
  · left
    simp only [h1]
    rfl
  · right
    have hj : j < scene.Spheres.length := by omega
    have hnot : ¬ (Renderer.TraceRayFl.loop fl fsqrt ray scene.Spheres 0 (-1) FLT_MAX).1 < 0 := by
      rw [hj3]
      exact not_lt.mpr (Int.natCast_nonneg j)
    simp only [hnot, if_false]
    have hidx : vectorAt scene.Spheres
        (Renderer.TraceRayFl.loop fl fsqrt ray scene.Spheres 0 (-1) FLT_MAX).1 =
        some scene.Spheres[j] := by
      rw [hj3, vectorAt_natCast]
      exact List.getElem?_eq_getElem hj
    unfold Renderer.ClosestHitFl
    rw [hidx]
    exact ⟨j, scene.Spheres[j], _, List.getElem?_eq_getElem hj, rfl, hj3, hj4⟩

theorem bounceFl_total (fl fsqrt : ℚ → ℚ) (rand : ℕ → glm.vec3) (scene : Scene)
    (hv : scene.valid) :
    ∀ (n : ℕ) (ray : Ray) (color : glm.vec3) (multiplier : ℚ) (k : ℕ),
      ∃ c k1, Renderer.PerPixelFl.bounce fl fsqrt rand scene n ray color multiplier k =
        some (c, k1) := by
  intro n
  induction n with
  | zero => intro ray color multiplier k; exact ⟨color, k, rfl⟩
  | succ n ih =>
    intro ray color multiplier k
    unfold Renderer.PerPixelFl.bounce
    rcases TraceRayFl_cases fl fsqrt scene ray with heq | ⟨j, s, payload, hj, heq, hobj, hd⟩
    · rw [heq]
      have : (Renderer.Miss ray).HitDistance < 0 := by simp [Renderer.Miss]
      simp only [this, if_true]
      exact ⟨_, _, rfl⟩
    · rw [heq]
      have hpos : ¬ payload.HitDistance < 0 := not_lt.mpr (le_of_lt hd)
      simp only [hpos, if_false]
      rw [hobj, vectorAt_natCast, hj]
      have hmem : s ∈ scene.Spheres := List.mem_iff_getElem?.mpr ⟨j, hj⟩
      obtain ⟨h0, hlt⟩ := hv s hmem
      have hmat : vectorAt scene.Materials s.MaterialIndex =
          some (scene.Materials[s.MaterialIndex.toNat]) := by
        unfold vectorAt
        rw [if_pos h0]
        exact List.getElem?_eq_getElem hlt
      simp only [hmat]
      exact ih _ _ _ _

theorem sampleAtFl_total (fl fsqrt : ℚ → ℚ) (rand : ℕ → glm.vec3) (scene : Scene)
    (camera : Camera) (hv : scene.valid) (idx k : ℕ)
    (hidx : idx < camera.RayDirections.length) :
    ∃ c k1, Renderer.sampleAtFl fl fsqrt rand scene camera idx k = some (c, k1) := by
  unfold Renderer.sampleAtFl
  rw [List.getElem?_eq_getElem hidx]
  obtain ⟨c, k1, h⟩ := bounceFl_total fl fsqrt rand scene hv 5
    { Origin := camera.Position, Direction := camera.RayDirections[idx] } 0 1 k
  simp only [h]
  exact ⟨_, _, rfl⟩

theorem frameFl_total (fl fsqrt : ℚ → ℚ) (rand : ℕ → glm.vec3) (scene : Scene)
    (camera : Camera) (n : ℕ) (hv : scene.valid) (hcam : camera.RayDirections.length = n)
    (k : ℕ) :
    ∃ ss k1, frameSamples (Renderer.sampleAtFl fl fsqrt rand scene camera) (List.range n) k =
      some (ss, k1) ∧ ss.length = n := by
  obtain ⟨ss, k1, h⟩ := frameSamples_total (Renderer.sampleAtFl fl fsqrt rand scene camera)
    (List.range n)
    (fun idx hidx k => sampleAtFl_total fl fsqrt rand scene camera hv idx k
      (by rw [hcam]; exact List.mem_range.mp hidx)) k
  refine ⟨ss, k1, h, ?_⟩
  rw [frameSamples_length _ _ _ _ _ h, List.length_range]

/-- A call of `RenderFl` under the render contract: it returns, the renderer keeps its
image, its buffer sizes and its settings, and the buffers and the frame index are
those of `RenderFl_eq`. -/
theorem RenderFl_sized (fl fsqrt : ℚ → ℚ) (rand : ℕ → glm.vec3) (scene : Scene)
    (camera : Camera) (r : Renderer) (k W H : ℕ) (hr : r.Sized W H) (hv : scene.valid)
    (hcam : camera.RayDirections.length = W * H) :
    ∃ ss k1 r1,
      frameSamples (Renderer.sampleAtFl fl fsqrt rand scene camera) (List.range (W * H)) k =
        some (ss, k1) ∧ ss.length = W * H ∧
      Renderer.RenderFl fl fsqrt rand scene camera (r, k) = some (r1, k1) ∧
      r1.Sized W H ∧ r1.m_Settings = r.m_Settings ∧
      r1.m_FrameIndex = r.nextFrameIndex ∧
      r1.m_AccumulationData = List.zipWith (glm.addFl fl) r.frameBase ss ∧
      r1.m_ImageData =
        (List.zipWith (glm.addFl fl) r.frameBase ss).map
          (Renderer.displayedFl fl r.m_FrameIndex) := by
  obtain ⟨ss, k1, hss, hlen⟩ := frameFl_total fl fsqrt rand scene camera (W * H) hv hcam k
  have heq := RenderFl_eq fl fsqrt rand scene camera r k ⟨W, H⟩ hr.image hr.fits hr.accum hr.data
  simp only [hss] at heq
  have hbl : r.frameBase.length = W * H := by
    unfold Renderer.frameBase
    by_cases h1 : r.m_FrameIndex = 1
    · rw [if_pos h1, List.length_replicate, hr.accum]
    · rw [if_neg h1, hr.accum]
  refine ⟨ss, k1, _, hss, hlen, heq, ?_, rfl, rfl, rfl, rfl⟩
  exact ⟨hr.image, hr.fits, by simp [hbl, hlen], by simp [hbl, hlen]⟩

/-! ## Progressive accumulation with rounding -/

theorem runningSum_congr (fl : ℚ → ℚ) (ss ss1 : ℕ → List glm.vec4) (p : ℕ) :
    ∀ n, (∀ m, m < n → ss m = ss1 m) → runningSum fl ss p n = runningSum fl ss1 p n := by
  intro n
  induction n with
  | zero => intro _; rfl
  | succ n ih =>
    intro h
    unfold runningSum
    rw [ih (fun m hm => h m (Nat.lt_succ_of_lt hm)), h n (Nat.lt_succ_self n)]

theorem zipWith_addFl_getElem? (fl : ℚ → ℚ) (A B : List glm.vec4) (p : ℕ) (a b : glm.vec4)
    (ha : A[p]? = some a) (hb : B[p]? = some b) :
    (List.zipWith (glm.addFl fl) A B)[p]? = some (glm.round4 fl (a + b)) := by
  rw [List.getElem?_zipWith, ha, hb]
  rfl

/-- The state after `n < 2 ^ 32` accumulating calls of `RenderFl` that started at frame
index 1: the frame index is `n + 1` modulo `2 ^ 32`, and after at least one call the
accumulation buffer holds the running rounded sums of the samples and the image the
display values of these sums at frame index `n`. -/
theorem renderSeqFl_accumulate (fl fsqrt : ℚ → ℚ) (rand : ℕ → glm.vec3) (scenes : ℕ → Scene)
    (cameras : ℕ → Camera) (r : Renderer) (k0 W H : ℕ) (hr : r.Sized W H)
    (hv : ∀ n, (scenes n).valid) (hcam : ∀ n, (cameras n).RayDirections.length = W * H)
    (hframe : r.m_FrameIndex = 1) (hacc : r.m_Settings.Accumulate = true) :
    ∀ n, n < 2 ^ 32 →
      ∃ (ss : ℕ → List glm.vec4) (ks : ℕ → ℕ) (rn : Renderer),
        ks 0 = k0 ∧
        (∀ m, m < n →
          frameSamples (Renderer.sampleAtFl fl fsqrt rand (scenes m) (cameras m))
            (List.range (W * H)) (ks m) = some (ss m, ks (m + 1))) ∧
        Renderer.renderSeqFl fl fsqrt rand scenes cameras n (r, k0) = some (rn, ks n) ∧
        rn.Sized W H ∧ rn.m_Settings.Accumulate = true ∧
        rn.m_FrameIndex = (n + 1) % 2 ^ 32 ∧
        (1 ≤ n → ∀ p, p < W * H →
          rn.m_AccumulationData[p]? = some (runningSum fl ss p n) ∧
          rn.m_ImageData[p]? = some (Renderer.displayedFl fl n (runningSum fl ss p n))) := by
  intro n
  induction n with
  | zero =>
    intro _
    refine ⟨fun _ => [], fun _ => k0, r, rfl, ?_, rfl, hr, hacc, ?_, ?_⟩
    · intro m hm; omega
    · rw [hframe]; rfl
    · intro h; omega
  | succ n ih =>
    intro hn
    obtain ⟨ss, ks, rn, hk0, hsamples, hseq, hsz, hset, hfi, hpix⟩ := ih (by omega)
    obtain ⟨snew, k1, r1, hss, hlen, hrun, hsz1, hset1, hfi1, hacc1, himg1⟩ :=
      RenderFl_sized fl fsqrt rand (scenes n) (cameras n) rn (ks n) W H hsz (hv n) (hcam n)
    have hfn : rn.m_FrameIndex = n + 1 := by rw [hfi]; exact Nat.mod_eq_of_lt hn
    refine ⟨fun m => if m = n then snew else ss m, fun m => if m ≤ n then ks m else k1, r1,
      ?_, ?_, ?_, hsz1, ?_, ?_, ?_⟩
    · simp only [Nat.zero_le, if_true]; exact hk0
    · intro m hm
      by_cases hmn : m = n
      · subst hmn
        simp only [if_true, le_refl, Nat.add_one_le_iff, lt_irrefl, if_false]
        exact hss
      · have hlt : m < n := by omega
        have h1 : m ≤ n := by omega
        have h2 : m + 1 ≤ n := by omega
        simp only [hmn, h1, h2, if_true, if_false]
        exact hsamples m hlt
    · have : ¬ (n + 1 ≤ n) := by omega
      simp only [this, if_false]
      unfold Renderer.renderSeqFl
      simp only [hseq]
      exact hrun
    · rw [hset1]; exact hset
    · rw [hfi1]
      unfold Renderer.nextFrameIndex
      rw [hset, if_pos rfl, hfn]
    · intro _ p hp
      have hp' : p < snew.length := by rw [hlen]; exact hp
      have hsn : snew[p]? = some snew[p] := List.getElem?_eq_getElem hp'
      have hsum : runningSum fl (fun m => if m = n then snew else ss m) p (n + 1) =
          glm.round4 fl (runningSum fl ss p n + snew[p]) := by
        show glm.round4 fl (runningSum fl _ p n + _) = _
        rw [runningSum_congr fl _ ss p n (fun m hm => by
          have : m ≠ n := by omega
          simp only [this, if_false])]
        simp only [if_true]
        rw [getD_of_getElem? snew p _ hsn]
      have hget : (List.zipWith (glm.addFl fl) rn.frameBase snew)[p]? =
          some (glm.round4 fl (runningSum fl ss p n + snew[p])) := by
        apply zipWith_addFl_getElem? fl _ _ _ _ _ _ hsn
        unfold Renderer.frameBase
        by_cases h0 : n = 0
        · subst h0
          rw [if_pos hfn, List.getElem?_replicate, if_pos (by rw [hsz.accum]; exact hp)]
          rfl
        · have hne : rn.m_FrameIndex ≠ 1 := by rw [hfn]; omega
          rw [if_neg hne]
          exact (hpix (by omega) p hp).1
      rw [hsum]
      constructor
      · rw [hacc1]; exact hget
      · rw [himg1, List.getElem?_map, hget, hfn]
        rfl

theorem runningSum_exact (ss : ℕ → List glm.vec4) (p : ℕ) :
    ∀ n, runningSum (fun x => x) ss p n = sampleSum ss p n := by
  intro n
  induction n with
  | zero => rfl
  | succ n ih =>
    unfold runningSum sampleSum
    rw [ih, round4_id]

theorem displayedFl_exact (n : ℕ) (v : glm.vec4) :
    Renderer.displayedFl (fun x => x) n v =
      Utils.ConvertToRGBA (glm.clamp (v / (n : ℚ)) 0 1) := rfl

/-- C3, amended: from frame index 1, for every `N` with `1 ≤ N < 2 ^ 32`, after `N`
consecutive calls of `Render` with `Accumulate` enabled and no resize in between
(under the render contract of spec §6), for every rounding `fl` of the `float`
operations, every entry of the accumulation buffer is the running sum `A_N` of the
samples of the `N` calls at that pixel, `A_0 = 0` and `A_k = fl (A_(k-1) + s_k)`, and
every pixel of the image is `ConvertToRGBA(clamp(fl (A_N / fl N), 0, 1))`; over exact
arithmetic the entry is `s_1 + ... + s_N` and the pixel
`ConvertToRGBA(clamp((s_1 + ... + s_N) / N, 0, 1))`. -/
theorem Renderer.RenderFl_accumulation (fl fsqrt : ℚ → ℚ) (rand : ℕ → glm.vec3)
    (scenes : ℕ → Scene) (cameras : ℕ → Camera) (r : Renderer) (k0 W H N : ℕ)
    (hr : r.Sized W H) (hv : ∀ n, (scenes n).valid)
    (hcam : ∀ n, (cameras n).RayDirections.length = W * H)
    (hframe : r.m_FrameIndex = 1) (hacc : r.m_Settings.Accumulate = true)
    (hN1 : 1 ≤ N) (hN : N < 2 ^ 32) :
    Renderer.AccumulationFl fl fsqrt rand scenes cameras r k0 W H N := by
  obtain ⟨ss, ks, rn, hk0, hsamples, hseq, -, -, -, hpix⟩ :=
    renderSeqFl_accumulate fl fsqrt rand scenes cameras r k0 W H hr hv hcam hframe hacc N hN
  refine ⟨ss, ks, rn, hk0, hsamples, hseq, fun p hp => ?_⟩
  obtain ⟨h1, h2⟩ := hpix hN1 p hp
  refine ⟨h1, h2, ?_⟩
  intro hexact
  have hfl := fl_exact fl hexact
  subst hfl
  rw [h1, h2, runningSum_exact, displayedFl_exact]
  exact ⟨rfl, rfl⟩

/-- In binary32 arithmetic, on an image of one pixel and a scene without spheres, the
accumulation buffer after three accumulating calls holds in its green channel the
rounded running sum `4404019 / 2 ^ 21`, which is not three times the sample `0.7f`. -/
theorem accumulated_sum_rounded :
    (Renderer.renderSeqFl roundBinary32 sqrtBinary32 zeroRand (fun _ => emptyScene)
        (fun _ => unitCamera) 3 (staleRenderer, 0)).map
      (fun s => s.1.m_AccumulationData.map (fun v => v.g)) = some [4404019 / 2097152] ∧
    (4404019 / 2097152 : ℚ) ≠ roundBinary32 (7 / 10) + roundBinary32 (7 / 10) +
      roundBinary32 (7 / 10) := by
  decide!

/-- Instance of C3 in binary32 arithmetic: three accumulating calls on an image of
one pixel, the first on the sphere and the next two on the scene without spheres. -/
theorem Renderer.RenderFl_accumulation_witness :
    Renderer.AccumulationFl roundBinary32 sqrtBinary32 zeroRand sphereThenEmpty
      (fun _ => unitCamera) staleRenderer 0 1 1 3 :=
  Renderer.RenderFl_accumulation roundBinary32 sqrtBinary32 zeroRand sphereThenEmpty
    (fun _ => unitCamera) staleRenderer 0 1 1 3 staleRenderer_sized.1 sphereThenEmpty_valid
    (fun _ => rfl) (by decide) (by decide) (by decide) (by decide)

/-! ## Determinism without roughness, with rounding -/

theorem bounceFl_rand_indep (fl fsqrt : ℚ → ℚ) (rand rand1 : ℕ → glm.vec3) (scene : Scene)
    (hrough : ∀ material ∈ scene.Materials, material.Roughness = 0) :
    ∀ (n : ℕ) (ray : Ray) (color : glm.vec3) (multiplier : ℚ) (k k1 : ℕ),
      (Renderer.PerPixelFl.bounce fl fsqrt rand scene n ray color multiplier k).map Prod.fst =
        (Renderer.PerPixelFl.bounce fl fsqrt rand1 scene n ray color multiplier k1).map
          Prod.fst := by
  intro n
  induction n with
  | zero => intro ray color multiplier k k1; rfl
  | succ n ih =>
    intro ray color multiplier k k1
    rw [Renderer.PerPixelFl.bounce, Renderer.PerPixelFl.bounce]
    cases ht : Renderer.TraceRayFl fl fsqrt scene ray with
    | none => rfl
    | some payload =>
      simp only
      by_cases hmiss : payload.HitDistance < 0
      · simp only [hmiss, if_true]
        rfl
      · simp only [hmiss, if_false]
        cases hs : vectorAt scene.Spheres payload.ObjectIndex with
        | none => rfl
        | some sphere =>
          simp only
          cases hm : vectorAt scene.Materials sphere.MaterialIndex with
          | none => rfl
          | some material =>
            have hr := hrough material (vectorAt_mem _ _ _ hm)
            simp only [hr, vec3_zero_smul]
            exact ih _ _ _ _ _

theorem sample_map_indep (a b : Option (glm.vec3 × ℕ))
    (h : a.map Prod.fst = b.map Prod.fst) :
    (match a with
      | none => (none : Option (glm.vec4 × ℕ))
      | some (color, k1) => some (⟨color.x, color.y, color.z, 1⟩, k1)).map Prod.fst =
    (match b with
      | none => (none : Option (glm.vec4 × ℕ))
      | some (color, k1) => some (⟨color.x, color.y, color.z, 1⟩, k1)).map Prod.fst := by
  cases a with
  | none =>
    cases b with
    | none => rfl
    | some res => simp at h
  | some res =>
    cases b with
    | none => simp at h
    | some res1 =>
      obtain ⟨c, kk⟩ := res
      obtain ⟨c1, kk1⟩ := res1
      simp only [Option.map_some', Option.some.injEq] at h
      subst h
      rfl

theorem sampleAtFl_rand_indep (fl fsqrt : ℚ → ℚ) (rand rand1 : ℕ → glm.vec3) (scene : Scene)
    (camera : Camera) (hrough : ∀ material ∈ scene.Materials, material.Roughness = 0)
    (idx k k1 : ℕ) :
    (Renderer.sampleAtFl fl fsqrt rand scene camera idx k).map Prod.fst =
      (Renderer.sampleAtFl fl fsqrt rand1 scene camera idx k1).map Prod.fst := by
  unfold Renderer.sampleAtFl
  cases camera.RayDirections[idx]? with
  | none => rfl
  | some direction =>
    exact sample_map_indep _ _ (bounceFl_rand_indep fl fsqrt rand rand1 scene hrough 5
      { Origin := camera.Position, Direction := direction } 0 1 k k1)

/-- C20, amended: for a scene in which every material has `Roughness = 0`, for every
rounding `fl` of the `float` operations the colour `PerPixel` returns for a given
camera and pixel is the same for any two random samplers (and any two counts of
vectors drawn); over exact arithmetic, in an accumulation sequence over such a static
scene and camera the image written by `Render` at every frame index `N`,
`1 ≤ N < 2 ^ 32`, equals the image written at frame index 1, which is also the image
written with another random sampler; in binary32 arithmetic, for the sphere of
roughness 0 seen by a camera of two pixels, one on the sphere and one on the sky, the
images written at the frame indices 1 to 5 are the same. -/
theorem Renderer.determinismFl_without_roughness (fl fsqrt : ℚ → ℚ)
    (rand rand1 : ℕ → glm.vec3) (scene : Scene) (camera : Camera) (r : Renderer)
    (k0 k1 W H N : ℕ)
    (hrough : ∀ material ∈ scene.Materials, material.Roughness = 0)
    (hr : r.Sized W H) (hv : scene.valid) (hcam : camera.RayDirections.length = W * H)
    (hframe : r.m_FrameIndex = 1) (hacc : r.m_Settings.Accumulate = true)
    (hN1 : 1 ≤ N) (hN : N < 2 ^ 32) :
    (∀ (r0 : Renderer) (k k2 x y : ℕ), r0.m_ActiveScene = some scene →
      (Renderer.PerPixelFl fl fsqrt rand r0 k x y).map Prod.fst =
        (Renderer.PerPixelFl fl fsqrt rand1 r0 k2 x y).map Prod.fst) ∧
    ((∀ x, fl x = x) →
      ∃ rA rB rN kA kB kN,
        Renderer.RenderFl fl fsqrt rand scene camera (r, k0) = some (rA, kA) ∧
        Renderer.RenderFl fl fsqrt rand1 scene camera (r, k1) = some (rB, kB) ∧
        Renderer.renderSeqFl fl fsqrt rand (fun _ => scene) (fun _ => camera) N (r, k0) =
          some (rN, kN) ∧
        rN.m_ImageData = rA.m_ImageData ∧ rB.m_ImageData = rA.m_ImageData) ∧
    ∀ n ∈ [1, 2, 3, 4, 5],
      (Renderer.renderSeqFl roundBinary32 sqrtBinary32 zeroRand (fun _ => oneSphereScene)
          (fun _ => twoPixelCamera) n (twoPixelRenderer, 0)).map
        (fun s => s.1.m_ImageData) = some [4294924799, 4293243545] := by
  refine ⟨?_, ?_, by decide!⟩
  · intro r0 k k2 x y hs
    unfold Renderer.PerPixelFl
    rw [hs]
    cases r0.m_ActiveCamera with
    | none => rfl
    | some cam =>
      cases r0.m_FinalImage with
      | none => rfl
      | some img =>
        exact sampleAtFl_rand_indep fl fsqrt rand rand1 scene cam hrough _ k k2
  · intro hexact
    have hfl := fl_exact fl hexact
    subst hfl
    simp only [RenderFl_id, renderSeqFl_id]
    exact (determinism_without_roughness_exact fsqrt rand rand1 scene camera r k0 k1 W H N
      hrough hr hv hcam hframe hacc hN1 hN).2

/-- C20, counterexample: in binary32 arithmetic, for the static scene of one sphere of
roughness 0 and a camera of two pixels, the image written by the sixth accumulating
call of `Render` (frame index 6) differs from the image written by the first (frame
index 1) in the pixel that sees the sky: its red byte is 152 instead of 153. -/
theorem Renderer.image_at_frame_six_differs :
    (∀ material ∈ oneSphereScene.Materials, material.Roughness = 0) ∧
    (Renderer.renderSeqFl roundBinary32 sqrtBinary32 zeroRand (fun _ => oneSphereScene)
        (fun _ => twoPixelCamera) 1 (twoPixelRenderer, 0)).map
      (fun s => (s.1.m_ImageData, s.1.m_FrameIndex)) = some ([4294924799, 4293243545], 2) ∧
    (Renderer.renderSeqFl roundBinary32 sqrtBinary32 zeroRand (fun _ => oneSphereScene)
        (fun _ => twoPixelCamera) 6 (twoPixelRenderer, 0)).map
      (fun s => (s.1.m_ImageData, s.1.m_FrameIndex)) = some ([4294924799, 4293243544], 7) ∧
    4293243544 % 2 ^ 8 = 152 ∧ 4293243545 % 2 ^ 8 = 153 := by
  refine ⟨?_, by decide!, by decide!, by decide, by decide⟩
  intro material hmem
  have : material = ⟨⟨1, 0, 1⟩, 0⟩ := by simpa [oneSphereScene] using hmem
  rw [this]

theorem twoPixelRenderer_sized :
    twoPixelRenderer.Sized 2 1 ∧ twoPixelRenderer.m_FrameIndex = 1 :=
  OnResize_init_sized 2 1 (by norm_num) _ _

/-- Instance of C20: the sphere of roughness 0 seen by the camera of two pixels,
rendered three times in exact arithmetic with the sampler that returns zero, and once
with a sampler that returns `(1, 1, 1)`. -/
theorem Renderer.determinismFl_without_roughness_witness :
    (∀ (r0 : Renderer) (k k2 x y : ℕ), r0.m_ActiveScene = some oneSphereScene →
      (Renderer.PerPixelFl (fun x => x) Rat.sqrt zeroRand r0 k x y).map Prod.fst =
        (Renderer.PerPixelFl (fun x => x) Rat.sqrt (fun _ => ⟨1, 1, 1⟩) r0 k2 x y).map
          Prod.fst) ∧
    (∃ rA rB rN kA kB kN,
      Renderer.RenderFl (fun x => x) Rat.sqrt zeroRand oneSphereScene twoPixelCamera
        (twoPixelRenderer, 0) = some (rA, kA) ∧
      Renderer.RenderFl (fun x => x) Rat.sqrt (fun _ => ⟨1, 1, 1⟩) oneSphereScene
        twoPixelCamera (twoPixelRenderer, 7) = some (rB, kB) ∧
      Renderer.renderSeqFl (fun x => x) Rat.sqrt zeroRand (fun _ => oneSphereScene)
        (fun _ => twoPixelCamera) 3 (twoPixelRenderer, 0) = some (rN, kN) ∧
      rN.m_ImageData = rA.m_ImageData ∧ rB.m_ImageData = rA.m_ImageData) ∧
    ∀ n ∈ [1, 2, 3, 4, 5],
      (Renderer.renderSeqFl roundBinary32 sqrtBinary32 zeroRand (fun _ => oneSphereScene)
          (fun _ => twoPixelCamera) n (twoPixelRenderer, 0)).map
        (fun s => s.1.m_ImageData) = some [4294924799, 4293243545] := by
  obtain ⟨h1, h2, h3⟩ := Renderer.determinismFl_without_roughness (fun x => x) Rat.sqrt
    zeroRand (fun _ => ⟨1, 1, 1⟩) oneSphereScene twoPixelCamera twoPixelRenderer 0 7 2 1 3
    (by
      intro material hmem
      have : material = ⟨⟨1, 0, 1⟩, 0⟩ := by simpa [oneSphereScene] using hmem
      rw [this])
    twoPixelRenderer_sized.1 oneSphereScene_valid (by decide) (by decide) (by decide)
    (by decide) (by decide)
  exact ⟨h1, h2 (fun _ => rfl), h3⟩
